import Mathlib

/-!
TCPioneer: wire codecs, classification tables and divert daemons.

A shallow embedding of `main.go`.  Byte slices and Go strings are lists of
bytes (`Nat` values below 256).  Code that can fault at run time (an index
or a slice bound outside the slice) runs in `Except Fault`; loops whose
number of iterations is not fixed by a counter carry an iteration bound.
-/

namespace TCPioneer

/-! ## Definitions -/

/-- Ways in which a run of the embedded code stops without a result. -/
inductive Fault where
  /-- Go run-time panic: an index or a slice bound lies outside the slice. -/
  | outOfRange
  /-- The iteration bound of the embedding was used up. -/
  | fuel
  deriving DecidableEq, Repr

deriving instance DecidableEq for Except

/-- Byte slices (`[]byte`) and Go strings: sequences of bytes. -/
abbrev Bytes := List Nat

/-- Bytes of an ASCII literal. -/
def ascii (s : String) : Bytes := s.toList.map Char.toNat

/-- Indexing `b[i]`. -/
def byteAt (b : Bytes) (i : Nat) : Except Fault Nat :=
  match b[i]? with
  | some v => .ok v
  | none => .error .outOfRange

/-- Slice expression `b[lo:hi]` on a slice `b` whose capacity is its length.
Go bounds `hi` by `cap(b)`; where spare capacity decides the outcome the bytes
of the backing array after `len(b)` are appended to `b` (`getQNameCap`). -/
def slice (b : Bytes) (lo hi : Nat) : Except Fault Bytes :=
  if lo ≤ hi ∧ hi ≤ b.length then .ok ((b.take hi).drop lo) else .error .outOfRange

/-- Slice expression `b[lo:]`. -/
def sliceFrom (b : Bytes) (lo : Nat) : Except Fault Bytes :=
  if lo ≤ b.length then .ok (b.drop lo) else .error .outOfRange

/-- Slice expression `b[:hi]` on a slice `b` whose capacity is its length. -/
def sliceTo (b : Bytes) (hi : Nat) : Except Fault Bytes :=
  if hi ≤ b.length then .ok (b.take hi) else .error .outOfRange

/-- Function `binary.BigEndian.Uint16`. -/
def Uint16 (b : Bytes) : Except Fault Nat :=
  match b with
  | hi :: lo :: _ => .ok (hi * 256 + lo)
  | _ => .error .outOfRange

/-- Function `binary.BigEndian.Uint32`. -/
def Uint32 (b : Bytes) : Except Fault Nat :=
  match b with
  | b0 :: b1 :: b2 :: b3 :: _ => .ok (((b0 * 256 + b1) * 256 + b2) * 256 + b3)
  | _ => .error .outOfRange

/-- Policy entry bound to a domain. -/
structure Config where
  Level : Nat
  ANCount4 : Nat
  ANCount6 : Nat
  Answers4 : Bytes
  Answers6 : Bytes
  deriving DecidableEq, Repr

/-- The map `DomainMap`, seen through its lookup `DomainMap[key]`. -/
abbrev DomainTable := Bytes → Option Config

/-- The map `IPMap`, seen through its lookup. -/
abbrev IPTable := Bytes → Option Nat

/-- The value `Config{0, 0, 0, nil, nil}`. -/
def level0 : Config := ⟨0, 0, 0, [], []⟩

/-- Function `strings.Index(s, ".")`; `none` is Go's `-1`. -/
def indexDot : Bytes → Option Nat
  | [] => none
  | c :: s => if c = 46 then some 0 else (indexDot s).map (· + 1)

/-- The `for i := 0; i < 2; i++` loop of `domainLookup`; `n` is the number of
rounds left. -/
def domainLookupLoop (DomainMap : DomainTable) (qname : Bytes) : Nat → Nat → Config
  | 0, _ => level0
  | n + 1, offset =>
    match indexDot (qname.drop offset) with
    | none => level0
    | some off =>
      let offset := offset + off
      match DomainMap (qname.drop offset) with
      | some config => config
      | none => domainLookupLoop DomainMap qname n (offset + 1)

/-- Function `domainLookup`. -/
def domainLookup (DomainMap : DomainTable) (qname : Bytes) : Config :=
  match DomainMap qname with
  | some config => config
  | none => domainLookupLoop DomainMap qname 2 0

/-- The label loop of `getQName`.  `none` is `return "", 0, 0`, `some` is the
state at `break`. -/
def getQNameLoop (buf : Bytes) : Nat → Bytes → Nat → Except Fault (Option (Bytes × Nat))
  | 0, _, _ => .error .fuel
  | fuel + 1, qname, off =>
    if off ≥ buf.length then .ok none
    else do
      let length ← byteAt buf off
      let off := off + 1
      if length = 0 then .ok (some (qname, off))
      else
        let end_ := off + length
        if end_ > buf.length then .ok none
        else do
          let label ← slice buf off end_
          getQNameLoop buf fuel (qname ++ 46 :: label) end_

/-- Function `getQName`.  Every round of the label loop moves `off` forward,
so `len(buf) + 1` rounds are never used up. -/
def getQName (buf : Bytes) : Except Fault (Bytes × Nat × Nat) :=
  let bufflen := buf.length
  if bufflen < 13 then .ok ([], 0, 0)
  else do
    let length ← byteAt buf 12
    let off := 13
    let end_ := off + length
    let qname ← slice buf off end_
    let off := end_
    match ← getQNameLoop buf (bufflen + 1) qname off with
    | none => .ok ([], 0, 0)
    | some (qname, off) =>
      let end_ := off + 4
      if end_ > bufflen then .ok ([], 0, 0)
      else do
        let q ← slice buf off (off + 2)
        let qtype ← Uint16 q
        .ok (qname, qtype, end_)

/-- A `DomainMap` with one key. -/
def singleKey (d : Bytes) (c : Config) : DomainTable :=
  fun k => if k = d then some c else none

/-- The empty `DomainMap`. -/
def emptyDomains : DomainTable := fun _ => none

/-- Wire form of a sequence of labels: each one a length byte then its bytes. -/
def encodeLabels : List Bytes → Bytes
  | [] => []
  | l :: ls => l.length :: l ++ encodeLabels ls

/-- Labels joined with `.`. -/
def joinDots : List Bytes → Bytes
  | [] => []
  | [l] => l
  | l :: l' :: ls => l ++ 46 :: joinDots (l' :: ls)

/-- Total wire length of a sequence of labels, `sum (1 + L_i)`. -/
def labelsLen : List Bytes → Nat
  | [] => 0
  | l :: ls => 1 + l.length + labelsLen ls

/-- Call `make([]byte, n)`. -/
def makeBytes (n : Nat) : Bytes := List.replicate n 0

/-- Contents of `dst` after `copy(dst[off:], src)`: `copy` stops at the end
of the shorter slice. -/
def copyBytes (dst : Bytes) (off : Nat) (src : Bytes) : Bytes :=
  dst.take off ++ src.take (dst.length - off) ++ dst.drop (off + src.length)

/-- Statement `copy(dst[off:], src)`, giving the new contents of `dst`: the
slice expression faults when `off > len(dst)`. -/
def copyAt (dst : Bytes) (off : Nat) (src : Bytes) : Except Fault Bytes :=
  if off ≤ dst.length then .ok (copyBytes dst off src) else .error .outOfRange

/-- Method `net.IP.To4`; `none` is `nil`. -/
def To4 (ip : Bytes) : Option Bytes :=
  if ip.length = 4 then some ip
  else if ip.length = 16 ∧ ip.take 10 = List.replicate 10 0 ∧ ip[10]? = some 0xff
      ∧ ip[11]? = some 0xff then some (ip.drop 12)
  else none

/-- Function `net.IPv4`: the 16-byte form of the IPv4 address `a.b.c.d`. -/
def IPv4 (a b c d : Nat) : Bytes :=
  [0, 0, 0, 0, 0, 0, 0, 0, 0, 0, 0xff, 0xff, a, b, c, d]

/-- First loop of `packAnswers`, carrying `(totalLen, count)`.  `ParseIP` is
`net.ParseIP`, whose `nil` is the empty slice. -/
def packAnswersCount (ParseIP : Bytes → Bytes) (qtype : Nat) : List Bytes → Nat → Nat → Nat × Nat
  | [], totalLen, count => (totalLen, count)
  | ip :: ips, totalLen, count =>
    let ip4 := To4 (ParseIP ip)
    if ip4 ≠ none ∧ qtype = 1 then
      packAnswersCount ParseIP qtype ips (totalLen + 16) (count + 1)
    else if qtype = 28 then
      packAnswersCount ParseIP qtype ips (totalLen + 28) (count + 1)
    else
      packAnswersCount ParseIP qtype ips totalLen count

/-- Second loop of `packAnswers`, carrying `(answers, length)`. -/
def packAnswersFill (ParseIP : Bytes → Bytes) (qtype : Nat) :
    List Bytes → Bytes → Nat → Except Fault Bytes
  | [], answers, _ => .ok answers
  | strIP :: ips, answers, length =>
    let ip := ParseIP strIP
    match To4 ip with
    | some ip4 =>
      if qtype = 1 then do
        let a ← byteAt ip4 0
        let b ← byteAt ip4 1
        let c ← byteAt ip4 2
        let d ← byteAt ip4 3
        let answer := [0xC0, 0x0C, 0x00, 1, 0x00, 0x01, 0x00, 0x00, 0x0E, 0x10, 0x00, 0x04,
          a, b, c, d]
        let answers ← copyAt answers length answer
        packAnswersFill ParseIP qtype ips answers (length + 16)
      else packAnswersFill ParseIP qtype ips answers length
    | none =>
      if qtype = 28 then do
        let answer := [0xC0, 0x0C, 0x00, 28, 0x00, 0x01, 0x00, 0x00, 0x0E, 0x10, 0x00, 0x10]
        let answers ← copyAt answers length answer
        let length := length + 12
        let answers ← copyAt answers length ip
        packAnswersFill ParseIP qtype ips answers (length + 16)
      else packAnswersFill ParseIP qtype ips answers length

/-- Function `packAnswers`. -/
def packAnswers (ParseIP : Bytes → Bytes) (ips : List Bytes) (qtype : Nat) :
    Except Fault (Nat × Bytes) :=
  let (totalLen, count) := packAnswersCount ParseIP qtype ips 0 0
  do
    let answers ← packAnswersFill ParseIP qtype ips (makeBytes totalLen) 0
    .ok (count, answers)

/-- The owner-name loop of `getAnswers`.  `none` is `return nil`, `some` is
the offset at `break`. -/
def skipName (answers : Bytes) : Nat → Nat → Except Fault (Option Nat)
  | 0, _ => .error .fuel
  | fuel + 1, offset =>
    if offset ≥ answers.length then .ok none
    else do
      let length ← byteAt answers offset
      let offset := offset + 1
      if length = 0 then .ok (some offset)
      else if length < 63 then
        let offset := offset + length
        if offset + 2 > answers.length then .ok none
        else skipName answers fuel offset
      else .ok (some (offset + 1))

/-- The record loop `for i := 0; i < count; i++` of `getAnswers`; the first
argument is the number of records still to read.  `IPString` is
`net.IP.String`.  Every round of the owner-name loop moves `offset` forward,
so `len(answers) + 1` rounds are never used up. -/
def getAnswersLoop (IPString : Bytes → Bytes) (answers : Bytes) :
    Nat → Nat → List Bytes → Except Fault (Option (List Bytes))
  | 0, _, ips => .ok (some ips)
  | n + 1, offset, ips => do
    match ← skipName answers (answers.length + 1) offset with
    | none => .ok none
    | some offset =>
      if offset + 2 > answers.length then .ok none
      else do
        let AType ← Uint16 (← slice answers offset (offset + 2))
        let offset := offset + 8
        if offset + 2 > answers.length then .ok none
        else do
          let DataLength ← Uint16 (← slice answers offset (offset + 2))
          let offset := offset + 2
          let r ← (
            if AType = 1 then
              if offset + 4 > answers.length then .ok none
              else do
                let data ← slice answers offset (offset + 4)
                let ip := IPString (IPv4 (← byteAt data 0) (← byteAt data 1) (← byteAt data 2)
                  (← byteAt data 3))
                .ok (some (ips ++ [ip]))
            else if AType = 28 then
              if offset + 16 > answers.length then .ok none
              else do
                let ip := IPString (← slice answers offset (offset + 16))
                .ok (some (ips ++ [ip]))
            else .ok (some ips) : Except Fault (Option (List Bytes)))
          match r with
          | none => .ok none
          | some ips => getAnswersLoop IPString answers n (offset + DataLength) ips

/-- Function `getAnswers`; `none` is the `nil` result. -/
def getAnswers (IPString : Bytes → Bytes) (answers : Bytes) (count : Nat) :
    Except Fault (Option (List Bytes)) :=
  getAnswersLoop IPString answers count 0 []

/-- The addresses used in the examples, as `net.ParseIP` parses them. -/
def sampleParseIP (s : Bytes) : Bytes :=
  if s = ascii "1.2.3.4" then IPv4 1 2 3 4
  else if s = ascii "5.6.7.8" then IPv4 5 6 7 8
  else if s = ascii "2001:db8::1" then [0x20, 0x01, 0x0d, 0xb8, 0, 0, 0, 0, 0, 0, 0, 0, 0, 0, 0, 1]
  else if s = ascii "::1" then [0, 0, 0, 0, 0, 0, 0, 0, 0, 0, 0, 0, 0, 0, 0, 1]
  else []

/-- The addresses used in the examples, as `net.IP.String` prints them. -/
def sampleIPString (ip : Bytes) : Bytes :=
  if ip = IPv4 1 2 3 4 then ascii "1.2.3.4"
  else if ip = IPv4 5 6 7 8 then ascii "5.6.7.8"
  else if ip = [0x20, 0x01, 0x0d, 0xb8, 0, 0, 0, 0, 0, 0, 0, 0, 0, 0, 0, 1] then ascii "2001:db8::1"
  else if ip = [0, 0, 0, 0, 0, 0, 0, 0, 0, 0, 0, 0, 0, 0, 0, 1] then ascii "::1"
  else ascii "?"

/-- Whether the text `s` is an IPv4 address: `net.ParseIP(s).To4() != nil`. -/
def isIPv4 (ParseIP : Bytes → Bytes) (s : Bytes) : Bool := (To4 (ParseIP s)).isSome

/-- Whether `s` belongs to the family asked for by `qtype` (1: IPv4, otherwise IPv6). -/
def inFamily (ParseIP : Bytes → Bytes) (qtype : Nat) (s : Bytes) : Bool :=
  if qtype = 1 then isIPv4 ParseIP s else !isIPv4 ParseIP s

/-- The resource record that the spec describes for one address: pointer
`C0 0C`, type, class `00 01`, TTL `00 00 0E 10`, rdlength 4 or 16, raw address. -/
def recordOf (ParseIP : Bytes → Bytes) (qtype : Nat) (s : Bytes) : Bytes :=
  if qtype = 1 then
    [0xC0, 0x0C, 0x00, 1, 0x00, 0x01, 0x00, 0x00, 0x0E, 0x10, 0x00, 0x04]
      ++ ((To4 (ParseIP s)).getD [])
  else
    [0xC0, 0x0C, 0x00, 28, 0x00, 0x01, 0x00, 0x00, 0x0E, 0x10, 0x00, 0x10] ++ ParseIP s

/-- Reference definition of the answer bytes: one record per address of the
requested family, in order. -/
def recordsOf (ParseIP : Bytes → Bytes) (qtype : Nat) (ips : List Bytes) : Bytes :=
  ((ips.filter (inFamily ParseIP qtype)).map (recordOf ParseIP qtype)).flatten

/-- Contents of `b` after the two bytes of `uint16(v)` are stored at `off`,
high byte first. -/
def put16 (b : Bytes) (off v : Nat) : Bytes :=
  (b.set off (v / 256 % 256)).set (off + 1) (v % 256)

/-- Statement `binary.BigEndian.PutUint16(b[off:], uint16(v))`, giving the
new contents of `b`. -/
def PutUint16 (b : Bytes) (off v : Nat) : Except Fault Bytes :=
  if off + 2 ≤ b.length then .ok (put16 b off v) else .error .outOfRange

/-- Contents of `b` after the four bytes of `uint32(v)` are stored at `off`,
high byte first. -/
def put32 (b : Bytes) (off v : Nat) : Bytes :=
  (((b.set off (v / 16777216 % 256)).set (off + 1) (v / 65536 % 256)).set (off + 2)
    (v / 256 % 256)).set (off + 3) (v % 256)

/-- Statement `binary.BigEndian.PutUint32(b[off:], uint32(v))`, giving the
new contents of `b`. -/
def PutUint32 (b : Bytes) (off v : Nat) : Except Fault Bytes :=
  if off + 4 ≤ b.length then .ok (put32 b off v) else .error .outOfRange

/-- Statement `b[i] = v`, giving the new contents of `b`. -/
def setByte (b : Bytes) (i v : Nat) : Except Fault Bytes :=
  if i < b.length then .ok (b.set i v) else .error .outOfRange

/-- The process-wide variables of `main.go` that the daemons read. -/
structure Globals where
  DomainMap : DomainTable
  IPMap : IPTable
  DNS : Bytes
  TTL : Int
  MSS : Int
  LocalDNS : Bool
  IPv6Enable : Bool
  LogLevel : Int

/-- The variables as the program starts: `TTL = 0`, `MSS = 1024`, the flags
false and the maps not yet made. -/
def initialGlobals : Globals :=
  { DomainMap := fun _ => none, IPMap := fun _ => none, DNS := [], TTL := 0, MSS := 1024,
    LocalDNS := false, IPv6Enable := false, LogLevel := 0 }

/-- Assignment `m[key] = v` on a map seen through its lookup. -/
def mapSet {α : Type} (m : Bytes → Option α) (key : Bytes) (v : α) : Bytes → Option α :=
  fun k => if k = key then some v else m k

/-- First index of the byte `c` in `s`, as `strings.Index` with a one-byte
separator; `none` is `-1`. -/
def indexByte (c : Nat) : Bytes → Option Nat
  | [] => none
  | x :: s => if x = c then some 0 else (indexByte c s).map (· + 1)

/-- Call `strings.SplitN(s, "=", 2)`. -/
def splitKeyValue (s : Bytes) : List Bytes :=
  match indexByte 61 s with
  | none => [s]
  | some i => [s.take i, s.drop (i + 1)]

/-- Call `strings.Split(s, ",")`. -/
def splitCommas : Bytes → List Bytes
  | [] => [[]]
  | x :: s =>
    if x = 44 then [] :: splitCommas s
    else
      match splitCommas s with
      | [] => [[x]]
      | h :: t => (x :: h) :: t

/-- The loop `for _, ip := range ips { IPMap[ip] = level }`. -/
def bindIPs (IPMap : IPTable) (level : Nat) : List Bytes → IPTable
  | [] => IPMap
  | ip :: ips => bindIPs (mapSet IPMap ip level) level ips

/-- One round of the line loop of `loadConfig`, on the line `line` that
`ReadLine` returned, giving the variables and the current `level`; `none` is
`return err`.  `Atoi` is `strconv.Atoi`, `none` its error. -/
def loadConfigLine (ParseIP : Bytes → Bytes) (Atoi : Bytes → Option Int) (g : Globals)
    (level : Nat) (line : Bytes) : Except Fault (Option (Globals × Nat)) :=
  if line.length > 0 then
    if line.head? = some 35 then
      if line = ascii "#LEVEL0" then .ok (some (g, 0))
      else if line = ascii "#LEVEL1" then .ok (some (g, 1))
      else if line = ascii "#LEVEL2" then .ok (some (g, 2))
      else if line = ascii "#LEVEL3" then .ok (some (g, 3))
      else if line = ascii "#LEVEL4" then .ok (some (g, 4))
      else .ok (some (g, level))
    else
      match splitKeyValue line with
      | [key, value] =>
        if key = ascii "server" then
          let g := { g with DNS := value }
          if value = ascii "127.0.0.1:53" ∨ value = ascii "[::1]:53" then
            .ok (some ({ g with LocalDNS := true }, level))
          else .ok (some (g, level))
        else if key = ascii "ttl" then
          match Atoi value with
          | none => .ok none
          | some v => .ok (some ({ g with TTL := v }, level))
        else if key = ascii "mss" then
          match Atoi value with
          | none => .ok none
          | some v => .ok (some ({ g with MSS := v }, level))
        else if key = ascii "log" then
          match Atoi value with
          | none => .ok none
          | some v => .ok (some ({ g with LogLevel := v }, level))
        else do
          let ips := splitCommas value
          let IPMap := bindIPs g.IPMap level ips
          let (count4, answer4) ← packAnswers ParseIP ips 1
          let (count6, answer6) ← packAnswers ParseIP ips 28
          let config : Config := ⟨level % 65536, count4 % 65536, count6 % 65536, answer4, answer6⟩
          .ok (some ({ g with IPMap := IPMap, DomainMap := mapSet g.DomainMap key config }, level))
      | keys =>
        let key := keys.headD []
        if key = ascii "local-dns" then .ok (some ({ g with LocalDNS := true }, level))
        else if key = ascii "ipv6" then .ok (some ({ g with IPv6Enable := true }, level))
        else
          .ok (some ({ g with DomainMap := mapSet g.DomainMap key ⟨level % 65536, 0, 0, [], []⟩ },
            level))
  else .ok (some (g, level))

/-- Method `bufio.Reader.ReadLine` of a reader of the default size, 4096
bytes, on the unread content `conf` of the file: the line returned, without
its `\n` or `\r\n`, and the content left; `none` is `io.EOF`.  When the 4096
bytes of the reader hold no `\n` they are returned as they are (`isPrefix`,
which `loadConfig` discards), but for a last `\r`, which is left for the next
call, and the rest of the line comes with the calls that follow. -/
def ReadLine (conf : Bytes) : Option (Bytes × Bytes) :=
  if conf = [] then none
  else
    match indexByte 10 (conf.take 4096) with
    | some i =>
      let line := conf.take i
      some (if line.getLast? = some 13 then line.dropLast else line, conf.drop (i + 1))
    | none =>
      if 4096 ≤ conf.length then
        if (conf.take 4096).getLast? = some 13 then some (conf.take 4095, conf.drop 4095)
        else some (conf.take 4096, conf.drop 4096)
      else some (conf, [])

/-- The line loop `for { line, _, err := br.ReadLine() ... }` of `loadConfig`
on the unread content `conf` of the file.  Every `ReadLine` takes at least one
byte, so `len(config) + 1` rounds are never used up. -/
def loadConfigLoop (ParseIP : Bytes → Bytes) (Atoi : Bytes → Option Int) :
    Nat → Bytes → Globals → Nat → Except Fault (Option Globals)
  | 0, _, _, _ => .error .fuel
  | fuel + 1, conf, g, level =>
    match ReadLine conf with
    | none => .ok (some g)
    | some (line, conf) => do
      match ← loadConfigLine ParseIP Atoi g level line with
      | none => .ok none
      | some (g, level) => loadConfigLoop ParseIP Atoi fuel conf g level

/-- Function `loadConfig` on a file `config` with the content `config`; `none`
is a non-nil error. -/
def loadConfig (ParseIP : Bytes → Bytes) (Atoi : Bytes → Option Int) (config : Bytes)
    (g : Globals) : Except Fault (Option Globals) :=
  loadConfigLoop ParseIP Atoi (config.length + 1) config
    { g with DomainMap := fun _ => none, IPMap := fun _ => none } 0

/-- The content of a file made of the lines `lines`, each ended by `\n`. -/
def configFile : List Bytes → Bytes
  | [] => []
  | l :: ls => l ++ 10 :: configFile ls

/-- A packet given to `winDivert.Send`: its bytes `Raw` as the daemon wrote
them, and whether `CalcNewChecksum` was called on it first.  The divert
facility's checksum recomputation is outside this repository; it rewrites the
IP, UDP and TCP checksum fields and nothing else. -/
structure Sent where
  Raw : Bytes
  checksum : Bool
  deriving DecidableEq, Repr

/-- What one round of the capture loop of `DNSDaemon` does: the scratch buffer
`rawbuf` it leaves, the packets it sends, and the level given to the upstream
lookup goroutine when one is started. -/
structure DNSOut where
  rawbuf : Bytes
  sent : List Sent
  tunnel : Option Nat
  deriving DecidableEq, Repr

/-- The statements that both reply branches of `DNSDaemon` share (lines
312-332 and 347-367): the fixed IP header, the length field, the swapped
addresses and ports, the UDP length, the copied request and the flags.
Gives `(rawbuf, packetsize, ipheadlen)`. -/
def forgeCommon (rawbuf Raw request : Bytes) (ipv6 : Bool) (ipheadlen udpsize : Nat) :
    Except Fault (Bytes × Nat × Nat) := do
  let (rawbuf, packetsize, ipheadlen) ← (
    if ipv6 then do
      let rawbuf ← copyAt rawbuf 0 [96, 12, 19, 68, 0, 98, 17, 128]
      let packetsize := 40 + udpsize
      let rawbuf ← PutUint16 rawbuf 4 udpsize
      let rawbuf ← copyAt rawbuf 8 (← slice Raw 24 40)
      let rawbuf ← copyAt rawbuf 24 (← slice Raw 8 24)
      pure (rawbuf, packetsize, ipheadlen)
    else do
      let rawbuf ← copyAt rawbuf 0 [69, 0, 1, 32, 141, 152, 64, 0, 64, 17, 150, 46]
      let packetsize := 20 + udpsize
      let rawbuf ← PutUint16 rawbuf 2 packetsize
      let rawbuf ← copyAt rawbuf 12 (← slice Raw 16 20)
      let rawbuf ← copyAt rawbuf 16 (← slice Raw 12 16)
      pure (rawbuf, packetsize, 20) : Except Fault (Bytes × Nat × Nat))
  let rawbuf ← copyAt rawbuf ipheadlen (← slice Raw (ipheadlen + 2) (ipheadlen + 4))
  let rawbuf ← copyAt rawbuf (ipheadlen + 2) (← slice Raw ipheadlen (ipheadlen + 2))
  let rawbuf ← PutUint16 rawbuf (ipheadlen + 4) udpsize
  let rawbuf ← copyAt rawbuf (ipheadlen + 8) request
  let rawbuf ← setByte rawbuf (ipheadlen + 10) 0x81
  let rawbuf ← setByte rawbuf (ipheadlen + 11) 0x80
  pure (rawbuf, packetsize, ipheadlen)

/-- The `noRecord` branch of `DNSDaemon`: the empty reply. -/
def forgeEmpty (rawbuf Raw : Bytes) (ipv6 : Bool) (ipheadlen : Nat) : Except Fault DNSOut := do
  let request ← sliceFrom Raw (ipheadlen + 8)
  let udpsize := request.length + 8
  let (rawbuf, packetsize, ipheadlen) ← forgeCommon rawbuf Raw request ipv6 ipheadlen udpsize
  let rawbuf ← PutUint16 rawbuf (ipheadlen + 14) 0
  let out ← sliceTo rawbuf packetsize
  pure ⟨rawbuf, [⟨out, true⟩], none⟩

/-- The `anCount > 0` branch of `DNSDaemon`: the reply carrying the stored
answers. -/
def forgeAnswer (rawbuf Raw : Bytes) (ipv6 : Bool) (ipheadlen anCount : Nat) (answers : Bytes) :
    Except Fault DNSOut := do
  let request ← sliceFrom Raw (ipheadlen + 8)
  let udpsize := request.length + answers.length + 8
  let (rawbuf, packetsize, ipheadlen) ← forgeCommon rawbuf Raw request ipv6 ipheadlen udpsize
  let rawbuf ← PutUint16 rawbuf (ipheadlen + 14) anCount
  let rawbuf ← copyAt rawbuf (ipheadlen + 8 + request.length) answers
  let out ← sliceTo rawbuf packetsize
  pure ⟨rawbuf, [⟨out, true⟩], none⟩

/-- The choice `(noRecord, anCount, answers)` that `DNSDaemon` makes for a
policy of level above 0. -/
def chooseAnswers (IPv6Enable : Bool) (config : Config) (qtype : Nat) : Bool × Nat × Bytes :=
  if !IPv6Enable ∧ qtype = 28 then (true, 0, [])
  else if qtype = 1 then
    if config.ANCount6 > 0 ∧ config.ANCount4 = 0 then (true, 0, [])
    else (false, config.ANCount4, config.Answers4)
  else if qtype = 28 then
    if config.ANCount4 > 0 ∧ config.ANCount6 = 0 then (true, 0, [])
    else (false, config.ANCount6, config.Answers6)
  else (false, 0, [])

/-- The test `ipv6 := packet.Raw[0]>>4 == 6` that opens every daemon's round,
on the byte `b0 = packet.Raw[0]`.  Bytes are below 256, so `b0>>4` is
`b0 / 16`. -/
def isIPv6 (b0 : Nat) : Bool := b0 / 16 = 6

/-- The value of `ipheadlen` that every daemon computes: 40 for IPv6,
`int(packet.Raw[0]&0xF) * 4` otherwise (`b0&0xF` is `b0 % 16`). -/
def ipHeadLen (b0 : Nat) : Nat := if isIPv6 b0 then 40 else b0 % 16 * 4

/-- One round of the capture loop of `DNSDaemon` on the captured packet `Raw`,
with the scratch buffer `rawbuf` left by the rounds before. -/
def DNSDaemonStep (g : Globals) (rawbuf Raw : Bytes) : Except Fault DNSOut := do
  let b0 ← byteAt Raw 0
  let ipv6 := isIPv6 b0
  let ipheadlen := ipHeadLen b0
  let udpheadlen := 8
  let (qname, qtype, _) ← getQName (← sliceFrom Raw (ipheadlen + udpheadlen))
  if qname = [] then pure ⟨rawbuf, [], none⟩
  else
    let config := domainLookup g.DomainMap qname
    if config.Level > 0 then
      let (noRecord, anCount, answers) := chooseAnswers g.IPv6Enable config qtype
      if noRecord then forgeEmpty rawbuf Raw ipv6 ipheadlen
      else if anCount > 0 then forgeAnswer rawbuf Raw ipv6 ipheadlen anCount answers
      else if !g.LocalDNS then pure ⟨rawbuf, [], some config.Level⟩
      else pure ⟨rawbuf, [], none⟩
    else pure ⟨rawbuf, [⟨Raw, false⟩], none⟩

/-- Header length of a reply forged by `DNSDaemon`: 40 for IPv6, 20 for IPv4. -/
def replyHeadLen (b0 : Nat) : Nat := if isIPv6 b0 then 40 else 20

/-- The DNS message the spec describes for a forged reply: the query's
message with flags `0x8180` in bytes 2-3 and `anCount` in bytes 6-7, followed
by the answer bytes. -/
def forgedMessage (request : Bytes) (anCount : Nat) (answers : Bytes) : Bytes :=
  put16 ((request.set 2 0x81).set 3 0x80) 6 anCount ++ answers

/-- An IPv4 UDP query to port 53 whose IP header carries `options` (a
multiple of 4 bytes, at most 40) and whose DNS message is `dns`. -/
def queryV4 (options : Bytes) (srcPort dstPort : Nat) (dns : Bytes) : Bytes :=
  [64 + (5 + options.length / 4), 0, 0, 0, 0, 0, 64, 0, 64, 17, 0, 0, 10, 0, 0, 1, 8, 8, 8, 8]
    ++ options
    ++ [srcPort / 256, srcPort % 256, dstPort / 256, dstPort % 256, 0, 0, 0, 0]
    ++ dns

/-- A DNS query message for `example.com` with the given QTYPE. -/
def exampleQuery (qtype : Nat) : Bytes :=
  [0xAB, 0xCD, 1, 0, 0, 1, 0, 0, 0, 0, 0, 0]
    ++ encodeLabels [ascii "example", ascii "com"] ++ [0, 0, qtype, 0, 1]

/-- The variables after `loadConfig` has read the file made of the lines
`lines` with the sample addresses; the initial ones when `loadConfig` does not
succeed. -/
def configured (lines : List Bytes) : Globals :=
  match loadConfig sampleParseIP (fun _ => none) (configFile lines) initialGlobals with
  | .ok (some g) => g
  | _ => initialGlobals

/-- Decimal numbers used in the examples, as `strconv.Atoi` reads them. -/
def sampleAtoi (s : Bytes) : Option Int :=
  if s = ascii "0" then some 0 else if s = ascii "64" then some 64 else none

/-- The extension loop `for offset < ExtensionsEnd` of `getSNI`.  Every round
moves `offset` forward by at least 4, so `ExtensionsLength + 1` rounds are
never used up. -/
def getSNILoop (b : Bytes) (ExtensionsEnd : Nat) : Nat → Nat → Except Fault (Nat × Nat)
  | 0, _ => .error .fuel
  | fuel + 1, offset =>
    if offset < ExtensionsEnd then do
      let ExtensionType ← Uint16 (← slice b offset (offset + 2))
      let offset := offset + 2
      let ExtensionLength ← Uint16 (← slice b offset (offset + 2))
      let offset := offset + 2
      if ExtensionType = 0 then do
        let offset := offset + 2
        let offset := offset + 1
        let ServerNameLength ← Uint16 (← slice b offset (offset + 2))
        let offset := offset + 2
        .ok (offset, ServerNameLength)
      else getSNILoop b ExtensionsEnd fuel (offset + ExtensionLength)
    else .ok (0, 0)

/-- Function `getSNI`.  The test `len(b) <= int(Length)-5` is on signed
integers, so it reads `len(b) + 5 ≤ Length`. -/
def getSNI (b : Bytes) : Except Fault (Nat × Nat) := do
  let Length ← Uint16 (← slice b 3 5)
  if b.length + 5 ≤ Length then .ok (0, 0)
  else do
    let offset := 11 + 32
    let SessionIDLength ← byteAt b offset
    let offset := offset + (1 + SessionIDLength)
    let CipherSuitersLength ← Uint16 (← slice b offset (offset + 2))
    let offset := offset + (2 + CipherSuitersLength)
    if offset ≥ b.length then .ok (0, 0)
    else do
      let CompressionMethodsLenght ← byteAt b offset
      let offset := offset + (1 + CompressionMethodsLenght)
      let ExtensionsLength ← Uint16 (← slice b offset (offset + 2))
      let offset := offset + 2
      let ExtensionsEnd := offset + ExtensionsLength
      getSNILoop b ExtensionsEnd (ExtensionsLength + 1) offset

/-- The decoy that `hello` and `DOTDaemon` write into `rawbuf`: with a
positive `TTL` the copied headers with the TTL byte replaced, otherwise the
headers cut at 20 bytes of TCP, 20 fixed bytes and the data-offset nibble 10.
`byte(TTL)` is `TTL % 256`. -/
def fakeHeaders (rawbuf Raw : Bytes) (TTL : Int) (ipv6 : Bool) (ipheadlen tcpheadlen : Nat) :
    Except Fault Bytes :=
  if TTL > 0 then do
    let rawbuf ← copyAt rawbuf 0 (← sliceTo Raw (ipheadlen + tcpheadlen))
    if ipv6 then setByte rawbuf 7 (TTL % 256).toNat
    else setByte rawbuf 8 (TTL % 256).toNat
  else do
    let rawbuf ← copyAt rawbuf 0 (← sliceTo Raw (ipheadlen + 20))
    let rawbuf ← copyAt rawbuf (ipheadlen + 20)
      [19, 18, 0, 0, 0, 0, 0, 0, 0, 0, 0, 0, 0, 0, 0, 0, 0, 0, 0, 0]
    setByte rawbuf (ipheadlen + 12) 160

/-- Function `hello` from the moment the first PSH segment `Raw` of the
watched port has been received (`packet.PacketLen` is `len(packet.Raw)`), with
every `Send` succeeding: the packets sent, in order.  The `uint16` values
`totallen` and `totallen-uint16(ipheadlen)` wrap around modulo 65536. -/
def hello (TTL : Int) (Raw : Bytes) : Except Fault (List Sent) := do
  let b0 ← byteAt Raw 0
  let ipv6 := isIPv6 b0
  let ipheadlen := ipHeadLen b0
  let tcpheadlen := (← byteAt Raw (ipheadlen + 12)) / 16 * 4
  let (sni_offset, sni_length) ← getSNI (← sliceFrom Raw (ipheadlen + tcpheadlen))
  let rawbuf := makeBytes 1500
  if sni_length > 0 then do
    let rawbuf ← fakeHeaders rawbuf Raw TTL ipv6 ipheadlen tcpheadlen
    let fake_packet : Sent := ⟨← sliceTo rawbuf Raw.length, true⟩
    let sni_cut_offset := sni_offset + sni_length / 2
    let total_cut_offset := ipheadlen + tcpheadlen + sni_cut_offset
    let prefix_rawbuf := makeBytes 1500
    let prefix_rawbuf ← copyAt prefix_rawbuf 0 (← sliceTo Raw total_cut_offset)
    let prefix_rawbuf ←
      if ipv6 then PutUint16 prefix_rawbuf 4 (total_cut_offset - ipheadlen)
      else PutUint16 prefix_rawbuf 2 total_cut_offset
    let prefix_packet : Sent := ⟨← sliceTo prefix_rawbuf total_cut_offset, true⟩
    let seqNum ← Uint32 (← slice Raw (ipheadlen + 4) (ipheadlen + 8))
    let rawbuf ← copyAt rawbuf 0 (← sliceTo Raw (ipheadlen + tcpheadlen))
    let rawbuf ← copyAt rawbuf (ipheadlen + tcpheadlen) (← sliceFrom Raw total_cut_offset)
    let totallen := (Raw.length % 65536 + 65536 - sni_cut_offset % 65536) % 65536
    let rawbuf ←
      if ipv6 then PutUint16 rawbuf 4 ((totallen + 65536 - ipheadlen % 65536) % 65536)
      else PutUint16 rawbuf 2 totallen
    let rawbuf ← PutUint32 rawbuf (ipheadlen + 4) (seqNum + sni_cut_offset)
    let packet : Sent := ⟨← sliceTo rawbuf totallen, true⟩
    pure [fake_packet, prefix_packet, fake_packet, packet]
  else pure [⟨Raw, false⟩]

/-- A TLS record of 58 bytes whose only extension is a `server_name` whose
host-name length field is `n`, with no host name behind it. -/
def shortHello (n : Nat) : Bytes :=
  List.replicate 47 0 ++ [0, 9, 0, 0, 0, 5, 0, 3, 0, n / 256, n % 256]

/-- A TLS record whose only extension is a `server_name` carrying `name`. -/
def clientHello (name : Bytes) : Bytes :=
  List.replicate 47 0
    ++ [0, (name.length + 9) % 256, 0, 0, 0, (name.length + 5) % 256, 0, (name.length + 3) % 256,
      0, 0, name.length % 256]
    ++ name

/-- An IPv4 TCP segment with a 20-byte IP header, a 20-byte TCP header with
sequence number bytes `s0 s1 s2 s3`, and the payload `payload`. -/
def segmentV4 (s0 s1 s2 s3 : Nat) (payload : Bytes) : Bytes :=
  [69, 0, (40 + payload.length) / 256, (40 + payload.length) % 256, 0, 0, 64, 0, 64, 6, 0, 0,
      10, 0, 0, 1, 93, 184, 216, 34]
    ++ [0xC0, 0x01, 1, 187, s0, s1, s2, s3, 0, 0, 0, 0, 80, 24, 255, 255, 0, 0, 0, 0]
    ++ payload

/-- What one round of the capture loop of `DOTDaemon` does: the two scratch
buffers it leaves and the packets it sends, in order. -/
structure DOTOut where
  rawbuf : Bytes
  prefix_rawbuf : Bytes
  sent : List Sent
  deriving DecidableEq, Repr

/-- One round of the capture loop of `DOTDaemon` on the captured segment `Raw`
(`packet.PacketLen` is `len(packet.Raw)`), with the scratch buffers left by
the rounds before and every `Send` succeeding.  The decoy is written by the
same statements as in `hello`; `totallen` is a `uint16` and wraps around. -/
def DOTDaemonStep (TTL : Int) (rawbuf prefix_rawbuf Raw : Bytes) : Except Fault DOTOut := do
  let b0 ← byteAt Raw 0
  let ipv6 := isIPv6 b0
  let ipheadlen := ipHeadLen b0
  let tcpheadlen := (← byteAt Raw (ipheadlen + 12)) / 16 * 4
  let rawbuf ← fakeHeaders rawbuf Raw TTL ipv6 ipheadlen tcpheadlen
  let fake_packet : Sent := ⟨← sliceTo rawbuf Raw.length, true⟩
  let cut_offset := 20
  let total_cut_offset := ipheadlen + tcpheadlen + cut_offset
  let prefix_rawbuf ← copyAt prefix_rawbuf 0 (← sliceTo Raw total_cut_offset)
  let prefix_rawbuf ← PutUint16 prefix_rawbuf 2 total_cut_offset
  let prefix_packet : Sent := ⟨← sliceTo prefix_rawbuf total_cut_offset, true⟩
  let seqNum ← Uint32 (← slice Raw (ipheadlen + 4) (ipheadlen + 8))
  let rawbuf ← copyAt rawbuf 0 (← sliceTo Raw (ipheadlen + tcpheadlen))
  let rawbuf ← copyAt rawbuf (ipheadlen + tcpheadlen) (← sliceFrom Raw total_cut_offset)
  let totallen := (Raw.length % 65536 + 65536 - cut_offset) % 65536
  let rawbuf ← PutUint16 rawbuf 2 totallen
  let rawbuf ← PutUint32 rawbuf (ipheadlen + 4) (seqNum + cut_offset)
  let packet : Sent := ⟨← sliceTo rawbuf totallen, true⟩
  pure ⟨rawbuf, prefix_rawbuf, [fake_packet, prefix_packet, fake_packet, packet]⟩

/-- What one round of the SYN capture loop of `StartService` does: the packets
it sends, the arguments `(SrcPort, TTL)` of the `hello` worker it starts, and
whether it leaves the loop by `return`. -/
structure SynOut where
  sent : List Sent
  worker : Option (Nat × Int)
  stopped : Bool
  deriving DecidableEq, Repr

/-- The block `if level > 2 { ... }` of `StartService`: `none` is its
`return`, otherwise the packet bytes and whether `CalcNewChecksum` was called.
`uint16(MSS)` is `MSS % 65536`. -/
def rewriteMSS (MSS : Int) (level ipheadlen : Nat) (Raw : Bytes) :
    Except Fault (Option (Bytes × Bool)) :=
  if level > 2 then
    if Raw.length < ipheadlen + 24 then .ok none
    else do
      let option ← byteAt Raw (ipheadlen + 20)
      if option = 2 then do
        let Raw ← PutUint16 Raw (ipheadlen + 22) (MSS % 65536).toNat
        .ok (some (Raw, true))
      else .ok (some (Raw, false))
  else .ok (some (Raw, false))

/-- One round of the SYN capture loop of `StartService` on the captured packet
`Raw`, with every `Send` succeeding.  `DstIP` is `packet.DstIP().String()`,
the destination address as text. -/
def StartServiceStep (g : Globals) (DstIP : Bytes → Bytes) (Raw : Bytes) : Except Fault SynOut :=
  match g.IPMap (DstIP Raw) with
  | some level => do
    let b0 ← byteAt Raw 0
    let ipheadlen := ipHeadLen b0
    match ← rewriteMSS g.MSS level ipheadlen Raw with
    | none => pure ⟨[], none, true⟩
    | some (Raw, checksum) =>
      if level > 1 then do
        let SrcPort ← Uint16 (← sliceFrom Raw ipheadlen)
        pure ⟨[⟨Raw, checksum⟩], some (SrcPort, g.TTL), false⟩
      else pure ⟨[⟨Raw, checksum⟩], none, false⟩
  | none => pure ⟨[⟨Raw, false⟩], none, false⟩

/-- What one round of the capture loop of `DNSRecvDaemon` does: the `IPMap` it
leaves and the packets it sends. -/
structure RecvOut where
  IPMap : IPTable
  sent : List Sent

/-- One round of the capture loop of `DNSRecvDaemon` on the captured packet
`Raw`.  A `nil` result of `getAnswers` is ranged over as an empty list. -/
def DNSRecvDaemonStep (IPString : Bytes → Bytes) (g : Globals) (Raw : Bytes) :
    Except Fault RecvOut := do
  let b0 ← byteAt Raw 0
  let ipheadlen := ipHeadLen b0
  let udpheadlen := 8
  let (qname, qtype, off) ← getQName (← sliceFrom Raw (ipheadlen + udpheadlen))
  if qname = [] then pure ⟨g.IPMap, []⟩
  else
    let config := domainLookup g.DomainMap qname
    let IPMap ← (
      if config.Level > 1 ∧ qtype = 1 then do
        let response ← sliceFrom Raw (ipheadlen + udpheadlen)
        let count ← Uint16 (← slice response 6 8)
        let ips ← getAnswers IPString (← sliceFrom response off) count
        pure (bindIPs g.IPMap config.Level (ips.getD []))
      else pure g.IPMap : Except Fault IPTable)
    pure ⟨IPMap, [⟨Raw, false⟩]⟩

/-- An IPv6 TCP segment with a 20-byte TCP header with sequence number bytes
`s0 s1 s2 s3`, and the payload `payload`. -/
def segmentV6 (s0 s1 s2 s3 : Nat) (payload : Bytes) : Bytes :=
  [96, 0, 0, 0, (20 + payload.length) / 256, (20 + payload.length) % 256, 6, 64]
    ++ [0x20, 0x01, 0x0d, 0xb8, 0, 0, 0, 0, 0, 0, 0, 0, 0, 0, 0, 1]
    ++ [0x20, 0x01, 0x0d, 0xb8, 0, 0, 0, 0, 0, 0, 0, 0, 0, 0, 0, 2]
    ++ [0xC0, 0x01, 0, 53, s0, s1, s2, s3, 0, 0, 0, 0, 80, 24, 255, 255, 0, 0, 0, 0]
    ++ payload

/-- An IPv4 TCP SYN from port 49153 to `93.184.216.34:443` whose TCP header is
followed by the option bytes `options`. -/
def synV4 (options : Bytes) : Bytes :=
  [69, 0, (40 + options.length) / 256, (40 + options.length) % 256, 0, 0, 64, 0, 64, 6, 0, 0,
      10, 0, 0, 1, 93, 184, 216, 34]
    ++ [0xC0, 0x01, 1, 187, 0, 0, 0, 1, 0, 0, 0, 0, 80 + 4 * (options.length / 4), 2, 255, 255,
      0, 0, 0, 0]
    ++ options

/-- The destination of the example packets as `packet.DstIP().String()`
prints it. -/
def sampleDstIP (Raw : Bytes) : Bytes :=
  if (Raw.drop 16).take 4 = [93, 184, 216, 34] then ascii "93.184.216.34" else ascii "?"

/-- An answer record of type A for `1.2.3.4` whose owner name is one label of
`n` bytes `a` followed by the zero byte. -/
def recordWithLabel (n : Nat) : Bytes :=
  n :: List.replicate n 97 ++ [0, 0, 1, 0, 1, 0, 0, 0x0E, 0x10, 0, 4, 1, 2, 3, 4]

/-- A DNS response for the A question `example.com` carrying one A record
for `1.2.3.4`. -/
def exampleResponse : Bytes :=
  [0xAB, 0xCD, 0x81, 0x80, 0, 1, 0, 1, 0, 0, 0, 0]
    ++ encodeLabels [ascii "example", ascii "com"] ++ [0, 0, 1, 0, 1]
    ++ [0xC0, 0x0C, 0, 1, 0, 1, 0, 0, 0x0E, 0x10, 0, 4, 1, 2, 3, 4]

/-- Wire form of one TLS extension: 2-byte type, 2-byte body length, body. -/
def encodeExtension (ty : Nat) (body : Bytes) : Bytes :=
  ty / 256 :: ty % 256 :: body.length / 256 :: body.length % 256 :: body

/-- Wire form of a list of TLS extensions, each given as (type, body). -/
def encodeExtensions : List (Nat × Bytes) → Bytes
  | [] => []
  | e :: es => encodeExtension e.1 e.2 ++ encodeExtensions es

/-- The level that a `#LEVELk` directive line sets; `none` for any other
line. -/
def levelDirective (line : Bytes) : Option Nat :=
  if line = ascii "#LEVEL0" then some 0
  else if line = ascii "#LEVEL1" then some 1
  else if line = ascii "#LEVEL2" then some 2
  else if line = ascii "#LEVEL3" then some 3
  else if line = ascii "#LEVEL4" then some 4
  else none

/-- The `k` of the last `#LEVELk` directive among `lines`; 0 when there is
none. -/
def currentLevel (lines : List Bytes) : Nat :=
  ((lines.filterMap levelDirective).getLast?).getD 0

/-- Texts joined with `,`. -/
def joinCommas : List Bytes → Bytes
  | [] => []
  | [l] => l
  | l :: l' :: ls => l ++ 44 :: joinCommas (l' :: ls)

/-- The read loop `for { n, err := server.Read(data[length:]) ... }` of
`TCPlookup`.  `reads` holds what the connection delivers, one entry per `Read`;
a `Read` fills at most the slice it is given and leaves the rest of the entry
for the next call, and with nothing left it reports an error (`none` is
`return nil, err`).  `uint16 + 2` wraps around modulo 65536.  Every round takes
bytes or an entry from `reads` unless `Read` is given an empty slice. -/
def TCPlookupLoop : Nat → Bytes → List Bytes → Nat → Nat → Except Fault (Option Bytes)
  | 0, _, _, _, _ => .error .fuel
  | fuel + 1, data, reads, length, recvlen =>
    if length > data.length then .error .outOfRange
    else
      match reads with
      | [] => .ok none
      | chunk :: rest =>
        let n := min chunk.length (data.length - length)
        let data := copyBytes data length chunk
        let reads := if n < chunk.length then chunk.drop n :: rest else rest
        do
          let length ←
            if length = 0 then do
              let v ← Uint16 (← sliceTo data 2)
              pure ((v + 2) % 65536)
            else pure length
          let recvlen := recvlen + n
          if recvlen ≥ length then do
            let r ← slice data 2 recvlen
            .ok (some r)
          else TCPlookupLoop fuel data reads length recvlen

/-- Function `TCPlookup` once `net.Dial` and `server.Write` have succeeded, on
a connection that delivers `reads`. -/
def TCPlookup (request : Bytes) (reads : List Bytes) : Except Fault (Option Bytes) := do
  let data := makeBytes 4096
  let data ← PutUint16 data 0 (request.length % 65536)
  let data ← copyAt data 2 request
  let _ ← sliceTo data (request.length + 2)
  TCPlookupLoop ((reads.map List.length).sum + reads.length + 1) data reads 0 0

/-- The suffix of `s` that begins at, and includes, its first `.`; `none` when
`s` has no `.`. -/
def dotSuffix : Bytes → Option Bytes
  | [] => none
  | c :: s => if c = 46 then some (c :: s) else dotSuffix s

/-- Function `getQName` on a slice `buf` whose backing array goes on with the
bytes `spare` after `len(buf)`, so that `cap(buf) = len(buf) + len(spare)`:
the slice expression `buf[off:end]` of the first label is bounded by the
capacity and reads into `spare`, while an index expression and `len` see `buf`
alone.  Every later slice is taken under a test against `len(buf)`.  With no
spare capacity this is `getQName`. -/
def getQNameCap (buf spare : Bytes) : Except Fault (Bytes × Nat × Nat) :=
  let bufflen := buf.length
  if bufflen < 13 then .ok ([], 0, 0)
  else do
    let length ← byteAt buf 12
    let off := 13
    let end_ := off + length
    let qname ← slice (buf ++ spare) off end_
    let off := end_
    match ← getQNameLoop buf (bufflen + 1) qname off with
    | none => .ok ([], 0, 0)
    | some (qname, off) =>
      let end_ := off + 4
      if end_ > bufflen then .ok ([], 0, 0)
      else do
        let q ← slice buf off (off + 2)
        let qtype ← Uint16 q
        .ok (qname, qtype, end_)

/-! ## Theorems -/

section Helpers

@[simp] theorem bind_ok {α β : Type} (a : α) (f : α → Except Fault β) :
    (Except.ok a >>= f) = f a := rfl

@[simp] theorem bind_error {α β : Type} (e : Fault) (f : α → Except Fault β) :
    ((Except.error e : Except Fault α) >>= f) = Except.error e := rfl

theorem byteAt_append_right (pre suf : Bytes) (v : Nat) :
    byteAt (pre ++ v :: suf) pre.length = .ok v := by
  have h : (pre ++ v :: suf)[pre.length]? = some v := by
    rw [List.getElem?_append_right (Nat.le_refl _)]; simp
  simp only [byteAt, h]

theorem slice_middle (pre mid suf : Bytes) :
    slice (pre ++ mid ++ suf) pre.length (pre.length + mid.length) = .ok mid := by
  simp [slice, List.take_append_eq_append_take, List.drop_append_eq_append_drop]

theorem encodeLabels_length (ls : List Bytes) : (encodeLabels ls).length = labelsLen ls := by
  induction ls with
  | nil => rfl
  | cons l ls ih => simp [encodeLabels, labelsLen, ih]; omega

end Helpers

section DomainLookup

theorem indexDot_append (x r : Bytes) (hx : 46 ∉ x) :
    indexDot (x ++ 46 :: r) = some x.length := by
  induction x with
  | nil => simp [indexDot]
  | cons c x ih =>
    have hc : c ≠ 46 := fun h => hx (by simp [h])
    have hx2 : 46 ∉ x := fun h => hx (by simp [h])
    simp [indexDot, hc, ih hx2]

theorem indexDot_lt (s : Bytes) (p : Nat) (h : indexDot s = some p) : p < s.length := by
  induction s generalizing p with
  | nil => simp [indexDot] at h
  | cons c s ih =>
    by_cases hc : c = 46
    · simp [indexDot, hc] at h; subst h; simp
    · simp only [indexDot, hc, if_false, Option.map_eq_some'] at h
      obtain ⟨q, hq, rfl⟩ := h
      have := ih q hq
      simp; omega

theorem indexDot_pos (c : Nat) (s : Bytes) (p : Nat) (hc : c ≠ 46)
    (h : indexDot (c :: s) = some p) : 0 < p := by
  simp only [indexDot, hc, if_false, Option.map_eq_some'] at h
  obtain ⟨q, _, rfl⟩ := h
  omega

theorem ne_of_length_ne {a b : Bytes} (h : a.length ≠ b.length) : a ≠ b :=
  fun e => h (by rw [e])

theorem drop_append_cons (x r : Bytes) (n : Nat) :
    (x ++ 46 :: r).drop (x.length + n) = (46 :: r).drop n := by
  rw [List.drop_append_eq_append_drop]
  simp

/-- C3 fails as stated: with `example.com` the only key of `DomainMap`, the
name `a.b.example.com` is given the level-0 `Config`, not the one bound to
`example.com`. -/
theorem domainLookup_suffix_counterexample :
    domainLookup (singleKey (ascii "example.com") ⟨1, 0, 0, [], []⟩) (ascii "a.b.example.com")
        = level0
      ∧ domainLookup (singleKey (ascii "example.com") ⟨1, 0, 0, [], []⟩) (ascii "example.com")
        = ⟨1, 0, 0, [], []⟩ := by
  decide

/-- C3 as amended: the suffixes that `domainLookup` tries keep their leading
dot.  For a domain `d` without a leading dot and non-empty dot-free labels
`x`, `y`: when `d` is the only key, `domainLookup d` is `DomainMap[d]` while
`y.d` and `x.y.d` get the level-0 `Config`; when `.d` is the only key, `y.d`
and `x.y.d` both get `DomainMap[.d]`; and with an empty `DomainMap` every name
gets the level-0 `Config`. -/
theorem domainLookup_suffix (d x y : Bytes) (c : Config)
    (hd : d.head? ≠ some 46) (hx : 46 ∉ x) (hy : 46 ∉ y) (hxne : x ≠ []) (hyne : y ≠ []) :
    domainLookup (singleKey d c) d = c
      ∧ domainLookup (singleKey d c) (y ++ 46 :: d) = level0
      ∧ domainLookup (singleKey d c) (x ++ 46 :: (y ++ 46 :: d)) = level0
      ∧ domainLookup (singleKey (46 :: d) c) (y ++ 46 :: d) = c
      ∧ domainLookup (singleKey (46 :: d) c) (x ++ 46 :: (y ++ 46 :: d)) = c
      ∧ ∀ q, domainLookup emptyDomains q = level0 := by
  have hxl : 0 < x.length := List.length_pos.mpr hxne
  have hyl : 0 < y.length := List.length_pos.mpr hyne
  have e1 : y ++ 46 :: d ≠ d := ne_of_length_ne (by simp only [List.length_append, List.length_cons, List.length_drop]; omega)
  have e2 : (46 :: d : Bytes) ≠ d := ne_of_length_ne (by simp)
  have e3 : x ++ 46 :: (y ++ 46 :: d) ≠ d := ne_of_length_ne (by simp only [List.length_append, List.length_cons, List.length_drop]; omega)
  have e4 : (46 :: (y ++ 46 :: d) : Bytes) ≠ d := ne_of_length_ne (by simp only [List.length_append, List.length_cons, List.length_drop]; omega)
  have e5 : y ++ 46 :: d ≠ 46 :: d := ne_of_length_ne (by simp only [List.length_append, List.length_cons, List.length_drop]; omega)
  have e6 : x ++ 46 :: (y ++ 46 :: d) ≠ 46 :: d := ne_of_length_ne (by simp only [List.length_append, List.length_cons, List.length_drop]; omega)
  have e7 : (46 :: (y ++ 46 :: d) : Bytes) ≠ 46 :: d := ne_of_length_ne (by simp only [List.length_append, List.length_cons, List.length_drop]; omega)
  have dx0 := drop_append_cons x (y ++ 46 :: d) 0
  have dx1 := drop_append_cons x (y ++ 46 :: d) 1
  have dy0 := drop_append_cons y d 0
  have dy1 := drop_append_cons y d 1
  simp only [Nat.add_zero, List.drop_zero, List.drop_succ_cons] at dx0 dx1 dy0 dy1
  have dxy : (x ++ 46 :: (y ++ 46 :: d)).drop (x.length + 1 + y.length) = 46 :: d := by
    rw [Nat.add_assoc, ← List.drop_drop, dx0]
    simp only [Nat.add_comm 1, List.drop_succ_cons, ← List.drop_drop]
    rw [show y.length = y.length + 0 from rfl, drop_append_cons]; rfl
  -- the last round on `d` itself never meets the key `d`
  have hlast : ∀ (q : Bytes) (o : Nat), q.drop o = d →
      domainLookupLoop (singleKey d c) q 1 o = level0 := by
    intro q o hq
    simp only [domainLookupLoop, hq]
    cases hp : indexDot d with
    | none => rfl
    | some p =>
      have hplt := indexDot_lt d p hp
      have hppos : 0 < p := by
        cases d with
        | nil => simp at hplt
        | cons a t =>
          have ha : a ≠ 46 := fun h => hd (by simp [h])
          exact indexDot_pos a t p ha hp
      have hne : q.drop (o + p) ≠ d := by
        rw [← List.drop_drop, hq]
        exact ne_of_length_ne (by simp only [List.length_append, List.length_cons, List.length_drop]; omega)
      simp [singleKey, hne]
  refine ⟨by simp [domainLookup, singleKey], ?_, ?_, ?_, ?_, ?_⟩
  · simp only [domainLookup, singleKey, e1, if_false, domainLookupLoop, List.drop_zero,
      indexDot_append y d hy, Nat.zero_add, dy0, e2]
    exact hlast _ _ dy1
  · simp only [domainLookup, singleKey, e3, if_false, domainLookupLoop, List.drop_zero,
      indexDot_append x _ hx, Nat.zero_add, dx0, e4, dx1, indexDot_append y d hy, dxy, e2]
  · simp only [domainLookup, singleKey, e5, if_false, domainLookupLoop, List.drop_zero,
      indexDot_append y d hy, Nat.zero_add, dy0, if_true]
  · simp only [domainLookup, singleKey, e6, if_false, domainLookupLoop, List.drop_zero,
      indexDot_append x _ hx, Nat.zero_add, dx0, e7, dx1, indexDot_append y d hy, dxy, if_true]
  · intro q
    simp only [domainLookup, emptyDomains, domainLookupLoop]
    cases indexDot (q.drop 0) with
    | none => rfl
    | some p =>
      simp only []
      cases indexDot (q.drop (0 + p + 1)) <;> rfl

/-- Witness of `domainLookup_suffix` at `d = example.com`, `x = a`, `y = b`. -/
theorem domainLookup_suffix_witness :
    domainLookup (singleKey (ascii "example.com") ⟨2, 0, 0, [], []⟩) (ascii "example.com")
        = ⟨2, 0, 0, [], []⟩
      ∧ domainLookup (singleKey (ascii "example.com") ⟨2, 0, 0, [], []⟩)
          (ascii "b" ++ 46 :: ascii "example.com") = level0
      ∧ domainLookup (singleKey (ascii "example.com") ⟨2, 0, 0, [], []⟩)
          (ascii "a" ++ 46 :: (ascii "b" ++ 46 :: ascii "example.com")) = level0
      ∧ domainLookup (singleKey (46 :: ascii "example.com") ⟨2, 0, 0, [], []⟩)
          (ascii "b" ++ 46 :: ascii "example.com") = ⟨2, 0, 0, [], []⟩
      ∧ domainLookup (singleKey (46 :: ascii "example.com") ⟨2, 0, 0, [], []⟩)
          (ascii "a" ++ 46 :: (ascii "b" ++ 46 :: ascii "example.com")) = ⟨2, 0, 0, [], []⟩
      ∧ ∀ q, domainLookup emptyDomains q = level0 :=
  domainLookup_suffix (ascii "example.com") (ascii "a") (ascii "b") ⟨2, 0, 0, [], []⟩
    (by decide) (by decide) (by decide) (by decide) (by decide)

end DomainLookup

section GetQName

theorem joinDots_cons (l : Bytes) (ls : List Bytes) :
    joinDots (l :: ls) = l ++ (ls.map (fun x => 46 :: x)).flatten := by
  induction ls generalizing l with
  | nil => simp [joinDots]
  | cons l' ls ih => simp [joinDots, ih l']

theorem getQNameLoop_labels (ls : List Bytes) :
    ∀ (pre rest q : Bytes) (fuel : Nat), (∀ l ∈ ls, 1 ≤ l.length) → ls.length < fuel →
      getQNameLoop (pre ++ encodeLabels ls ++ 0 :: rest) fuel q pre.length
        = .ok (some (q ++ (ls.map (fun x => 46 :: x)).flatten, pre.length + labelsLen ls + 1)) := by
  induction ls with
  | nil =>
    intro pre rest q fuel _ hf
    obtain ⟨f, rfl⟩ : ∃ f, fuel = f + 1 := ⟨fuel - 1, by simp at hf; omega⟩
    have hb := byteAt_append_right pre rest 0
    simp only [getQNameLoop, encodeLabels, List.append_nil, hb]
    simp [labelsLen]
  | cons l ls ih =>
    intro pre rest q fuel hl hf
    obtain ⟨f, rfl⟩ : ∃ f, fuel = f + 1 := ⟨fuel - 1, by simp at hf; omega⟩
    have hl1 : 1 ≤ l.length := hl l (by simp)
    have hbuf : pre ++ encodeLabels (l :: ls) ++ 0 :: rest
        = pre ++ l.length :: (l ++ (encodeLabels ls ++ 0 :: rest)) := by
      simp [encodeLabels]
    have hbuf2 : pre ++ encodeLabels (l :: ls) ++ 0 :: rest
        = (pre ++ [l.length]) ++ l ++ (encodeLabels ls ++ 0 :: rest) := by
      simp [encodeLabels]
    have hbuf3 : pre ++ encodeLabels (l :: ls) ++ 0 :: rest
        = (pre ++ l.length :: l) ++ encodeLabels ls ++ 0 :: rest := by
      simp [encodeLabels]
    have hb : byteAt (pre ++ encodeLabels (l :: ls) ++ 0 :: rest) pre.length = .ok l.length := by
      rw [hbuf]; exact byteAt_append_right _ _ _
    have hs : slice (pre ++ encodeLabels (l :: ls) ++ 0 :: rest) (pre.length + 1)
        (pre.length + 1 + l.length) = .ok l := by
      rw [hbuf2]
      have := slice_middle (pre ++ [l.length]) l (encodeLabels ls ++ 0 :: rest)
      simpa using this
    have hlen : (pre ++ encodeLabels (l :: ls) ++ 0 :: rest).length
        = pre.length + (1 + l.length + labelsLen ls) + (1 + rest.length) := by
      simp [encodeLabels, encodeLabels_length]; omega
    have hih := ih (pre ++ l.length :: l) rest (q ++ 46 :: l) f
      (fun l' h' => hl l' (by simp [h'])) (by simp at hf; omega)
    rw [← hbuf3] at hih
    have hoff : (pre ++ l.length :: l).length = pre.length + 1 + l.length := by simp; omega
    rw [hoff] at hih
    have hc1 : ¬ (pre.length ≥ (pre ++ encodeLabels (l :: ls) ++ 0 :: rest).length) := by
      rw [hlen]; omega
    have hc2 : ¬ (l.length = 0) := by omega
    have hc3 : ¬ (pre.length + 1 + l.length > (pre ++ encodeLabels (l :: ls) ++ 0 :: rest).length) := by
      rw [hlen]; omega
    rw [getQNameLoop]
    simp only [hc1, if_false, hb, bind_ok, hc2, hc3, hs, hih]
    simp [labelsLen]; omega

/-- C4: on a buffer holding, from offset 12, `n ≥ 1` labels (length byte
`1 ≤ L_i ≤ 255`, then `L_i` bytes), a zero byte and at least 4 more bytes,
`getQName` returns the labels joined with `.`, the big-endian 16-bit QTYPE
read right after the zero byte, and `12 + sum (1 + L_i) + 1 + 4`. -/
theorem getQName_wellFormed (hdr : Bytes) (labels : List Bytes) (t0 t1 : Nat) (rest : Bytes)
    (hhdr : hdr.length = 12) (hne : labels ≠ [])
    (hlab : ∀ l ∈ labels, 1 ≤ l.length ∧ l.length ≤ 255) (hrest : 2 ≤ rest.length) :
    getQName (hdr ++ encodeLabels labels ++ 0 :: t0 :: t1 :: rest)
      = .ok (joinDots labels, t0 * 256 + t1, 12 + labelsLen labels + 1 + 4) := by
  cases labels with
  | nil => exact absurd rfl hne
  | cons l ls =>
    have hl1 : 1 ≤ l.length := (hlab l (by simp)).1
    have hbuf : hdr ++ encodeLabels (l :: ls) ++ 0 :: t0 :: t1 :: rest
        = hdr ++ l.length :: (l ++ (encodeLabels ls ++ 0 :: t0 :: t1 :: rest)) := by
      simp [encodeLabels]
    have hbuf2 : hdr ++ encodeLabels (l :: ls) ++ 0 :: t0 :: t1 :: rest
        = (hdr ++ [l.length]) ++ l ++ (encodeLabels ls ++ 0 :: t0 :: t1 :: rest) := by
      simp [encodeLabels]
    have hbuf3 : hdr ++ encodeLabels (l :: ls) ++ 0 :: t0 :: t1 :: rest
        = (hdr ++ l.length :: l) ++ encodeLabels ls ++ 0 :: t0 :: t1 :: rest := by
      simp [encodeLabels]
    have hbuf4 : hdr ++ encodeLabels (l :: ls) ++ 0 :: t0 :: t1 :: rest
        = (hdr ++ encodeLabels (l :: ls) ++ [0]) ++ [t0, t1] ++ rest := by
      simp
    have hlen : (hdr ++ encodeLabels (l :: ls) ++ 0 :: t0 :: t1 :: rest).length
        = 12 + (1 + l.length + labelsLen ls) + (3 + rest.length) := by
      simp [encodeLabels, encodeLabels_length, hhdr]; omega
    have hb : byteAt (hdr ++ encodeLabels (l :: ls) ++ 0 :: t0 :: t1 :: rest) 12 = .ok l.length := by
      rw [hbuf, ← hhdr]; exact byteAt_append_right _ _ _
    have hs : slice (hdr ++ encodeLabels (l :: ls) ++ 0 :: t0 :: t1 :: rest) 13 (13 + l.length)
        = .ok l := by
      rw [hbuf2]
      have := slice_middle (hdr ++ [l.length]) l (encodeLabels ls ++ 0 :: t0 :: t1 :: rest)
      simpa [hhdr] using this
    have hloop := getQNameLoop_labels ls (hdr ++ l.length :: l) (t0 :: t1 :: rest) l
      ((hdr ++ encodeLabels (l :: ls) ++ 0 :: t0 :: t1 :: rest).length + 1)
      (fun l' h' => (hlab l' (by simp [h'])).1)
      (by rw [hlen]; have := encodeLabels_length ls
          have h2 : ls.length ≤ labelsLen ls := by
            clear * -
            induction ls with
            | nil => simp
            | cons a t ih => simp [labelsLen]; omega
          omega)
    rw [← hbuf3] at hloop
    have hoff : (hdr ++ l.length :: l).length = 13 + l.length := by simp [hhdr]; omega
    rw [hoff] at hloop
    have hq : slice (hdr ++ encodeLabels (l :: ls) ++ 0 :: t0 :: t1 :: rest)
        (13 + l.length + labelsLen ls + 1) (13 + l.length + labelsLen ls + 1 + 2)
        = .ok [t0, t1] := by
      rw [hbuf4]
      have := slice_middle (hdr ++ encodeLabels (l :: ls) ++ [0]) [t0, t1] rest
      have hpl : (hdr ++ encodeLabels (l :: ls) ++ [0]).length
          = 13 + l.length + labelsLen ls + 1 := by
        simp [encodeLabels, encodeLabels_length, hhdr]; omega
      rw [hpl] at this
      exact this
    have hc1 : ¬ ((hdr ++ encodeLabels (l :: ls) ++ 0 :: t0 :: t1 :: rest).length < 13) := by
      rw [hlen]; omega
    have hc2 : ¬ (13 + l.length + labelsLen ls + 1 + 4
        > (hdr ++ encodeLabels (l :: ls) ++ 0 :: t0 :: t1 :: rest).length) := by
      rw [hlen]; omega
    unfold getQName
    simp only [hc1, if_false, hb, bind_ok, hs, hloop, hc2, hq, Uint16, joinDots_cons]
    simp [labelsLen]; omega

/-- Witness of `getQName_wellFormed`: the question `a.bc`, QTYPE 28, class IN. -/
theorem getQName_wellFormed_witness :
    getQName (List.replicate 12 0 ++ encodeLabels [[97], [98, 99]] ++ 0 :: 0 :: 28 :: [0, 1])
      = .ok (joinDots [[97], [98, 99]], 0 * 256 + 28, 12 + labelsLen [[97], [98, 99]] + 1 + 4) :=
  getQName_wellFormed (List.replicate 12 0) [[97], [98, 99]] 0 28 [0, 1]
    (by decide) (by decide) (by decide) (by decide)

/-- On a 13-byte message whose first length byte announces 5 bytes, in a slice
without spare capacity (`cap(buf) = len(buf)`), the slice `buf[13:18]` of the
first label is out of range.  The daemons pass `packet.Raw[ipheadlen+8:]`,
which has the spare capacity of the capture buffer (`getQName_malformed`). -/
theorem getQName_firstLabel_unchecked :
    getQName (List.replicate 12 0 ++ [5]) = .error .outOfRange := by
  decide

/-- The same overrun in a later label is caught by the loop's own bound
check, which returns the failure value. -/
theorem getQName_laterLabel_checked :
    getQName (List.replicate 12 0 ++ [1, 97, 5]) = .ok ([], 0, 0) := by
  decide

end GetQName

section Answers

theorem copyAt_zeros (pre src : Bytes) (k : Nat) (h : src.length ≤ k) :
    copyAt (pre ++ List.replicate k 0) pre.length src
      = .ok (pre ++ src ++ List.replicate (k - src.length) 0) := by
  have h1 : pre.length ≤ (pre ++ List.replicate k 0).length := by simp
  have h2 : src.take k = src := List.take_of_length_le h
  simp [copyAt, copyBytes, List.take_append_eq_append_take, List.drop_append_eq_append_drop, h2]

theorem slice_append_mid (pre l tail : Bytes) (i j : Nat) (hij : i ≤ j) (hj : j ≤ l.length) :
    slice (pre ++ l ++ tail) (pre.length + i) (pre.length + j) = .ok ((l.take j).drop i) := by
  have h1 : pre.length + i ≤ pre.length + j ∧ pre.length + j ≤ (pre ++ l ++ tail).length := by
    simp; omega
  have h2 : j - l.length = 0 := by omega
  simp only [slice, h1, and_self, if_true]
  simp [List.take_append_eq_append_take, List.drop_append_eq_append_drop, h2]

theorem byteAt_append_mid (pre l tail : Bytes) (i : Nat) (h : i < l.length) :
    byteAt (pre ++ l ++ tail) (pre.length + i) = byteAt l i := by
  have e : (pre ++ l ++ tail)[pre.length + i]? = l[i]? := by
    rw [List.append_assoc, List.getElem?_append_right (by omega)]
    rw [List.getElem?_append_left (by omega)]
    congr 1; omega
  simp only [byteAt, e]

theorem To4_of_length_16 (ip ip4 : Bytes) (hlen : ip.length = 16) (h : To4 ip = some ip4) :
    ∃ a b c d, ip4 = [a, b, c, d] ∧ ip = IPv4 a b c d := by
  rcases ip with _ | ⟨x0, _ | ⟨x1, _ | ⟨x2, _ | ⟨x3, _ | ⟨x4, _ | ⟨x5, _ | ⟨x6, _ | ⟨x7,
    _ | ⟨x8, _ | ⟨x9, _ | ⟨x10, _ | ⟨x11, _ | ⟨x12, _ | ⟨x13, _ | ⟨x14, _ | ⟨x15, _ | ⟨x16, t⟩⟩⟩⟩⟩⟩⟩⟩⟩⟩⟩⟩⟩⟩⟩⟩⟩ <;>
    simp at hlen
  simp only [To4, List.length_cons, List.length_nil] at h
  split at h
  · omega
  · split at h
    · rename_i h1 h2
      simp only [Option.some.injEq] at h
      simp [List.replicate] at h2
      obtain ⟨⟨h0, h1', h2', h3, h4, h5, h6, h7, h8, h9⟩, h10, h11⟩ := h2
      subst h0 h1' h2' h3 h4 h5 h6 h7 h8 h9 h10 h11
      exact ⟨x12, x13, x14, x15, by rw [← h]; rfl, rfl⟩
    · simp at h

theorem recordsOf_cons (ParseIP : Bytes → Bytes) (qtype : Nat) (s : Bytes) (ips : List Bytes) :
    recordsOf ParseIP qtype (s :: ips)
      = if inFamily ParseIP qtype s = true then
          recordOf ParseIP qtype s ++ recordsOf ParseIP qtype ips
        else recordsOf ParseIP qtype ips := by
  by_cases h : inFamily ParseIP qtype s = true <;> simp [recordsOf, List.filter, h]

theorem packAnswersFill_spec (ParseIP : Bytes → Bytes) (qtype : Nat) (hq : qtype = 1 ∨ qtype = 28)
    (ips : List Bytes) (hvalid : ∀ s ∈ ips, (ParseIP s).length = 16) :
    ∀ (pre : Bytes) (k : Nat), (recordsOf ParseIP qtype ips).length ≤ k →
      packAnswersFill ParseIP qtype ips (pre ++ List.replicate k 0) pre.length
        = .ok (pre ++ recordsOf ParseIP qtype ips
            ++ List.replicate (k - (recordsOf ParseIP qtype ips).length) 0) := by
  induction ips with
  | nil => intro pre k _; simp [packAnswersFill, recordsOf]
  | cons s ips ih =>
    intro pre k hk
    have hs : (ParseIP s).length = 16 := hvalid s (by simp)
    have ih' := ih (fun t ht => hvalid t (by simp [ht]))
    rw [recordsOf_cons] at hk ⊢
    cases h4 : To4 (ParseIP s) with
    | some ip4 =>
      obtain ⟨a, b, c, d, rfl, hip⟩ := To4_of_length_16 _ _ hs h4
      rcases hq with hq | hq
      · -- an IPv4 address asked for as A
        have hfam : inFamily ParseIP qtype s = true := by simp [inFamily, isIPv4, h4, hq]
        have hrec : recordOf ParseIP qtype s
            = [0xC0, 0x0C, 0x00, 1, 0x00, 0x01, 0x00, 0x00, 0x0E, 0x10, 0x00, 0x04, a, b, c, d] := by
          simp [recordOf, hq, h4]
        simp only [hfam, if_true, hrec, List.length_append, List.length_cons, List.length_nil] at hk ⊢
        have hcopy := copyAt_zeros pre
          [0xC0, 0x0C, 0x00, 1, 0x00, 0x01, 0x00, 0x00, 0x0E, 0x10, 0x00, 0x04, a, b, c, d] k
          (by simp; omega)
        have hrest := ih' (pre ++
          [0xC0, 0x0C, 0x00, 1, 0x00, 0x01, 0x00, 0x00, 0x0E, 0x10, 0x00, 0x04, a, b, c, d])
          (k - 16) (by omega)
        subst hq
        simp at hrest hcopy
        simp [packAnswersFill, h4, byteAt, hcopy, hrest, Nat.sub_sub]
      · -- an IPv4 address asked for as AAAA: nothing is written
        have hfam : ¬ (inFamily ParseIP qtype s = true) := by simp [inFamily, isIPv4, h4, hq]
        have hq1 : ¬ (qtype = 1) := by omega
        simp only [hfam, if_false] at hk ⊢
        simp only [packAnswersFill, h4, hq1, if_false]
        exact ih' pre k hk
    | none =>
      rcases hq with hq | hq
      · have hfam : ¬ (inFamily ParseIP qtype s = true) := by simp [inFamily, isIPv4, h4, hq]
        have hq28 : ¬ (qtype = 28) := by omega
        simp only [hfam, if_false] at hk ⊢
        simp only [packAnswersFill, h4, hq28, if_false]
        exact ih' pre k hk
      · -- an IPv6 address asked for as AAAA
        have hfam : inFamily ParseIP qtype s = true := by simp [inFamily, isIPv4, h4, hq]
        have hrec : recordOf ParseIP qtype s
            = [0xC0, 0x0C, 0x00, 28, 0x00, 0x01, 0x00, 0x00, 0x0E, 0x10, 0x00, 0x10]
              ++ ParseIP s := by
          simp [recordOf, hq]
        simp only [hfam, if_true, hrec, List.length_append, List.length_cons, List.length_nil,
          hs] at hk ⊢
        have hcopy := copyAt_zeros pre
          [0xC0, 0x0C, 0x00, 28, 0x00, 0x01, 0x00, 0x00, 0x0E, 0x10, 0x00, 0x10] k
          (by simp; omega)
        have hcopy2 := copyAt_zeros (pre ++
          [0xC0, 0x0C, 0x00, 28, 0x00, 0x01, 0x00, 0x00, 0x0E, 0x10, 0x00, 0x10]) (ParseIP s)
          (k - 12) (by omega)
        have hrest := ih' (pre ++
          [0xC0, 0x0C, 0x00, 28, 0x00, 0x01, 0x00, 0x00, 0x0E, 0x10, 0x00, 0x10] ++ ParseIP s)
          (k - 12 - 16) (by omega)
        subst hq
        simp [hs, Nat.sub_sub] at hrest hcopy hcopy2
        simp [packAnswersFill, h4, hcopy, hcopy2, hrest, Nat.sub_sub]

theorem packAnswersCount_A (ParseIP : Bytes → Bytes) (ips : List Bytes) :
    ∀ t c, packAnswersCount ParseIP 1 ips t c
      = (t + 16 * (ips.filter (inFamily ParseIP 1)).length,
         c + (ips.filter (inFamily ParseIP 1)).length) := by
  induction ips with
  | nil => intro t c; simp [packAnswersCount]
  | cons s ips ih =>
    intro t c
    cases h4 : To4 (ParseIP s) with
    | some ip4 =>
      have hfam : inFamily ParseIP 1 s = true := by simp [inFamily, isIPv4, h4]
      simp only [packAnswersCount, h4, List.filter, hfam, ih, List.length_cons]
      simp; omega
    | none =>
      have hfam : inFamily ParseIP 1 s = false := by simp [inFamily, isIPv4, h4]
      simp [packAnswersCount, h4, List.filter, hfam, ih]

theorem packAnswersCount_AAAA (ParseIP : Bytes → Bytes) (ips : List Bytes) :
    ∀ t c, packAnswersCount ParseIP 28 ips t c = (t + 28 * ips.length, c + ips.length) := by
  induction ips with
  | nil => intro t c; simp [packAnswersCount]
  | cons s ips ih =>
    intro t c
    simp only [packAnswersCount, ih, List.length_cons]
    simp; omega

theorem recordsOf_length (ParseIP : Bytes → Bytes) (qtype : Nat) (hq : qtype = 1 ∨ qtype = 28)
    (ips : List Bytes) (hvalid : ∀ s ∈ ips, (ParseIP s).length = 16) :
    (recordsOf ParseIP qtype ips).length
      = (if qtype = 1 then 16 else 28) * (ips.filter (inFamily ParseIP qtype)).length := by
  induction ips with
  | nil => simp [recordsOf]
  | cons s ips ih =>
    have hs : (ParseIP s).length = 16 := hvalid s (by simp)
    have ih' := ih (fun t ht => hvalid t (by simp [ht]))
    rw [recordsOf_cons]
    by_cases hfam : inFamily ParseIP qtype s = true
    · have hrl : (recordOf ParseIP qtype s).length = if qtype = 1 then 16 else 28 := by
        rcases hq with hq | hq
        · subst hq
          cases h4 : To4 (ParseIP s) with
          | none => simp [inFamily, isIPv4, h4] at hfam
          | some ip4 =>
            obtain ⟨a, b, c, d, rfl, -⟩ := To4_of_length_16 _ _ hs h4
            simp [recordOf, h4]
        · subst hq
          simp [recordOf, hs]
      simp only [hfam, if_true, List.length_append, hrl, ih', List.filter, List.length_cons]
      split <;> omega
    · have hfam' : inFamily ParseIP qtype s = false := by simpa using hfam
      simp only [hfam, if_false, List.filter, hfam']
      exact ih'

/-- What `packAnswers` returns for `qtype = 1`: the number of IPv4 addresses
and one A record for each of them. -/
theorem packAnswers_A (ParseIP : Bytes → Bytes) (ips : List Bytes)
    (hvalid : ∀ s ∈ ips, (ParseIP s).length = 16) :
    packAnswers ParseIP ips 1
      = .ok ((ips.filter (inFamily ParseIP 1)).length, recordsOf ParseIP 1 ips) := by
  have hlen := recordsOf_length ParseIP 1 (Or.inl rfl) ips hvalid
  simp only [if_true] at hlen
  have hfill := packAnswersFill_spec ParseIP 1 (Or.inl rfl) ips hvalid []
    (16 * (ips.filter (inFamily ParseIP 1)).length) (by omega)
  simp only [List.nil_append, List.length_nil, hlen, Nat.sub_self, List.replicate_zero,
    List.append_nil] at hfill
  simp [packAnswers, packAnswersCount_A, makeBytes, hfill]

/-- What `packAnswers` returns for `qtype = 28`: the number of all addresses,
and one AAAA record for each IPv6 address followed by 28 zero bytes for each
IPv4 address. -/
theorem packAnswers_AAAA (ParseIP : Bytes → Bytes) (ips : List Bytes)
    (hvalid : ∀ s ∈ ips, (ParseIP s).length = 16) :
    packAnswers ParseIP ips 28
      = .ok (ips.length, recordsOf ParseIP 28 ips
          ++ List.replicate (28 * (ips.length - (ips.filter (inFamily ParseIP 28)).length)) 0) := by
  have hlen := recordsOf_length ParseIP 28 (Or.inr rfl) ips hvalid
  simp only [show ¬ (28 = 1) by decide, if_false] at hlen
  have hle : (ips.filter (inFamily ParseIP 28)).length ≤ ips.length := List.length_filter_le _ _
  have hfill := packAnswersFill_spec ParseIP 28 (Or.inr rfl) ips hvalid [] (28 * ips.length)
    (by omega)
  have hsub : 28 * ips.length - 28 * (ips.filter (inFamily ParseIP 28)).length
      = 28 * (ips.length - (ips.filter (inFamily ParseIP 28)).length) := by omega
  simp only [List.nil_append, List.length_nil, hlen, hsub] at hfill
  simp [packAnswers, packAnswersCount_AAAA, makeBytes, hfill]

theorem slice_at (pre l tail : Bytes) (lo hi i j : Nat) (hlo : lo = pre.length + i)
    (hhi : hi = pre.length + j) (hij : i ≤ j) (hj : j ≤ l.length) :
    slice (pre ++ l ++ tail) lo hi = .ok ((l.take j).drop i) := by
  subst hlo hhi
  exact slice_append_mid pre l tail i j hij hj

theorem byteAt_zeros (P : Bytes) (z o : Nat) (h1 : P.length ≤ o) (h2 : o < P.length + z) :
    byteAt (P ++ List.replicate z 0) o = .ok 0 := by
  have e : (P ++ List.replicate z 0)[o]? = some 0 := by
    rw [List.getElem?_append_right h1, List.getElem?_replicate]
    simp; omega
  simp only [byteAt, e]

theorem slice_zeros (P : Bytes) (z o : Nat) (h1 : P.length ≤ o) (h2 : o + 2 ≤ P.length + z) :
    slice (P ++ List.replicate z 0) o (o + 2) = .ok [0, 0] := by
  obtain ⟨i, rfl⟩ := Nat.exists_eq_add_of_le h1
  have h := slice_append_mid P (List.replicate z 0) [] i (i + 2) (by omega) (by simp; omega)
  rw [List.append_nil, ← Nat.add_assoc] at h
  rw [h]
  have e : ((List.replicate z (0 : Nat)).take (i + 2)).drop i = List.replicate 2 0 := by
    rw [List.take_replicate, List.drop_replicate]
    congr 1; omega
  rw [e]; rfl

theorem getAnswersLoop_zeros (S : Bytes → Bytes) (P : Bytes) (z : Nat) :
    ∀ (m o : Nat) (acc : List Bytes), P.length ≤ o → o + 11 * m ≤ P.length + z →
      getAnswersLoop S (P ++ List.replicate z 0) m o acc = .ok (some acc) := by
  intro m
  induction m with
  | zero => intro o acc _ _; rfl
  | succ m ih =>
    intro o acc h1 h2
    have hlen : (P ++ List.replicate z 0).length = P.length + z := by simp
    have hb := byteAt_zeros P z o h1 (by omega)
    have hskip : skipName (P ++ List.replicate z 0) ((P ++ List.replicate z 0).length + 1) o
        = .ok (some (o + 1)) := by
      have hc : ¬ (o ≥ (P ++ List.replicate z 0).length) := by rw [hlen]; omega
      simp only [skipName, hc, if_false, hb, bind_ok, if_true]
    have hs1 := slice_zeros P z (o + 1) (by omega) (by omega)
    have hs2 := slice_zeros P z (o + 1 + 8) (by omega) (by omega)
    have hc1 : ¬ (o + 1 + 2 > (P ++ List.replicate z 0).length) := by rw [hlen]; omega
    have hc2 : ¬ (o + 1 + 8 + 2 > (P ++ List.replicate z 0).length) := by rw [hlen]; omega
    rw [getAnswersLoop]
    simp only [hskip, bind_ok, hc1, if_false, hs1, Uint16, hc2, hs2, Nat.zero_mul, Nat.zero_add,
      show ¬ ((0 : Nat) = 1) by decide, show ¬ ((0 : Nat) = 28) by decide, Nat.add_zero]
    exact ih (o + 1 + 8 + 2) acc (by omega) (by omega)

theorem getAnswersLoop_A_record (S : Bytes → Bytes) (pre tail : Bytes) (a b c d n : Nat)
    (acc : List Bytes) :
    getAnswersLoop S
        (pre ++ [0xC0, 0x0C, 0x00, 1, 0x00, 0x01, 0x00, 0x00, 0x0E, 0x10, 0x00, 0x04, a, b, c, d]
          ++ tail) (n + 1) pre.length acc
      = getAnswersLoop S
        (pre ++ [0xC0, 0x0C, 0x00, 1, 0x00, 0x01, 0x00, 0x00, 0x0E, 0x10, 0x00, 0x04, a, b, c, d]
          ++ tail) n (pre.length + 16) (acc ++ [S (IPv4 a b c d)]) := by
  generalize hA : pre ++ [0xC0, 0x0C, 0x00, 1, 0x00, 0x01, 0x00, 0x00, 0x0E, 0x10, 0x00, 0x04,
    a, b, c, d] ++ tail = A
  have hlen : A.length = pre.length + 16 + tail.length := by
    rw [← hA]; simp only [List.length_append, List.length_cons, List.length_nil]
  have hb : byteAt A pre.length = .ok 0xC0 := by
    rw [← hA]
    have := byteAt_append_mid pre [0xC0, 0x0C, 0x00, 1, 0x00, 0x01, 0x00, 0x00, 0x0E, 0x10,
      0x00, 0x04, a, b, c, d] tail 0 (by simp)
    simpa [byteAt] using this
  have hskip : skipName A (A.length + 1) pre.length = .ok (some (pre.length + 1 + 1)) := by
    have hc : ¬ (pre.length ≥ A.length) := by rw [hlen]; omega
    simp only [skipName, hc, if_false, hb, bind_ok]
    simp
  have hs1 : slice A (pre.length + 1 + 1) (pre.length + 1 + 1 + 2) = .ok [0, 1] := by
    rw [← hA, slice_at pre _ tail _ _ 2 4 (by omega) (by omega) (by omega) (by simp)]; rfl
  have hs2 : slice A (pre.length + 1 + 1 + 8) (pre.length + 1 + 1 + 8 + 2) = .ok [0, 4] := by
    rw [← hA, slice_at pre _ tail _ _ 10 12 (by omega) (by omega) (by omega) (by simp)]; rfl
  have hs3 : slice A (pre.length + 1 + 1 + 8 + 2) (pre.length + 1 + 1 + 8 + 2 + 4)
      = .ok [a, b, c, d] := by
    rw [← hA, slice_at pre _ tail _ _ 12 16 (by omega) (by omega) (by omega) (by simp)]; rfl
  have hc1 : ¬ (pre.length + 1 + 1 + 2 > A.length) := by rw [hlen]; omega
  have hc2 : ¬ (pre.length + 1 + 1 + 8 + 2 > A.length) := by rw [hlen]; omega
  have hc3 : ¬ (pre.length + 1 + 1 + 8 + 2 + 4 > A.length) := by rw [hlen]; omega
  have hoff : pre.length + 1 + 1 + 8 + 2 + 4 = pre.length + 16 := by omega
  rw [getAnswersLoop]
  simp only [hskip, bind_ok, hc1, if_false, hs1, Uint16, hc2, hs2, Nat.zero_mul, Nat.zero_add,
    if_true, hc3, hs3, byteAt, List.getElem?_cons_zero, List.getElem?_cons_succ, hoff]

theorem getAnswersLoop_AAAA_record (S : Bytes → Bytes) (pre ip tail : Bytes) (n : Nat)
    (acc : List Bytes) (hip : ip.length = 16) :
    getAnswersLoop S
        (pre ++ ([0xC0, 0x0C, 0x00, 28, 0x00, 0x01, 0x00, 0x00, 0x0E, 0x10, 0x00, 0x10] ++ ip)
          ++ tail) (n + 1) pre.length acc
      = getAnswersLoop S
        (pre ++ ([0xC0, 0x0C, 0x00, 28, 0x00, 0x01, 0x00, 0x00, 0x0E, 0x10, 0x00, 0x10] ++ ip)
          ++ tail) n (pre.length + 28) (acc ++ [S ip]) := by
  generalize hA : pre ++ ([0xC0, 0x0C, 0x00, 28, 0x00, 0x01, 0x00, 0x00, 0x0E, 0x10, 0x00, 0x10]
    ++ ip) ++ tail = A
  have hA2 : (pre ++ [0xC0, 0x0C, 0x00, 28, 0x00, 0x01, 0x00, 0x00, 0x0E, 0x10, 0x00, 0x10])
      ++ ip ++ tail = A := by rw [← hA]; simp
  have hA3 : pre ++ [0xC0, 0x0C, 0x00, 28, 0x00, 0x01, 0x00, 0x00, 0x0E, 0x10, 0x00, 0x10]
      ++ (ip ++ tail) = A := by rw [← hA]; simp
  have hlen : A.length = pre.length + 28 + tail.length := by
    rw [← hA]; simp only [List.length_append, List.length_cons, List.length_nil, hip]
  have hb : byteAt A pre.length = .ok 0xC0 := by
    rw [← hA3]
    have := byteAt_append_mid pre [0xC0, 0x0C, 0x00, 28, 0x00, 0x01, 0x00, 0x00, 0x0E, 0x10,
      0x00, 0x10] (ip ++ tail) 0 (by simp)
    simpa [byteAt] using this
  have hskip : skipName A (A.length + 1) pre.length = .ok (some (pre.length + 1 + 1)) := by
    have hc : ¬ (pre.length ≥ A.length) := by rw [hlen]; omega
    simp only [skipName, hc, if_false, hb, bind_ok]
    simp
  have hs1 : slice A (pre.length + 1 + 1) (pre.length + 1 + 1 + 2) = .ok [0, 28] := by
    rw [← hA3, slice_at pre _ (ip ++ tail) _ _ 2 4 (by omega) (by omega) (by omega) (by simp)]; rfl
  have hs2 : slice A (pre.length + 1 + 1 + 8) (pre.length + 1 + 1 + 8 + 2) = .ok [0, 16] := by
    rw [← hA3, slice_at pre _ (ip ++ tail) _ _ 10 12 (by omega) (by omega) (by omega) (by simp)]
    rfl
  have hs3 : slice A (pre.length + 1 + 1 + 8 + 2) (pre.length + 1 + 1 + 8 + 2 + 16)
      = .ok ip := by
    rw [← hA2, slice_at _ ip tail _ _ 0 16 (by simp) (by simp) (by omega) (by omega)]
    simp [← hip]
  have hc1 : ¬ (pre.length + 1 + 1 + 2 > A.length) := by rw [hlen]; omega
  have hc2 : ¬ (pre.length + 1 + 1 + 8 + 2 > A.length) := by rw [hlen]; omega
  have hc3 : ¬ (pre.length + 1 + 1 + 8 + 2 + 16 > A.length) := by rw [hlen]; omega
  have hoff : pre.length + 1 + 1 + 8 + 2 + 16 = pre.length + 28 := by omega
  rw [getAnswersLoop]
  simp only [hskip, bind_ok, hc1, if_false, hs1, Uint16, hc2, hs2, Nat.zero_mul, Nat.zero_add,
    show ¬ ((28 : Nat) = 1) by decide, if_true, hc3, hs3, hoff]

theorem getAnswersLoop_records (S ParseIP : Bytes → Bytes) (qtype : Nat)
    (hq : qtype = 1 ∨ qtype = 28) (ips : List Bytes)
    (hvalid : ∀ s ∈ ips, (ParseIP s).length = 16) :
    ∀ (pre tail : Bytes) (m : Nat) (acc : List Bytes),
      getAnswersLoop S (pre ++ recordsOf ParseIP qtype ips ++ tail)
          ((ips.filter (inFamily ParseIP qtype)).length + m) pre.length acc
        = getAnswersLoop S (pre ++ recordsOf ParseIP qtype ips ++ tail) m
          (pre.length + (recordsOf ParseIP qtype ips).length)
          (acc ++ (ips.filter (inFamily ParseIP qtype)).map (fun s => S (ParseIP s))) := by
  induction ips with
  | nil => intro pre tail m acc; simp [recordsOf]
  | cons s ips ih =>
    intro pre tail m acc
    have hs : (ParseIP s).length = 16 := hvalid s (by simp)
    have ih' := ih (fun t ht => hvalid t (by simp [ht]))
    rw [recordsOf_cons]
    by_cases hfam : inFamily ParseIP qtype s = true
    · simp only [hfam, if_true, List.filter, List.length_cons, List.map_cons]
      have hcnt : (ips.filter (inFamily ParseIP qtype)).length + 1 + m
          = ((ips.filter (inFamily ParseIP qtype)).length + m) + 1 := by omega
      rw [hcnt]
      rcases hq with hq | hq
      · subst hq
        cases h4 : To4 (ParseIP s) with
        | none => simp [inFamily, isIPv4, h4] at hfam
        | some ip4 =>
          obtain ⟨a, b, c, d, rfl, hip⟩ := To4_of_length_16 _ _ hs h4
          have hrec : recordOf ParseIP 1 s
              = [0xC0, 0x0C, 0x00, 1, 0x00, 0x01, 0x00, 0x00, 0x0E, 0x10, 0x00, 0x04,
                a, b, c, d] := by
            simp [recordOf, h4]
          have e1 : pre ++ (recordOf ParseIP 1 s ++ recordsOf ParseIP 1 ips) ++ tail
              = pre ++ recordOf ParseIP 1 s ++ (recordsOf ParseIP 1 ips ++ tail) := by simp
          have e2 : pre ++ (recordOf ParseIP 1 s ++ recordsOf ParseIP 1 ips) ++ tail
              = (pre ++ recordOf ParseIP 1 s) ++ recordsOf ParseIP 1 ips ++ tail := by simp
          have step := getAnswersLoop_A_record S pre (recordsOf ParseIP 1 ips ++ tail) a b c d
            ((ips.filter (inFamily ParseIP 1)).length + m) acc
          rw [← hrec, ← e1] at step
          rw [step, e2]
          have hpl : pre.length + 16 = (pre ++ recordOf ParseIP 1 s).length := by
            rw [hrec]; simp
          rw [hpl, ih' (pre ++ recordOf ParseIP 1 s) tail m, hip]
          simp [Nat.add_assoc]
      · subst hq
        have hrec : recordOf ParseIP 28 s
            = [0xC0, 0x0C, 0x00, 28, 0x00, 0x01, 0x00, 0x00, 0x0E, 0x10, 0x00, 0x10]
              ++ ParseIP s := by
          simp [recordOf]
        have e1 : pre ++ (recordOf ParseIP 28 s ++ recordsOf ParseIP 28 ips) ++ tail
            = pre ++ recordOf ParseIP 28 s ++ (recordsOf ParseIP 28 ips ++ tail) := by simp
        have e2 : pre ++ (recordOf ParseIP 28 s ++ recordsOf ParseIP 28 ips) ++ tail
            = (pre ++ recordOf ParseIP 28 s) ++ recordsOf ParseIP 28 ips ++ tail := by simp
        have step := getAnswersLoop_AAAA_record S pre (ParseIP s)
          (recordsOf ParseIP 28 ips ++ tail) ((ips.filter (inFamily ParseIP 28)).length + m) acc hs
        rw [← hrec, ← e1] at step
        rw [step, e2]
        have hpl : pre.length + 28 = (pre ++ recordOf ParseIP 28 s).length := by
          rw [hrec]; simp [hs]
        rw [hpl, ih' (pre ++ recordOf ParseIP 28 s) tail m]
        simp [Nat.add_assoc]
    · have hfam' : inFamily ParseIP qtype s = false := by simpa using hfam
      simp only [hfam, if_false, List.filter, hfam']
      exact ih' pre tail m acc

/-- C1: for every list `ips` of valid addresses (`net.ParseIP` gives each its
16-byte form) and `qtype` 1 or 28, `packAnswers` returns some `(n, bytes)`, and
`getAnswers(bytes, n)` does not fail and returns, in their original order and
with nothing added, exactly the addresses of `ips` of the requested family
(IPv4 when `To4` is not nil, asked by `qtype` 1; IPv6 otherwise, asked by 28),
each printed by `net.IP.String`; so for addresses written the way
`net.IP.String` prints them the result is literally the sublist of `ips`.
Mixed lists are covered. -/
theorem packAnswers_getAnswers_roundtrip (ParseIP IPString : Bytes → Bytes) (ips : List Bytes)
    (qtype : Nat) (hvalid : ∀ s ∈ ips, (ParseIP s).length = 16) (hq : qtype = 1 ∨ qtype = 28) :
    ∃ n bytes, packAnswers ParseIP ips qtype = .ok (n, bytes)
      ∧ getAnswers IPString bytes n
          = .ok (some ((ips.filter (inFamily ParseIP qtype)).map (fun s => IPString (ParseIP s))))
      ∧ ((∀ s ∈ ips, IPString (ParseIP s) = s) →
          getAnswers IPString bytes n = .ok (some (ips.filter (inFamily ParseIP qtype)))) := by
  have key : ∃ n bytes, packAnswers ParseIP ips qtype = .ok (n, bytes)
      ∧ getAnswers IPString bytes n
          = .ok (some ((ips.filter (inFamily ParseIP qtype)).map
              (fun s => IPString (ParseIP s)))) := by
    rcases hq with hq | hq
    · subst hq
      refine ⟨_, _, packAnswers_A ParseIP ips hvalid, ?_⟩
      have h := getAnswersLoop_records IPString ParseIP 1 (Or.inl rfl) ips hvalid [] [] 0 []
      simp only [List.nil_append, List.append_nil, Nat.add_zero, List.length_nil,
        Nat.zero_add] at h
      rw [getAnswers, h]
      rfl
    · subst hq
      refine ⟨_, _, packAnswers_AAAA ParseIP ips hvalid, ?_⟩
      have hle : (ips.filter (inFamily ParseIP 28)).length ≤ ips.length :=
        List.length_filter_le _ _
      have h := getAnswersLoop_records IPString ParseIP 28 (Or.inr rfl) ips hvalid []
        (List.replicate (28 * (ips.length - (ips.filter (inFamily ParseIP 28)).length)) 0)
        (ips.length - (ips.filter (inFamily ParseIP 28)).length) []
      simp only [List.nil_append, List.length_nil, Nat.zero_add] at h
      have hcnt : (ips.filter (inFamily ParseIP 28)).length
          + (ips.length - (ips.filter (inFamily ParseIP 28)).length) = ips.length := by omega
      rw [hcnt] at h
      rw [getAnswers, h]
      exact getAnswersLoop_zeros IPString (recordsOf ParseIP 28 ips) _ _ _ _ (Nat.le_refl _)
        (by omega)
  obtain ⟨n, bytes, h1, h2⟩ := key
  refine ⟨n, bytes, h1, h2, fun hc => ?_⟩
  rw [h2]
  have : (ips.filter (inFamily ParseIP qtype)).map (fun s => IPString (ParseIP s))
      = ips.filter (inFamily ParseIP qtype) := by
    have hm : ∀ s ∈ ips.filter (inFamily ParseIP qtype), IPString (ParseIP s) = s :=
      fun s hs' => hc s (List.mem_of_mem_filter hs')
    calc (ips.filter (inFamily ParseIP qtype)).map (fun s => IPString (ParseIP s))
        = (ips.filter (inFamily ParseIP qtype)).map id := List.map_congr_left hm
      _ = ips.filter (inFamily ParseIP qtype) := List.map_id _
  rw [this]

/-- Witness of `packAnswers_getAnswers_roundtrip`: a list mixing both
families, asked for AAAA. -/
theorem packAnswers_getAnswers_roundtrip_witness :
    ∃ n bytes, packAnswers sampleParseIP [ascii "1.2.3.4", ascii "::1", ascii "5.6.7.8"] 28
        = .ok (n, bytes)
      ∧ getAnswers sampleIPString bytes n
          = .ok (some (([ascii "1.2.3.4", ascii "::1", ascii "5.6.7.8"].filter
              (inFamily sampleParseIP 28)).map (fun s => sampleIPString (sampleParseIP s))))
      ∧ ((∀ s ∈ [ascii "1.2.3.4", ascii "::1", ascii "5.6.7.8"],
            sampleIPString (sampleParseIP s) = s) →
          getAnswers sampleIPString bytes n
            = .ok (some ([ascii "1.2.3.4", ascii "::1", ascii "5.6.7.8"].filter
                (inFamily sampleParseIP 28)))) :=
  packAnswers_getAnswers_roundtrip sampleParseIP sampleIPString
    [ascii "1.2.3.4", ascii "::1", ascii "5.6.7.8"] 28 (by decide) (Or.inr rfl)

/-- C2, evaluation at the failing input: asked for AAAA records of the single
IPv4 address `1.2.3.4`, `packAnswers` returns count 1 and 28 zero bytes, where
the reference definition gives count 0 and no bytes. -/
theorem packAnswers_AAAA_counts_IPv4 :
    packAnswers sampleParseIP [ascii "1.2.3.4"] 28 = .ok (1, List.replicate 28 0)
      ∧ ([ascii "1.2.3.4"].filter (inFamily sampleParseIP 28)).length = 0
      ∧ recordsOf sampleParseIP 28 [ascii "1.2.3.4"] = [] := by
  decide

end Answers

section Buffers

@[simp] theorem length_copyBytes (dst : Bytes) (off : Nat) (src : Bytes) :
    (copyBytes dst off src).length = dst.length := by
  simp only [copyBytes, List.length_append, List.length_take, List.length_drop]
  omega

theorem getElem?_copyBytes (dst : Bytes) (off : Nat) (src : Bytes) (i : Nat) :
    (copyBytes dst off src)[i]?
      = if off ≤ i ∧ i < off + src.length ∧ i < dst.length then src[i - off]? else dst[i]? := by
  unfold copyBytes
  by_cases h1 : i < off
  · have hc : ¬ (off ≤ i ∧ i < off + src.length ∧ i < dst.length) := by omega
    rw [if_neg hc, List.append_assoc]
    by_cases h2 : i < dst.length
    · rw [List.getElem?_append_left (by simp; omega), List.getElem?_take_of_lt h1]
    · have e1 : (dst.take off ++ (src.take (dst.length - off) ++ dst.drop (off + src.length)))[i]?
          = none := by
        apply List.getElem?_eq_none
        simp only [List.length_append, List.length_take, List.length_drop]
        omega
      have e2 : dst[i]? = none := List.getElem?_eq_none (by omega)
      rw [e1, e2]
  · have h1' : off ≤ i := by omega
    by_cases h2 : i < dst.length
    · have htl : (dst.take off).length = off := by simp; omega
      by_cases h3 : i < off + src.length
      · have hc : off ≤ i ∧ i < off + src.length ∧ i < dst.length := ⟨h1', h3, h2⟩
        rw [if_pos hc, List.append_assoc, List.getElem?_append_right (by omega), htl,
          List.getElem?_append_left (by simp; omega), List.getElem?_take_of_lt (by omega)]
      · have hc : ¬ (off ≤ i ∧ i < off + src.length ∧ i < dst.length) := by omega
        have hsl : (src.take (dst.length - off)).length = src.length := by simp; omega
        rw [if_neg hc, List.getElem?_append_right (by simp; omega)]
        simp only [List.length_append, htl, hsl, List.getElem?_drop]
        congr 1; omega
    · have hc : ¬ (off ≤ i ∧ i < off + src.length ∧ i < dst.length) := by omega
      have e1 : (dst.take off ++ src.take (dst.length - off) ++ dst.drop (off + src.length))[i]?
          = none := by
        apply List.getElem?_eq_none
        simp only [List.length_append, List.length_take, List.length_drop]
        omega
      have e2 : dst[i]? = none := List.getElem?_eq_none (by omega)
      rw [if_neg hc, e1, e2]

@[simp] theorem length_put16 (b : Bytes) (off v : Nat) : (put16 b off v).length = b.length := by
  simp [put16]

theorem getElem?_put16 (b : Bytes) (off v i : Nat) (h : off + 2 ≤ b.length) :
    (put16 b off v)[i]?
      = if i = off then some (v / 256 % 256)
        else if i = off + 1 then some (v % 256) else b[i]? := by
  unfold put16
  by_cases h1 : i = off + 1
  · subst h1
    have : ¬ (off + 1 = off) := by omega
    rw [if_neg this, if_pos rfl, List.getElem?_set_self (by simp; omega)]
  · rw [List.getElem?_set_ne (fun e => h1 e.symm)]
    by_cases h0 : i = off
    · subst h0
      rw [if_pos rfl, List.getElem?_set_self (by omega)]
    · rw [if_neg h0, if_neg h1, List.getElem?_set_ne (fun e => h0 e.symm)]

theorem getElem?_set_lt (b : Bytes) (k v i : Nat) (h : k < b.length) :
    (b.set k v)[i]? = if i = k then some v else b[i]? := by
  by_cases h0 : i = k
  · subst h0
    rw [if_pos rfl, List.getElem?_set_self h]
  · rw [if_neg h0, List.getElem?_set_ne (fun e => h0 e.symm)]

end Buffers

section DNSDaemonExamples


/-- C6, evaluation at the failing input: with the config lines `#LEVEL1`,
`ipv6`, `example.com=1.2.3.4`, the entry stored for `example.com` has
`ANCount6 = 1` and 28 zero bytes as `Answers6`, and an AAAA query for
`example.com` is answered with ANCOUNT 1 and those 28 bytes appended, not with
the empty reply. -/
theorem DNSDaemon_AAAA_of_IPv4_only_domain :
    (configured [ascii "#LEVEL1", ascii "ipv6", ascii "example.com=1.2.3.4"]).DomainMap
        (ascii "example.com")
      = some ⟨1, 1, 1, [0xC0, 0x0C, 0, 1, 0, 1, 0, 0, 0x0E, 0x10, 0, 4, 1, 2, 3, 4],
          List.replicate 28 0⟩
    ∧ (DNSDaemonStep (configured [ascii "#LEVEL1", ascii "ipv6", ascii "example.com=1.2.3.4"])
        (makeBytes 1500) (queryV4 [] 12345 53 (exampleQuery 28))).map (fun o => o.sent)
      = .ok [⟨[69, 0, 0, 85, 141, 152, 64, 0, 64, 17, 150, 46, 8, 8, 8, 8, 10, 0, 0, 1,
              0, 53, 48, 57, 0, 65, 0, 0]
            ++ [0xAB, 0xCD, 0x81, 0x80, 0, 1, 0, 1, 0, 0, 0, 0]
            ++ encodeLabels [ascii "example", ascii "com"] ++ [0, 0, 28, 0, 1]
            ++ List.replicate 28 0, true⟩] := by
  decide!

/-- C7, evaluation at the failing input: with the config lines `#LEVEL2`,
`local-dns` and the bare domain `example.com`, an A query for `example.com`
(level 2, no suppression, `ANCount4 = 0`, `LocalDNS` true) makes the round of
`DNSDaemon` send nothing: the query is not re-injected. -/
theorem DNSDaemon_localDNS_drops_query :
    (configured [ascii "#LEVEL2", ascii "local-dns", ascii "example.com"]).LocalDNS = true
    ∧ (configured [ascii "#LEVEL2", ascii "local-dns", ascii "example.com"]).DomainMap
        (ascii "example.com") = some ⟨2, 0, 0, [], []⟩
    ∧ DNSDaemonStep (configured [ascii "#LEVEL2", ascii "local-dns", ascii "example.com"])
        (makeBytes 1500) (queryV4 [] 12345 53 (exampleQuery 1))
      = .ok ⟨makeBytes 1500, [], none⟩ := by
  decide!

/-- C9, evaluation at the failing input: an IPv4 A query whose header has
IHL 6 (four option bytes `1 1 1 0`), UDP source port 12345 and destination
port 53.  The reply's UDP ports (bytes 20-23) are `1 0` and `1 1`, copied from
bytes 22-23 and 20-21 of the query, which are its IP options; the query's
ports are `48 57` (12345) and `0 53`. -/
theorem DNSDaemon_ports_with_IP_options :
    (DNSDaemonStep (configured [ascii "#LEVEL1", ascii "example.com=1.2.3.4"])
        (makeBytes 1500) (queryV4 [1, 1, 1, 0] 12345 53 (exampleQuery 1))).map (fun o => o.sent)
      = .ok [⟨[69, 0, 0, 73, 141, 152, 64, 0, 64, 17, 150, 46, 8, 8, 8, 8, 10, 0, 0, 1,
              1, 0, 1, 1, 0, 53, 0, 0]
            ++ [0xAB, 0xCD, 0x81, 0x80, 0, 1, 0, 1, 0, 0, 0, 0]
            ++ encodeLabels [ascii "example", ascii "com"] ++ [0, 0, 1, 0, 1]
            ++ [0xC0, 0x0C, 0, 1, 0, 1, 0, 0, 0x0E, 0x10, 0, 4, 1, 2, 3, 4], true⟩]
    ∧ (queryV4 [1, 1, 1, 0] 12345 53 (exampleQuery 1)).take 28
      = [70, 0, 0, 0, 0, 0, 64, 0, 64, 17, 0, 0, 10, 0, 0, 1, 8, 8, 8, 8, 1, 1, 1, 0,
          48, 57, 0, 53] := by
  decide!

end DNSDaemonExamples

section DNSDaemonReply

theorem getElem?_set_if (b : Bytes) (k v i : Nat) :
    (b.set k v)[i]? = if i = k ∧ k < b.length then some v else b[i]? := by
  by_cases h0 : i = k
  · subst h0
    by_cases h1 : i < b.length
    · rw [if_pos ⟨rfl, h1⟩, List.getElem?_set_self h1]
    · have hc : ¬ (i = i ∧ i < b.length) := fun h => h1 h.2
      rw [if_neg hc, List.getElem?_eq_none (by simp; omega), List.getElem?_eq_none (by omega)]
  · have hc : ¬ (i = k ∧ k < b.length) := fun h => h0 h.1
    rw [if_neg hc, List.getElem?_set_ne (fun e => h0 e.symm)]

theorem getElem?_put16_if (b : Bytes) (off v i : Nat) :
    (put16 b off v)[i]?
      = if i = off + 1 ∧ off + 1 < b.length then some (v % 256)
        else if i = off ∧ off < b.length then some (v / 256 % 256) else b[i]? := by
  unfold put16
  rw [getElem?_set_if, getElem?_set_if, List.length_set]

@[simp] theorem length_makeBytes (n : Nat) : (makeBytes n).length = n := by
  simp [makeBytes]

theorem copyBytes_nil (dst : Bytes) (off : Nat) : copyBytes dst off [] = dst := by
  simp [copyBytes]

theorem reply_message (X request answers : Bytes) (h cnt : Nat) (hX : X.length = 1500)
    (hreq : 8 ≤ request.length) (hfit : h + 8 + request.length + answers.length ≤ 1500) :
    ((copyBytes (put16 (((copyBytes X (h + 8) request).set (h + 10) 0x81).set (h + 11) 0x80)
        (h + 14) cnt) (h + 8 + request.length) answers).take
          (h + (request.length + answers.length + 8))).drop (h + 8)
      = forgedMessage request cnt answers := by
  apply List.ext_getElem?
  intro i
  simp only [forgedMessage, List.getElem?_drop, List.getElem?_take, getElem?_copyBytes,
    getElem?_put16_if, getElem?_set_if, List.getElem?_append, length_copyBytes, length_put16,
    List.length_set, hX]
  by_cases hi : i < request.length
  · have e : h + 8 + i - (h + 8) = i := by omega
    simp only [e]
    split_ifs <;> first | rfl | omega
  · by_cases hj : i < request.length + answers.length
    · have e : h + 8 + i - (h + 8 + request.length) = i - request.length := by omega
      simp only [e]
      split_ifs <;> first | rfl | omega
    · have e1 : answers[i - request.length]? = none := List.getElem?_eq_none (by omega)
      simp only [e1]
      split_ifs <;> first | rfl | omega

theorem forgeCommon_v4 (rawbuf Raw request : Bytes) (ipheadlen udpsize : Nat)
    (hbuf : rawbuf.length = 1500) (hraw : 24 ≤ Raw.length) :
    ∃ X, X.length = 1500 ∧
      forgeCommon rawbuf Raw request false ipheadlen udpsize
        = .ok (((copyBytes X 28 request).set 30 0x81).set 31 0x80, 20 + udpsize, 20) := by
  refine ⟨put16 (copyBytes (copyBytes (copyBytes (copyBytes (put16 (copyBytes rawbuf 0
    [69, 0, 1, 32, 141, 152, 64, 0, 64, 17, 150, 46]) 2 (20 + udpsize)) 12
    ((Raw.take 20).drop 16)) 16 ((Raw.take 16).drop 12)) 20 ((Raw.take 24).drop 22)) 22
    ((Raw.take 22).drop 20)) 24 udpsize, by simp [hbuf], ?_⟩
  have h1 : 20 ≤ Raw.length := by omega
  have h2 : 16 ≤ Raw.length := by omega
  have h3 : 22 ≤ Raw.length := by omega
  simp [forgeCommon, copyAt, PutUint16, slice, setByte, hbuf, h1, h2, h3, hraw]

theorem forgeCommon_v6 (rawbuf Raw request : Bytes) (udpsize : Nat)
    (hbuf : rawbuf.length = 1500) (hraw : 44 ≤ Raw.length) :
    ∃ X, X.length = 1500 ∧
      forgeCommon rawbuf Raw request true 40 udpsize
        = .ok (((copyBytes X 48 request).set 50 0x81).set 51 0x80, 40 + udpsize, 40) := by
  refine ⟨put16 (copyBytes (copyBytes (copyBytes (copyBytes (put16 (copyBytes rawbuf 0
    [96, 12, 19, 68, 0, 98, 17, 128]) 4 udpsize) 8
    ((Raw.take 40).drop 24)) 24 ((Raw.take 24).drop 8)) 40 ((Raw.take 44).drop 42)) 42
    ((Raw.take 42).drop 40)) 44 udpsize, by simp [hbuf], ?_⟩
  have h1 : 40 ≤ Raw.length := by omega
  have h2 : 24 ≤ Raw.length := by omega
  have h3 : 42 ≤ Raw.length := by omega
  simp [forgeCommon, copyAt, PutUint16, slice, setByte, hbuf, h1, h2, h3, hraw]


theorem forgeCommon_spec (rawbuf Raw request : Bytes) (v6 : Bool) (ipheadlen udpsize : Nat)
    (hbuf : rawbuf.length = 1500) (h24 : 24 ≤ Raw.length)
    (h6 : v6 = true → ipheadlen = 40 ∧ 44 ≤ Raw.length) :
    ∃ X, X.length = 1500 ∧
      forgeCommon rawbuf Raw request v6 ipheadlen udpsize
        = .ok (((copyBytes X ((if v6 = true then 40 else 20) + 8) request).set
            ((if v6 = true then 40 else 20) + 10) 0x81).set
            ((if v6 = true then 40 else 20) + 11) 0x80,
          (if v6 = true then 40 else 20) + udpsize, if v6 = true then 40 else 20) := by
  cases v6 with
  | false => simpa using forgeCommon_v4 rawbuf Raw request ipheadlen udpsize hbuf h24
  | true =>
    obtain ⟨rfl, h44⟩ := h6 rfl
    simpa using forgeCommon_v6 rawbuf Raw request udpsize hbuf h44

theorem forgeAnswer_spec (rawbuf Raw : Bytes) (v6 : Bool) (ipheadlen anCount : Nat)
    (answers : Bytes) (hbuf : rawbuf.length = 1500) (h24 : 24 ≤ Raw.length)
    (h6 : v6 = true → ipheadlen = 40 ∧ 44 ≤ Raw.length)
    (hreq : ipheadlen + 8 + 8 ≤ Raw.length) :
    (((if v6 = true then 40 else 20) + 8 + (Raw.drop (ipheadlen + 8)).length + answers.length
        ≤ 1500 →
      ∃ out pkt, forgeAnswer rawbuf Raw v6 ipheadlen anCount answers = .ok out
        ∧ out.sent = [⟨pkt, true⟩] ∧ out.tunnel = none
        ∧ pkt.drop ((if v6 = true then 40 else 20) + 8)
          = forgedMessage (Raw.drop (ipheadlen + 8)) anCount answers)
    ∧ (¬ ((if v6 = true then 40 else 20) + 8 + (Raw.drop (ipheadlen + 8)).length + answers.length
        ≤ 1500) →
      forgeAnswer rawbuf Raw v6 ipheadlen anCount answers = .error .outOfRange)) := by
  obtain ⟨X, hX, hc⟩ := forgeCommon_spec rawbuf Raw (Raw.drop (ipheadlen + 8)) v6 ipheadlen
    ((Raw.drop (ipheadlen + 8)).length + answers.length + 8) hbuf h24 h6
  have hle : ipheadlen + 8 ≤ Raw.length := by omega
  have hrl : 8 ≤ (Raw.drop (ipheadlen + 8)).length := by simp; omega
  generalize hh : (if v6 = true then 40 else 20) = h at hc ⊢
  have hh40 : h ≤ 40 := by rw [← hh]; split <;> omega
  generalize hr : Raw.drop (ipheadlen + 8) = request at hc hrl ⊢
  have hsf : sliceFrom Raw (ipheadlen + 8) = .ok request := by simp [sliceFrom, hle, hr]
  have hp : PutUint16 (((copyBytes X (h + 8) request).set (h + 10) 0x81).set (h + 11) 0x80)
      (h + 14) anCount
      = .ok (put16 (((copyBytes X (h + 8) request).set (h + 10) 0x81).set (h + 11) 0x80)
        (h + 14) anCount) := by
    simp [PutUint16, hX]; omega
  refine ⟨fun hfit => ?_, fun hnfit => ?_⟩
  · have hcp : copyAt (put16 (((copyBytes X (h + 8) request).set (h + 10) 0x81).set (h + 11) 0x80)
        (h + 14) anCount) (h + 8 + request.length) answers
        = .ok (copyBytes (put16 (((copyBytes X (h + 8) request).set (h + 10) 0x81).set (h + 11)
          0x80) (h + 14) anCount) (h + 8 + request.length) answers) := by
      simp [copyAt, hX]; omega
    have hst : sliceTo (copyBytes (put16 (((copyBytes X (h + 8) request).set (h + 10) 0x81).set
        (h + 11) 0x80) (h + 14) anCount) (h + 8 + request.length) answers)
        (h + (request.length + answers.length + 8))
        = .ok ((copyBytes (put16 (((copyBytes X (h + 8) request).set (h + 10) 0x81).set
          (h + 11) 0x80) (h + 14) anCount) (h + 8 + request.length) answers).take
          (h + (request.length + answers.length + 8))) := by
      simp [sliceTo, hX]; omega
    refine ⟨⟨copyBytes (put16 (((copyBytes X (h + 8) request).set (h + 10) 0x81).set (h + 11)
      0x80) (h + 14) anCount) (h + 8 + request.length) answers, [⟨_, true⟩], none⟩, _, ?_, rfl, rfl,
      reply_message X request answers h anCount hX hrl hfit⟩
    simp only [forgeAnswer, hsf, bind_ok, hc, hp, hcp, hst]
    rfl
  · simp only [forgeAnswer, hsf, bind_ok, hc, hp]
    by_cases h1 : h + 8 + request.length ≤ 1500
    · have hcp : copyAt (put16 (((copyBytes X (h + 8) request).set (h + 10) 0x81).set (h + 11)
          0x80) (h + 14) anCount) (h + 8 + request.length) answers
          = .ok (copyBytes (put16 (((copyBytes X (h + 8) request).set (h + 10) 0x81).set (h + 11)
            0x80) (h + 14) anCount) (h + 8 + request.length) answers) := by
        simp [copyAt, hX]; omega
      have hst : sliceTo (copyBytes (put16 (((copyBytes X (h + 8) request).set (h + 10)
          0x81).set (h + 11) 0x80) (h + 14) anCount) (h + 8 + request.length) answers)
          (h + (request.length + answers.length + 8)) = .error .outOfRange := by
        simp [sliceTo, hX]; omega
      simp only [hcp, bind_ok, hst]
      rfl
    · have hcp : copyAt (put16 (((copyBytes X (h + 8) request).set (h + 10) 0x81).set (h + 11)
          0x80) (h + 14) anCount) (h + 8 + request.length) answers = .error .outOfRange := by
        simp [copyAt, hX]; omega
      simp only [hcp]
      rfl


theorem forgeEmpty_spec (rawbuf Raw : Bytes) (v6 : Bool) (ipheadlen : Nat)
    (hbuf : rawbuf.length = 1500) (h24 : 24 ≤ Raw.length)
    (h6 : v6 = true → ipheadlen = 40 ∧ 44 ≤ Raw.length)
    (hreq : ipheadlen + 8 + 8 ≤ Raw.length) :
    (((if v6 = true then 40 else 20) + 8 + (Raw.drop (ipheadlen + 8)).length ≤ 1500 →
      ∃ out pkt, forgeEmpty rawbuf Raw v6 ipheadlen = .ok out
        ∧ out.sent = [⟨pkt, true⟩] ∧ out.tunnel = none
        ∧ pkt.drop ((if v6 = true then 40 else 20) + 8)
          = forgedMessage (Raw.drop (ipheadlen + 8)) 0 [])
    ∧ (¬ ((if v6 = true then 40 else 20) + 8 + (Raw.drop (ipheadlen + 8)).length ≤ 1500) →
      forgeEmpty rawbuf Raw v6 ipheadlen = .error .outOfRange)) := by
  obtain ⟨X, hX, hc⟩ := forgeCommon_spec rawbuf Raw (Raw.drop (ipheadlen + 8)) v6 ipheadlen
    ((Raw.drop (ipheadlen + 8)).length + 8) hbuf h24 h6
  have hle : ipheadlen + 8 ≤ Raw.length := by omega
  have hrl : 8 ≤ (Raw.drop (ipheadlen + 8)).length := by simp; omega
  generalize hh : (if v6 = true then 40 else 20) = h at hc ⊢
  have hh40 : h ≤ 40 := by rw [← hh]; split <;> omega
  generalize hr : Raw.drop (ipheadlen + 8) = request at hc hrl ⊢
  have hsf : sliceFrom Raw (ipheadlen + 8) = .ok request := by simp [sliceFrom, hle, hr]
  have hp : PutUint16 (((copyBytes X (h + 8) request).set (h + 10) 0x81).set (h + 11) 0x80)
      (h + 14) 0
      = .ok (put16 (((copyBytes X (h + 8) request).set (h + 10) 0x81).set (h + 11) 0x80)
        (h + 14) 0) := by
    simp [PutUint16, hX]; omega
  refine ⟨fun hfit => ?_, fun hnfit => ?_⟩
  · have hst : sliceTo (put16 (((copyBytes X (h + 8) request).set (h + 10) 0x81).set
        (h + 11) 0x80) (h + 14) 0) (h + (request.length + 8))
        = .ok ((put16 (((copyBytes X (h + 8) request).set (h + 10) 0x81).set
          (h + 11) 0x80) (h + 14) 0).take (h + (request.length + 8))) := by
      simp [sliceTo, hX]; omega
    have hmsg := reply_message X request [] h 0 hX hrl (by simpa using hfit)
    rw [copyBytes_nil] at hmsg
    simp only [List.length_nil, Nat.add_zero] at hmsg
    refine ⟨⟨put16 (((copyBytes X (h + 8) request).set (h + 10) 0x81).set (h + 11) 0x80)
      (h + 14) 0, [⟨_, true⟩], none⟩, _, ?_, rfl, rfl, hmsg⟩
    simp only [forgeEmpty, hsf, bind_ok, hc, hp, hst]
    rfl
  · have hst : sliceTo (put16 (((copyBytes X (h + 8) request).set (h + 10) 0x81).set
        (h + 11) 0x80) (h + 14) 0) (h + (request.length + 8)) = .error .outOfRange := by
      simp [sliceTo, hX]; omega
    simp only [forgeEmpty, hsf, bind_ok, hc, hp, hst]
    rfl

theorem getQName_length (buf qname : Bytes) (qtype off : Nat)
    (hq : getQName buf = .ok (qname, qtype, off)) (hname : qname ≠ []) : 13 ≤ buf.length := by
  by_contra h
  have h' : buf.length < 13 := by omega
  simp [getQName, h'] at hq
  exact hname hq.1

theorem forgedMessage_fields (request answers : Bytes) (cnt : Nat) (hreq : 8 ≤ request.length)
    (hcnt : cnt < 65536) :
    Uint16 ((forgedMessage request cnt answers).drop 2) = .ok 0x8180
      ∧ Uint16 ((forgedMessage request cnt answers).drop 6) = .ok cnt := by
  rcases request with _ | ⟨r0, _ | ⟨r1, _ | ⟨r2, _ | ⟨r3, _ | ⟨r4, _ | ⟨r5, _ | ⟨r6, _ | ⟨r7, t⟩⟩⟩⟩⟩⟩⟩⟩ <;>
    simp at hreq
  refine ⟨by simp [forgedMessage, put16, Uint16], ?_⟩
  simp only [forgedMessage, put16, List.set, List.drop, List.cons_append, Uint16]
  show Except.ok (cnt / 256 % 256 * 256 + cnt % 256) = Except.ok cnt
  congr 1
  omega


theorem chooseAnswers_cases (IPv6Enable : Bool) (config : Config) (qtype : Nat)
    (noRecord : Bool) (anCount : Nat) (answers : Bytes)
    (hch : chooseAnswers IPv6Enable config qtype = (noRecord, anCount, answers)) :
    (noRecord = true → anCount = 0 ∧ answers = [])
      ∧ (noRecord = false → 0 < anCount →
          (qtype = 1 ∧ anCount = config.ANCount4 ∧ answers = config.Answers4)
            ∨ (qtype = 28 ∧ anCount = config.ANCount6 ∧ answers = config.Answers6)) := by
  unfold chooseAnswers at hch
  split_ifs at hch <;> simp only [Prod.mk.injEq] at hch <;>
    obtain ⟨h1, h2, h3⟩ := hch <;> subst h1 h2 h3 <;> simp_all

/-- C8: for every captured query, IPv4 (header length at least 20) or IPv6,
whose name has a policy of level above 0 and which `DNSDaemon` suppresses
(`noRecord`) or answers locally (`anCount > 0`): the round sends a reply
whenever the reply fits the 1500-byte buffer, and whenever it sends one, the
DNS message of that packet is the query's message with flags `0x8180` in
bytes 2-3 and ANCOUNT in bytes 6-7, followed by the answer bytes, where
ANCOUNT is 0 and nothing is appended when suppressing, and ANCOUNT and the
appended bytes are the policy's `ANCount4`, `Answers4` for QTYPE 1 and
`ANCount6`, `Answers6` for QTYPE 28 when answering. -/
theorem DNSDaemon_forged_message (g : Globals) (rawbuf Raw : Bytes) (b0 : Nat)
    (qname : Bytes) (qtype off : Nat) (config : Config) (noRecord : Bool) (anCount : Nat)
    (answers : Bytes)
    (hbuf : rawbuf.length = 1500) (hb0 : Raw.head? = some b0)
    (hihl : isIPv6 b0 = false → 5 ≤ b0 % 16)
    (hq : getQName (Raw.drop (ipHeadLen b0 + 8)) = .ok (qname, qtype, off))
    (hname : qname ≠ [])
    (hcfg : domainLookup g.DomainMap qname = config) (hlevel : 0 < config.Level)
    (hu16 : config.ANCount4 < 65536 ∧ config.ANCount6 < 65536)
    (hch : chooseAnswers g.IPv6Enable config qtype = (noRecord, anCount, answers))
    (hact : noRecord = true ∨ 0 < anCount) :
    (replyHeadLen b0 + 8 + (Raw.drop (ipHeadLen b0 + 8)).length + answers.length ≤ 1500 →
        ∃ out, DNSDaemonStep g rawbuf Raw = .ok out)
      ∧ ∀ out, DNSDaemonStep g rawbuf Raw = .ok out →
        ∃ pkt, out.sent = [⟨pkt, true⟩] ∧ out.tunnel = none
          ∧ pkt.drop (replyHeadLen b0 + 8)
            = forgedMessage (Raw.drop (ipHeadLen b0 + 8)) anCount answers
          ∧ Uint16 ((pkt.drop (replyHeadLen b0 + 8)).drop 2) = .ok 0x8180
          ∧ Uint16 ((pkt.drop (replyHeadLen b0 + 8)).drop 6) = .ok anCount
          ∧ (noRecord = true → anCount = 0 ∧ answers = [])
          ∧ (noRecord = false →
              (qtype = 1 ∧ anCount = config.ANCount4 ∧ answers = config.Answers4)
                ∨ (qtype = 28 ∧ anCount = config.ANCount6 ∧ answers = config.Answers6)) := by
  obtain ⟨rest, rfl⟩ : ∃ rest, Raw = b0 :: rest := by
    cases Raw with
    | nil => simp at hb0
    | cons a t => simp at hb0; exact ⟨t, by rw [hb0]⟩
  obtain ⟨hsup, hans⟩ := chooseAnswers_cases _ _ _ _ _ _ hch
  have hlen13 := getQName_length _ _ _ _ hq hname
  have hdl : ((b0 :: rest).drop (ipHeadLen b0 + 8)).length
      = (b0 :: rest).length - (ipHeadLen b0 + 8) := List.length_drop _ _
  have hle : ipHeadLen b0 + 8 ≤ (b0 :: rest).length := by omega
  have hip : 20 ≤ ipHeadLen b0 := by
    unfold ipHeadLen
    by_cases h6 : isIPv6 b0 = true
    · simp [h6]
    · have := hihl (by simpa using h6)
      simp [h6]; omega
  have h24 : 24 ≤ (b0 :: rest).length := by omega
  have h6 : isIPv6 b0 = true → ipHeadLen b0 = 40 ∧ 44 ≤ (b0 :: rest).length := by
    intro h
    have e : ipHeadLen b0 = 40 := by simp [ipHeadLen, h]
    exact ⟨e, by omega⟩
  have hreq : ipHeadLen b0 + 8 + 8 ≤ (b0 :: rest).length := by omega
  have hrl : 8 ≤ ((b0 :: rest).drop (ipHeadLen b0 + 8)).length := by omega
  have hcnt : anCount < 65536 := by
    cases hnr : noRecord with
    | true => have := (hsup hnr).1; omega
    | false =>
      rcases hact with h | h
      · simp [hnr] at h
      · rcases hans hnr h with ⟨_, h2, _⟩ | ⟨_, h2, _⟩ <;> omega
  have hsf : sliceFrom (b0 :: rest) (ipHeadLen b0 + 8)
      = .ok ((b0 :: rest).drop (ipHeadLen b0 + 8)) := by simp only [sliceFrom, hle, if_true]
  have hb : byteAt (b0 :: rest) 0 = .ok b0 := by simp [byteAt]
  have hlv : config.Level > 0 := hlevel
  -- the round is the reply branch chosen by `chooseAnswers`
  have hstep : DNSDaemonStep g rawbuf (b0 :: rest)
      = if noRecord = true then forgeEmpty rawbuf (b0 :: rest) (isIPv6 b0) (ipHeadLen b0)
        else forgeAnswer rawbuf (b0 :: rest) (isIPv6 b0) (ipHeadLen b0) anCount answers := by
    unfold DNSDaemonStep
    simp only [hb, bind_ok, hsf, hq, hname, if_false, hcfg, hlv, if_true, hch]
    cases hnr : noRecord with
    | true => simp
    | false =>
      have hpos : anCount > 0 := by
        rcases hact with h | h
        · simp [hnr] at h
        · exact h
      simp [hpos]
  have hfields := forgedMessage_fields ((b0 :: rest).drop (ipHeadLen b0 + 8)) answers anCount
    hrl hcnt
  have hfam : noRecord = false →
      (qtype = 1 ∧ anCount = config.ANCount4 ∧ answers = config.Answers4)
        ∨ (qtype = 28 ∧ anCount = config.ANCount6 ∧ answers = config.Answers6) := by
    intro hnr
    rcases hact with h | h
    · simp [hnr] at h
    · exact hans hnr h
  rw [hstep]
  unfold replyHeadLen
  cases hnr : noRecord with
  | true =>
    obtain ⟨hc0, ha0⟩ := hsup hnr
    subst hc0 ha0
    obtain ⟨hok, hbad⟩ := forgeEmpty_spec rawbuf (b0 :: rest) (isIPv6 b0) (ipHeadLen b0)
      hbuf h24 h6 hreq
    simp only [if_true, List.length_nil, Nat.add_zero]
    refine ⟨fun hfit => ?_, fun out hout => ?_⟩
    · obtain ⟨out, _, ho, _⟩ := hok hfit
      exact ⟨out, ho⟩
    · by_cases hfit : (if isIPv6 b0 = true then 40 else 20) + 8
          + ((b0 :: rest).drop (ipHeadLen b0 + 8)).length ≤ 1500
      · obtain ⟨out', pkt, ho, hs, ht, hm⟩ := hok hfit
        rw [ho] at hout
        cases hout
        refine ⟨pkt, hs, ht, hm, ?_, ?_, by simp, by simp⟩
        · rw [hm]; exact hfields.1
        · rw [hm]; exact hfields.2
      · rw [hbad hfit] at hout
        cases hout
  | false =>
    obtain ⟨hok, hbad⟩ := forgeAnswer_spec rawbuf (b0 :: rest) (isIPv6 b0) (ipHeadLen b0)
      anCount answers hbuf h24 h6 hreq
    simp only [Bool.false_eq_true, if_false]
    refine ⟨fun hfit => ?_, fun out hout => ?_⟩
    · obtain ⟨out, _, ho, _⟩ := hok hfit
      exact ⟨out, ho⟩
    · by_cases hfit : (if isIPv6 b0 = true then 40 else 20) + 8
          + ((b0 :: rest).drop (ipHeadLen b0 + 8)).length + answers.length ≤ 1500
      · obtain ⟨out', pkt, ho, hs, ht, hm⟩ := hok hfit
        rw [ho] at hout
        cases hout
        refine ⟨pkt, hs, ht, hm, ?_, ?_, fun h => by simp at h, fun _ => hfam hnr⟩
        · rw [hm]; exact hfields.1
        · rw [hm]; exact hfields.2
      · rw [hbad hfit] at hout
        cases hout

/-- Witness of `DNSDaemon_forged_message`: the A query for `example.com`
under the config lines `#LEVEL1`, `example.com=1.2.3.4`. -/
theorem DNSDaemon_forged_message_witness :
    (replyHeadLen 69 + 8 + ((queryV4 [] 12345 53 (exampleQuery 1)).drop (ipHeadLen 69 + 8)).length
          + [0xC0, 0x0C, 0, 1, 0, 1, 0, 0, 0x0E, 0x10, 0, 4, 1, 2, 3, 4].length ≤ 1500 →
        ∃ out, DNSDaemonStep (configured [ascii "#LEVEL1", ascii "example.com=1.2.3.4"])
          (makeBytes 1500) (queryV4 [] 12345 53 (exampleQuery 1)) = .ok out)
      ∧ ∀ out, DNSDaemonStep (configured [ascii "#LEVEL1", ascii "example.com=1.2.3.4"])
          (makeBytes 1500) (queryV4 [] 12345 53 (exampleQuery 1)) = .ok out →
        ∃ pkt, out.sent = [⟨pkt, true⟩] ∧ out.tunnel = none
          ∧ pkt.drop (replyHeadLen 69 + 8)
            = forgedMessage ((queryV4 [] 12345 53 (exampleQuery 1)).drop (ipHeadLen 69 + 8)) 1
                [0xC0, 0x0C, 0, 1, 0, 1, 0, 0, 0x0E, 0x10, 0, 4, 1, 2, 3, 4]
          ∧ Uint16 ((pkt.drop (replyHeadLen 69 + 8)).drop 2) = .ok 0x8180
          ∧ Uint16 ((pkt.drop (replyHeadLen 69 + 8)).drop 6) = .ok 1
          ∧ (false = true → 1 = 0
              ∧ [0xC0, 0x0C, 0, 1, 0, 1, 0, 0, 0x0E, 0x10, 0, 4, 1, 2, 3, 4] = ([] : Bytes))
          ∧ (false = false →
              (1 = 1 ∧ 1 = (⟨1, 1, 1, [0xC0, 0x0C, 0, 1, 0, 1, 0, 0, 0x0E, 0x10, 0, 4, 1, 2, 3, 4],
                  List.replicate 28 0⟩ : Config).ANCount4
                ∧ [0xC0, 0x0C, 0, 1, 0, 1, 0, 0, 0x0E, 0x10, 0, 4, 1, 2, 3, 4]
                  = (⟨1, 1, 1, [0xC0, 0x0C, 0, 1, 0, 1, 0, 0, 0x0E, 0x10, 0, 4, 1, 2, 3, 4],
                    List.replicate 28 0⟩ : Config).Answers4)
              ∨ (1 = 28 ∧ 1 = (⟨1, 1, 1, [0xC0, 0x0C, 0, 1, 0, 1, 0, 0, 0x0E, 0x10, 0, 4, 1, 2, 3, 4],
                  List.replicate 28 0⟩ : Config).ANCount6
                ∧ [0xC0, 0x0C, 0, 1, 0, 1, 0, 0, 0x0E, 0x10, 0, 4, 1, 2, 3, 4]
                  = (⟨1, 1, 1, [0xC0, 0x0C, 0, 1, 0, 1, 0, 0, 0x0E, 0x10, 0, 4, 1, 2, 3, 4],
                    List.replicate 28 0⟩ : Config).Answers6)) :=
  DNSDaemon_forged_message (configured [ascii "#LEVEL1", ascii "example.com=1.2.3.4"])
    (makeBytes 1500) (queryV4 [] 12345 53 (exampleQuery 1)) 69 (ascii "example.com") 1 29
    ⟨1, 1, 1, [0xC0, 0x0C, 0, 1, 0, 1, 0, 0, 0x0E, 0x10, 0, 4, 1, 2, 3, 4], List.replicate 28 0⟩
    false 1 [0xC0, 0x0C, 0, 1, 0, 1, 0, 0, 0x0E, 0x10, 0, 4, 1, 2, 3, 4]
    (length_makeBytes 1500) (by decide) (by decide) (by decide) (by decide) (by decide)
    (by decide) (by decide) (by decide) (Or.inr (by decide))

end DNSDaemonReply

section Hello

theorem getElem?_put32_if (b : Bytes) (off v i : Nat) :
    (put32 b off v)[i]?
      = if i = off + 3 ∧ off + 3 < b.length then some (v % 256)
        else if i = off + 2 ∧ off + 2 < b.length then some (v / 256 % 256)
        else if i = off + 1 ∧ off + 1 < b.length then some (v / 65536 % 256)
        else if i = off ∧ off < b.length then some (v / 16777216 % 256) else b[i]? := by
  unfold put32
  rw [getElem?_set_if, getElem?_set_if, getElem?_set_if, getElem?_set_if]
  simp only [List.length_set]

@[simp] theorem length_put32 (b : Bytes) (off v : Nat) : (put32 b off v).length = b.length := by
  simp [put32]

theorem Uint16_drop (X : Bytes) (k a b : Nat) (h1 : X[k]? = some a) (h2 : X[k + 1]? = some b) :
    Uint16 (X.drop k) = .ok (a * 256 + b) := by
  have e0 : (X.drop k)[0]? = some a := by rw [List.getElem?_drop]; simpa using h1
  have e1 : (X.drop k)[1]? = some b := by rw [List.getElem?_drop]; simpa using h2
  rcases hd : X.drop k with _ | ⟨x, _ | ⟨y, t⟩⟩
  · rw [hd] at e0; simp at e0
  · rw [hd] at e1; simp at e1
  · rw [hd] at e0 e1
    simp at e0 e1
    simp [Uint16, e0, e1]

theorem Uint32_drop (X : Bytes) (k a b c d : Nat) (h0 : X[k]? = some a)
    (h1 : X[k + 1]? = some b) (h2 : X[k + 2]? = some c) (h3 : X[k + 3]? = some d) :
    Uint32 (X.drop k) = .ok (((a * 256 + b) * 256 + c) * 256 + d) := by
  have e0 : (X.drop k)[0]? = some a := by rw [List.getElem?_drop]; simpa using h0
  have e1 : (X.drop k)[1]? = some b := by rw [List.getElem?_drop]; simpa using h1
  have e2 : (X.drop k)[2]? = some c := by rw [List.getElem?_drop]; simpa using h2
  have e3 : (X.drop k)[3]? = some d := by rw [List.getElem?_drop]; simpa using h3
  rcases hd : X.drop k with _ | ⟨x, _ | ⟨y, _ | ⟨z, _ | ⟨w, t⟩⟩⟩⟩
  · rw [hd] at e0; simp at e0
  · rw [hd] at e1; simp at e1
  · rw [hd] at e2; simp at e2
  · rw [hd] at e3; simp at e3
  · rw [hd] at e0 e1 e2 e3
    simp at e0 e1 e2 e3
    simp [Uint32, e0, e1, e2, e3]

theorem Uint32_slice (X : Bytes) (k e : Nat) (he : e = k + 4) (h : k + 4 ≤ X.length) :
    (slice X k e >>= Uint32) = Uint32 (X.drop k) := by
  subst he
  have hs : slice X k (k + 4) = .ok ((X.take (k + 4)).drop k) := by
    simp [slice, h]
  rw [hs, bind_ok]
  have e : (X.take (k + 4)).drop k = (X.drop k).take 4 := by
    rw [List.drop_take]; congr 1; omega
  rw [e]
  have hl : 4 ≤ (X.drop k).length := by simp; omega
  rcases hd : X.drop k with _ | ⟨x, _ | ⟨y, _ | ⟨z, _ | ⟨w, t⟩⟩⟩⟩ <;> rw [hd] at hl <;>
    simp at hl
  simp [Uint32]

theorem put32_out (b : Bytes) (off v i : Nat) (h : i < off ∨ off + 4 ≤ i) :
    (put32 b off v)[i]? = b[i]? := by
  rw [getElem?_put32_if]
  split_ifs <;> first | rfl | omega

theorem put16_out (b : Bytes) (off v i : Nat) (h : i < off ∨ off + 2 ≤ i) :
    (put16 b off v)[i]? = b[i]? := by
  rw [getElem?_put16_if]
  split_ifs <;> first | rfl | omega

theorem copyBytes_in (dst : Bytes) (off : Nat) (src : Bytes) (i : Nat) (h1 : off ≤ i)
    (h2 : i < off + src.length) (h3 : i < dst.length) :
    (copyBytes dst off src)[i]? = src[i - off]? := by
  rw [getElem?_copyBytes, if_pos ⟨h1, h2, h3⟩]

theorem put16_hi (b : Bytes) (off v : Nat) (h : off + 2 ≤ b.length) :
    (put16 b off v)[off]? = some (v / 256 % 256) := by
  rw [getElem?_put16_if]
  split_ifs <;> first | rfl | omega

theorem put16_lo (b : Bytes) (off v : Nat) (h : off + 2 ≤ b.length) :
    (put16 b off v)[off + 1]? = some (v % 256) := by
  rw [getElem?_put16_if]
  split_ifs <;> first | rfl | omega

theorem put32_at (b : Bytes) (off v : Nat) (h : off + 4 ≤ b.length) :
    (put32 b off v)[off]? = some (v / 16777216 % 256)
      ∧ (put32 b off v)[off + 1]? = some (v / 65536 % 256)
      ∧ (put32 b off v)[off + 2]? = some (v / 256 % 256)
      ∧ (put32 b off v)[off + 3]? = some (v % 256) := by
  refine ⟨?_, ?_, ?_, ?_⟩ <;> rw [getElem?_put32_if] <;> split_ifs <;> first | rfl | omega

theorem Uint32_slice_ok (X : Bytes) (k e : Nat) (he : e = k + 4) (h : k + 4 ≤ X.length) :
    ∃ Y, slice X k e = .ok Y ∧ Uint32 Y = Uint32 (X.drop k) := by
  have hs : slice X k e = .ok ((X.take (k + 4)).drop k) := by
    subst he; simp [slice, h]
  refine ⟨_, hs, ?_⟩
  have := Uint32_slice X k e he h
  rw [hs, bind_ok] at this
  exact this

theorem prefix_props (Z Raw : Bytes) (lo v tc HT : Nat) (hZ : Z.length = 1500)
    (htc : tc ≤ Raw.length) (hR : Raw.length ≤ 1500) (hlo : lo + 2 ≤ HT) (hHT : HT ≤ tc) :
    ∃ pre, pre = (put16 (copyBytes Z 0 (Raw.take tc)) lo v).take tc
      ∧ pre.length = tc
      ∧ pre.drop HT = (Raw.drop HT).take (tc - HT)
      ∧ Uint16 (pre.drop lo) = .ok (v / 256 % 256 * 256 + v % 256) := by
  have hlt : (Raw.take tc).length = tc := by simp; omega
  refine ⟨_, rfl, by simp [hZ]; omega, ?_, ?_⟩
  · apply List.ext_getElem?
    intro i
    rw [List.getElem?_drop]
    by_cases hi : HT + i < tc
    · rw [List.getElem?_take_of_lt hi, put16_out _ _ _ _ (by omega),
        copyBytes_in _ _ _ _ (by omega) (by omega) (by rw [hZ]; omega),
        List.getElem?_take_of_lt (by omega), List.getElem?_take_of_lt (by omega),
        List.getElem?_drop]
      rfl
    · rw [List.getElem?_eq_none (by simp [hZ]; omega), List.getElem?_eq_none (by simp; omega)]
  · apply Uint16_drop
    · rw [List.getElem?_take_of_lt (by omega)]
      exact put16_hi _ _ _ (by simp [hZ]; omega)
    · rw [List.getElem?_take_of_lt (by omega)]
      exact put16_lo _ _ _ (by simp [hZ]; omega)

theorem suffix_props (F Raw : Bytes) (lo v tc HT H sc : Nat) (hF : F.length = 1500)
    (htc : tc ≤ Raw.length) (hR : Raw.length ≤ 1500) (hlo : lo + 2 ≤ H + 4) (hH : H + 8 ≤ HT)
    (hHT : HT ≤ tc) :
    ∃ suf, suf = (put32 (put16 (copyBytes (copyBytes F 0 (Raw.take HT)) HT (Raw.drop tc)) lo v)
          (H + 4) sc).take (Raw.length - (tc - HT))
      ∧ suf.length = Raw.length - (tc - HT)
      ∧ suf.drop HT = Raw.drop tc
      ∧ Uint16 (suf.drop lo) = .ok (v / 256 % 256 * 256 + v % 256)
      ∧ Uint32 (suf.drop (H + 4))
        = .ok (((sc / 16777216 % 256 * 256 + sc / 65536 % 256) * 256 + sc / 256 % 256) * 256
            + sc % 256) := by
  generalize hB : copyBytes (copyBytes F 0 (Raw.take HT)) HT (Raw.drop tc) = B
  have hBl : B.length = 1500 := by rw [← hB]; simp [hF]
  have hdl : (Raw.drop tc).length = Raw.length - tc := List.length_drop _ _
  refine ⟨_, rfl, by simp [hBl]; omega, ?_, ?_, ?_⟩
  · apply List.ext_getElem?
    intro i
    rw [List.getElem?_drop, List.getElem?_drop]
    by_cases hi : HT + i < Raw.length - (tc - HT)
    · rw [List.getElem?_take_of_lt hi, put32_out _ _ _ _ (by omega),
        put16_out _ _ _ _ (by omega), ← hB,
        copyBytes_in _ _ _ _ (by omega) (by omega) (by simp [hF]; omega), List.getElem?_drop]
      congr 1; omega
    · rw [List.getElem?_eq_none (by simp [hBl]; omega), List.getElem?_eq_none (by omega)]
  · apply Uint16_drop
    · rw [List.getElem?_take_of_lt (by omega), put32_out _ _ _ _ (by omega)]
      exact put16_hi _ _ _ (by omega)
    · rw [List.getElem?_take_of_lt (by omega), put32_out _ _ _ _ (by omega)]
      exact put16_lo _ _ _ (by omega)
  · obtain ⟨p0, p1, p2, p3⟩ := put32_at (put16 B lo v) (H + 4) sc (by simp [hBl]; omega)
    apply Uint32_drop
    · rw [List.getElem?_take_of_lt (by omega)]; exact p0
    · rw [List.getElem?_take_of_lt (by omega)]; exact p1
    · rw [List.getElem?_take_of_lt (by omega)]; exact p2
    · rw [List.getElem?_take_of_lt (by omega)]; exact p3

theorem fakeHeaders_ok (Raw : Bytes) (TTL : Int) (v6 : Bool) (H T : Nat)
    (h1 : H + T ≤ Raw.length) (h2 : H + 20 ≤ Raw.length) (h3 : Raw.length ≤ 1500) :
    ∃ F, F.length = 1500 ∧ fakeHeaders (makeBytes 1500) Raw TTL v6 H T = .ok F := by
  unfold fakeHeaders
  by_cases hT : TTL > 0
  · cases v6 <;> simp [hT, sliceTo, copyAt, setByte, h1]
  · have h4 : H + 20 ≤ 1500 := by omega
    have h5 : H + 12 < 1500 := by omega
    simp [hT, sliceTo, copyAt, setByte, h2, h4, h5]

theorem getSNI_length (b : Bytes) (r : Nat × Nat) (h : getSNI b = .ok r) : 5 ≤ b.length := by
  by_contra hc
  have hs : slice b 3 5 = .error .outOfRange := by
    simp [slice]; omega
  simp [getSNI, hs] at h

/-- C10 as amended: for every captured segment of at most 1500 bytes, IPv4
(header length `H` at least 20) or IPv6, with TCP header length `T` at least
20, payload `P` and sequence number `s`, for which `getSNI` reports `(o, n)`
with `n > 0` and whose cut `c = o + n / 2` lies within the payload
(`c ≤ len(P)`): `hello` sends decoy, prefix, decoy, suffix; the prefix carries
`P[0:c]` and the suffix `P[c:]`, so the two payload lengths sum to `len(P)`
and their concatenation is `P`; the suffix's sequence number is
`(s + c) mod 2^32`; and each of the two packets has its IP length field
(IPv4 total length, IPv6 payload length) equal to its new size. -/
theorem hello_split (TTL : Int) (Raw : Bytes) (b0 t12 H T o n c s : Nat) (P : Bytes)
    (hlen : Raw.length ≤ 1500) (hb0 : Raw.head? = some b0)
    (hihl : isIPv6 b0 = false → 5 ≤ b0 % 16)
    (hH : ipHeadLen b0 = H) (ht12 : Raw[H + 12]? = some t12) (hT : t12 / 16 * 4 = T)
    (hT20 : 20 ≤ T) (hP : Raw.drop (H + T) = P) (hsni : getSNI P = .ok (o, n)) (hn : 0 < n)
    (hc : o + n / 2 = c) (hs : Uint32 (Raw.drop (H + 4)) = .ok s) (hcut : c ≤ P.length) :
    ∃ fake pre suf,
      hello TTL Raw = .ok [⟨fake, true⟩, ⟨pre, true⟩, ⟨fake, true⟩, ⟨suf, true⟩]
        ∧ pre.drop (H + T) = P.take c
        ∧ suf.drop (H + T) = P.drop c
        ∧ (pre.drop (H + T)).length + (suf.drop (H + T)).length = P.length
        ∧ pre.drop (H + T) ++ suf.drop (H + T) = P
        ∧ Uint32 (suf.drop (H + 4)) = .ok ((s + c) % 4294967296)
        ∧ pre.length = H + T + c
        ∧ suf.length = Raw.length - c
        ∧ (isIPv6 b0 = false →
            Uint16 (pre.drop 2) = .ok pre.length ∧ Uint16 (suf.drop 2) = .ok suf.length)
        ∧ (isIPv6 b0 = true →
            Uint16 (pre.drop 4) = .ok (pre.length - 40)
              ∧ Uint16 (suf.drop 4) = .ok (suf.length - 40)) := by
  obtain ⟨rest, rfl⟩ : ∃ rest, Raw = b0 :: rest := by
    cases Raw with
    | nil => simp at hb0
    | cons a t => simp at hb0; exact ⟨t, by rw [hb0]⟩
  have hP5 : 5 ≤ P.length := getSNI_length P _ hsni
  have hPl : P.length = (b0 :: rest).length - (H + T) := by rw [← hP]; exact List.length_drop _ _
  have hHT : H + T ≤ (b0 :: rest).length := by omega
  have hH20 : 20 ≤ H := by
    rw [← hH]; unfold ipHeadLen
    by_cases h6 : isIPv6 b0 = true
    · simp [h6]
    · have := hihl (by simpa using h6)
      simp [h6]; omega
  have htc : H + T + c ≤ (b0 :: rest).length := by omega
  obtain ⟨F, hF, hfake⟩ := fakeHeaders_ok (b0 :: rest) TTL (isIPv6 b0) H T hHT (by omega) hlen
  have hb : byteAt (b0 :: rest) 0 = .ok b0 := by simp [byteAt]
  have hbt : byteAt (b0 :: rest) (H + 12) = .ok t12 := by simp only [byteAt, ht12]
  have hsf : sliceFrom (b0 :: rest) (H + T) = .ok P := by
    simp only [sliceFrom, hHT, if_true, hP]
  have htl : ((b0 :: rest).length % 65536 + 65536 - c % 65536) % 65536
      = (b0 :: rest).length - (H + T + c - (H + T)) := by omega
  have hsc : (((s + c) / 16777216 % 256 * 256 + (s + c) / 65536 % 256) * 256
      + (s + c) / 256 % 256) * 256 + (s + c) % 256 = (s + c) % 4294967296 := by omega
  have hdrop : ((b0 :: rest).drop (H + T)).take (H + T + c - (H + T)) = P.take c := by
    rw [hP]; congr 1; omega
  have hdrop2 : (b0 :: rest).drop (H + T + c) = P.drop c := by
    rw [← hP, List.drop_drop]
  have hsum : (P.take c).length + (P.drop c).length = P.length := by
    simp; omega
  obtain ⟨Y, hY, hYs⟩ := Uint32_slice_ok (b0 :: rest) (H + 4) (H + 8) (by omega) (by omega)
  rw [hs] at hYs
  have hZl := length_makeBytes 1500
  have f1 : (4 : Nat) + 2 ≤ 1500 := by decide
  have f2 : (2 : Nat) + 2 ≤ 1500 := by decide
  have f3 : H + T + c ≤ 1500 := by omega
  have f4 : H + T ≤ 1500 := by omega
  have f5 : H + 4 + 4 ≤ 1500 := by omega
  have f6 : (b0 :: rest).length - (H + T + c - (H + T)) ≤ 1500 := by omega
  by_cases h6 : isIPv6 b0 = true
  · have hH40 : H = 40 := by rw [← hH]; simp [ipHeadLen, h6]
    obtain ⟨pre, hpre, p1, p2, p3⟩ := prefix_props (makeBytes 1500) (b0 :: rest) 4 (H + T + c - H)
      (H + T + c) (H + T) (length_makeBytes 1500) htc hlen (by omega) (by omega)
    obtain ⟨suf, hsuf, q1, q2, q3, q4⟩ := suffix_props F (b0 :: rest) 4
      (((b0 :: rest).length - (H + T + c - (H + T)) + 65536 - H % 65536) % 65536)
      (H + T + c) (H + T) H (s + c) hF htc hlen (by omega) (by omega) (by omega)
    refine ⟨F.take (b0 :: rest).length, pre, suf, ?_, ?_, ?_, ?_, ?_, ?_, ?_, ?_, ?_, ?_⟩
    rotate_left
    · rw [p2]; exact hdrop
    · rw [q2]; exact hdrop2
    · rw [p2, q2, hdrop, hdrop2]; exact hsum
    · rw [p2, q2, hdrop, hdrop2]; exact List.take_append_drop _ _
    · rw [q4, hsc]
    · exact p1
    · rw [q1]; omega
    · intro h; rw [h6] at h; cases h
    · intro _
      rw [p3, q3, p1, q1]
      exact ⟨congrArg Except.ok (by omega), congrArg Except.ok (by omega)⟩
    · subst hpre hsuf hP
      unfold hello
      rw [h6] at hfake
      generalize makeBytes 1500 = Z at hZl hfake ⊢
      simp only [hb, bind_ok, hH, hbt, hT, hsf, hsni, hn, if_true, hfake, sliceTo, hF, hlen,
        hc, htc, copyAt, hZl, Nat.zero_le, h6, PutUint16, length_copyBytes,
        length_put16, length_put32, sliceFrom, PutUint32, htl, f1, f3, f4, f5, f6, hY, hYs, hHT]
      rfl
  · have h6' : isIPv6 b0 = false := by simpa using h6
    obtain ⟨pre, hpre, p1, p2, p3⟩ := prefix_props (makeBytes 1500) (b0 :: rest) 2 (H + T + c)
      (H + T + c) (H + T) (length_makeBytes 1500) htc hlen (by omega) (by omega)
    obtain ⟨suf, hsuf, q1, q2, q3, q4⟩ := suffix_props F (b0 :: rest) 2
      ((b0 :: rest).length - (H + T + c - (H + T)))
      (H + T + c) (H + T) H (s + c) hF htc hlen (by omega) (by omega) (by omega)
    refine ⟨F.take (b0 :: rest).length, pre, suf, ?_, ?_, ?_, ?_, ?_, ?_, ?_, ?_, ?_, ?_⟩
    rotate_left
    · rw [p2]; exact hdrop
    · rw [q2]; exact hdrop2
    · rw [p2, q2, hdrop, hdrop2]; exact hsum
    · rw [p2, q2, hdrop, hdrop2]; exact List.take_append_drop _ _
    · rw [q4, hsc]
    · exact p1
    · rw [q1]; omega
    · intro _
      rw [p3, q3, p1, q1]
      exact ⟨congrArg Except.ok (by omega), congrArg Except.ok (by omega)⟩
    · intro h; rw [h6'] at h; cases h
    · subst hpre hsuf hP
      unfold hello
      rw [h6'] at hfake
      generalize makeBytes 1500 = Z at hZl hfake ⊢
      simp only [hb, bind_ok, hH, hbt, hT, hsf, hsni, hn, if_true, hfake, sliceTo, hF, hlen,
        hc, htc, copyAt, hZl, Nat.zero_le, h6', PutUint16, length_copyBytes,
        length_put16, length_put32, sliceFrom, PutUint32, htl, f2, f3, f4, f5, f6, hY, hYs, hHT,
        Bool.false_eq_true, if_false]
      rfl

/-- Witness of `hello_split`: a ClientHello for `example.com` in an IPv4
segment with sequence number `0xFFFFFFFA`, cut at `58 + 11 / 2 = 63`. -/
theorem hello_split_witness :
    ∃ fake pre suf,
      hello 64 (segmentV4 255 255 255 250 (clientHello (ascii "example.com")))
          = .ok [⟨fake, true⟩, ⟨pre, true⟩, ⟨fake, true⟩, ⟨suf, true⟩]
        ∧ pre.drop (20 + 20) = (clientHello (ascii "example.com")).take 63
        ∧ suf.drop (20 + 20) = (clientHello (ascii "example.com")).drop 63
        ∧ (pre.drop (20 + 20)).length + (suf.drop (20 + 20)).length
          = (clientHello (ascii "example.com")).length
        ∧ pre.drop (20 + 20) ++ suf.drop (20 + 20) = clientHello (ascii "example.com")
        ∧ Uint32 (suf.drop (20 + 4)) = .ok ((4294967290 + 63) % 4294967296)
        ∧ pre.length = 20 + 20 + 63
        ∧ suf.length
          = (segmentV4 255 255 255 250 (clientHello (ascii "example.com"))).length - 63
        ∧ (isIPv6 69 = false →
            Uint16 (pre.drop 2) = .ok pre.length ∧ Uint16 (suf.drop 2) = .ok suf.length)
        ∧ (isIPv6 69 = true →
            Uint16 (pre.drop 4) = .ok (pre.length - 40)
              ∧ Uint16 (suf.drop 4) = .ok (suf.length - 40)) :=
  hello_split 64 (segmentV4 255 255 255 250 (clientHello (ascii "example.com"))) 69 80 20 20 58 11
    63 4294967290 (clientHello (ascii "example.com"))
    (by decide) (by decide) (by decide) (by decide) (by decide) (by decide) (by decide)
    (by decide) (by decide) (by decide) (by decide) (by decide) (by decide)

/-- C10 fails as stated: in this IPv4 segment `getSNI` reports a host-name
length of 65535 at offset 58 of a 58-byte payload, so the cut
`58 + 65535 / 2` lies beyond the payload; `hello` then slices the packet out
of range and sends neither a prefix carrying `P[0:c]` nor a suffix carrying
`P[c:]`. -/
theorem hello_split_counterexample :
    getSNI ((segmentV4 0 0 0 7 (shortHello 65535)).drop 40) = .ok (58, 65535)
      ∧ ((segmentV4 0 0 0 7 (shortHello 65535)).drop 40).length = 58
      ∧ (segmentV4 0 0 0 7 (shortHello 65535)).length ≤ 1500
      ∧ hello 64 (segmentV4 0 0 0 7 (shortHello 65535)) = .error .outOfRange := by
  decide!

end Hello

section Examples

/-- C13 fails as stated: a SYN without TCP options (40 bytes, shorter than
`H + 24`) to a destination bound at level 3 makes the round of `StartService`
leave the capture loop by `return` without sending the SYN; the same SYN to a
level-2 destination is re-injected. -/
theorem StartService_short_SYN_stops :
    StartServiceStep { initialGlobals with IPMap := mapSet (fun _ => none) (ascii "93.184.216.34") 3 }
        sampleDstIP (synV4 []) = .ok ⟨[], none, true⟩
      ∧ (synV4 []).length = 40
      ∧ StartServiceStep
          { initialGlobals with IPMap := mapSet (fun _ => none) (ascii "93.184.216.34") 2 }
          sampleDstIP (synV4 []) = .ok ⟨[⟨synV4 [], false⟩], some (49153, 0), false⟩ := by
  decide

/-- C17, evaluation at the failing input: one type-A record for `1.2.3.4`
whose owner name is a single 63-byte label.  `getAnswers` takes the length
byte 63 for a compression pointer (`length < 63` fails) and returns no
address; with a 62-byte label it returns `1.2.3.4`. -/
theorem getAnswers_label_63 :
    getAnswers sampleIPString (recordWithLabel 63) 1 = .ok (some [])
      ∧ getAnswers sampleIPString (recordWithLabel 62) 1 = .ok (some [ascii "1.2.3.4"]) := by
  decide

/-- C19, evaluation at the failing input: an IPv6 segment with 24 payload
bytes.  The prefix sent by `DOTDaemon` has bytes 2-3 overwritten with
`H + T + 20 = 80` and its payload-length bytes 4-5 left at the original 44
instead of `T + 20 = 40`; the suffix has bytes 2-3 overwritten with 64 and
bytes 4-5 left at 44 instead of 24. -/
theorem DOTDaemon_IPv6_length_fields :
    (DOTDaemonStep 64 (makeBytes 1500) (makeBytes 1500)
        (segmentV6 0 0 0 1 (List.replicate 24 7))).map (fun o => o.sent.map (fun p => p.Raw.take 6))
      = .ok [[96, 0, 0, 0, 0, 44], [96, 0, 0, 80, 0, 44], [96, 0, 0, 0, 0, 44],
          [96, 0, 0, 64, 0, 44]]
    ∧ (segmentV6 0 0 0 1 (List.replicate 24 7)).take 6 = [96, 0, 0, 0, 0, 44] := by
  decide!

/-- C20, evaluation at the failing inputs: on a 4-byte payload `getSNI` slices
`b[3:5]` out of range, and on a 10-byte payload whose record length is 5 it
indexes `b[43]` out of range, instead of returning `(0, 0)`. -/
theorem getSNI_short_payload :
    getSNI [22, 3, 1, 0] = .error .outOfRange
      ∧ getSNI [22, 3, 1, 0, 5, 1, 0, 0, 1, 3] = .error .outOfRange := by
  decide

end Examples

section StartService

theorem getElem?_some_of_lt (X : Bytes) (i : Nat) (h : i < X.length) : ∃ a, X[i]? = some a :=
  ⟨X[i], List.getElem?_eq_getElem h⟩

theorem byteAt_of_getElem? (X : Bytes) (i a : Nat) (h : X[i]? = some a) : byteAt X i = .ok a := by
  simp only [byteAt, h]

theorem uint16_bytes (v : Nat) (h : v < 65536) : v / 256 % 256 * 256 + v % 256 = v := by
  omega

theorem toNat_emod_lt (m : Int) : (m % 65536).toNat < 65536 := by
  omega

/-- C12: for every captured SYN of at least `H + 24` bytes: when its
destination is in `IPMap` at level `L`, the round re-injects one packet and
stays in the loop; if `L > 2` and the byte at `H + 20` is 2 that packet differs
from the captured one only in bytes `H + 22`, `H + 23`, which hold
`uint16(MSS)` big-endian, and its checksums are recomputed; otherwise it is the
captured packet, byte for byte; a `hello` worker for the SYN's source port is
started exactly when `L > 1`; and when the destination is not in `IPMap` the
captured packet is re-injected unchanged with no worker. -/
theorem StartService_SYN (g : Globals) (DstIP : Bytes → Bytes) (Raw : Bytes) (b0 H : Nat)
    (hb0 : Raw.head? = some b0) (hH : ipHeadLen b0 = H) (hlen : H + 24 ≤ Raw.length) :
    (∀ L, g.IPMap (DstIP Raw) = some L →
      ∃ out pkt, StartServiceStep g DstIP Raw = .ok out ∧ out.sent = [pkt] ∧ out.stopped = false
        ∧ (L > 2 ∧ Raw[H + 20]? = some 2 →
            pkt.checksum = true ∧ pkt.Raw.length = Raw.length
              ∧ (∀ i, i ≠ H + 22 → i ≠ H + 23 → pkt.Raw[i]? = Raw[i]?)
              ∧ Uint16 (pkt.Raw.drop (H + 22)) = .ok (g.MSS % 65536).toNat)
        ∧ (¬ (L > 2 ∧ Raw[H + 20]? = some 2) → pkt = ⟨Raw, false⟩)
        ∧ (L > 1 → ∃ port, Uint16 (Raw.drop H) = .ok port ∧ out.worker = some (port, g.TTL))
        ∧ (¬ L > 1 → out.worker = none))
      ∧ (g.IPMap (DstIP Raw) = none →
          StartServiceStep g DstIP Raw = .ok ⟨[⟨Raw, false⟩], none, false⟩) := by
  obtain ⟨rest, rfl⟩ : ∃ rest, Raw = b0 :: rest := by
    cases Raw with
    | nil => simp at hb0
    | cons a t => simp at hb0; exact ⟨t, by rw [hb0]⟩
  have hb : byteAt (b0 :: rest) 0 = .ok b0 := by simp [byteAt]
  obtain ⟨p0, hp0⟩ := getElem?_some_of_lt (b0 :: rest) H (by omega)
  obtain ⟨p1, hp1⟩ := getElem?_some_of_lt (b0 :: rest) (H + 1) (by omega)
  obtain ⟨x, hx⟩ := getElem?_some_of_lt (b0 :: rest) (H + 20) (by omega)
  have hport : Uint16 ((b0 :: rest).drop H) = .ok (p0 * 256 + p1) := Uint16_drop _ _ _ _ hp0 hp1
  have hsl : sliceFrom (b0 :: rest) H = .ok ((b0 :: rest).drop H) := by
    simp only [sliceFrom, show H ≤ (b0 :: rest).length by omega, if_true]
  have hnlt : ¬ ((b0 :: rest).length < H + 24) := by omega
  have hput : PutUint16 (b0 :: rest) (H + 22) (g.MSS % 65536).toNat
      = .ok (put16 (b0 :: rest) (H + 22) (g.MSS % 65536).toNat) := by
    simp only [PutUint16, show H + 22 + 2 ≤ (b0 :: rest).length by omega, if_true]
  have hport' : Uint16 ((put16 (b0 :: rest) (H + 22) (g.MSS % 65536).toNat).drop H)
      = .ok (p0 * 256 + p1) := by
    apply Uint16_drop
    · rw [put16_out _ _ _ _ (by omega)]; exact hp0
    · rw [put16_out _ _ _ _ (by omega)]; exact hp1
  have hsl' : sliceFrom (put16 (b0 :: rest) (H + 22) (g.MSS % 65536).toNat) H
      = .ok ((put16 (b0 :: rest) (H + 22) (g.MSS % 65536).toNat).drop H) := by
    simp only [sliceFrom, length_put16, show H ≤ (b0 :: rest).length by omega, if_true]
  refine ⟨fun L hL => ?_, fun hnone => ?_⟩
  · by_cases h2 : L > 2
    · by_cases hopt : x = 2
      · -- the MSS option is rewritten
        subst hopt
        have hL1 : L > 1 := by omega
        refine ⟨⟨[⟨put16 (b0 :: rest) (H + 22) (g.MSS % 65536).toNat, true⟩],
          some (p0 * 256 + p1, g.TTL), false⟩, _, ?_, rfl, rfl, ?_, ?_, ?_, ?_⟩
        · simp only [StartServiceStep, hL, hb, bind_ok, hH, rewriteMSS, h2, if_true, hnlt,
            if_false, byteAt_of_getElem? _ _ _ hx, hput, hL1, hsl', hport']
          rfl
        · intro _
          refine ⟨rfl, by simp, fun i h22 h23 => put16_out _ _ _ _ (by omega), ?_⟩
          have e := Uint16_drop (put16 (b0 :: rest) (H + 22) (g.MSS % 65536).toNat) (H + 22) _ _
            (put16_hi _ _ _ (by omega)) (put16_lo _ _ _ (by omega))
          rw [e, uint16_bytes _ (toNat_emod_lt g.MSS)]
        · intro hn; exact absurd ⟨h2, hx⟩ hn
        · intro _; exact ⟨_, hport, rfl⟩
        · intro hn; exact absurd hL1 hn
      · have hL1 : L > 1 := by omega
        refine ⟨⟨[⟨b0 :: rest, false⟩], some (p0 * 256 + p1, g.TTL), false⟩, _, ?_, rfl, rfl,
          ?_, ?_, ?_, ?_⟩
        · simp only [StartServiceStep, hL, hb, bind_ok, hH, rewriteMSS, h2, if_true, hnlt,
            if_false, byteAt_of_getElem? _ _ _ hx, hopt, hL1, hsl, hport]
          rfl
        · intro h
          rw [hx] at h
          exact absurd (Option.some.inj h.2) hopt
        · intro _; rfl
        · intro _; exact ⟨_, hport, rfl⟩
        · intro hn; exact absurd hL1 hn
    · by_cases hL1 : L > 1
      · refine ⟨⟨[⟨b0 :: rest, false⟩], some (p0 * 256 + p1, g.TTL), false⟩, _, ?_, rfl, rfl,
          ?_, ?_, ?_, ?_⟩
        · simp only [StartServiceStep, hL, hb, bind_ok, hH, rewriteMSS, h2, if_false, hL1,
            if_true, hsl, hport]
          rfl
        · intro h; exact absurd h.1 h2
        · intro _; rfl
        · intro _; exact ⟨_, hport, rfl⟩
        · intro hn; exact absurd hL1 hn
      · refine ⟨⟨[⟨b0 :: rest, false⟩], none, false⟩, _, ?_, rfl, rfl, ?_, ?_, ?_, ?_⟩
        · simp only [StartServiceStep, hL, hb, bind_ok, hH, rewriteMSS, h2, if_false, hL1]
          rfl
        · intro h; exact absurd h.1 h2
        · intro _; rfl
        · intro h; exact absurd h hL1
        · intro _; rfl
  · simp only [StartServiceStep, hnone]
    rfl

/-- Witness of `StartService_SYN`: a SYN carrying the MSS option 1460 to a
destination bound at level 3, with the default `MSS = 1024`. -/
theorem StartService_SYN_witness :
    (∀ L, ({ initialGlobals with IPMap := mapSet (fun _ => none) (ascii "93.184.216.34") 3 } :
          Globals).IPMap (sampleDstIP (synV4 [2, 4, 5, 180])) = some L →
      ∃ out pkt, StartServiceStep
          { initialGlobals with IPMap := mapSet (fun _ => none) (ascii "93.184.216.34") 3 }
          sampleDstIP (synV4 [2, 4, 5, 180]) = .ok out ∧ out.sent = [pkt] ∧ out.stopped = false
        ∧ (L > 2 ∧ (synV4 [2, 4, 5, 180])[20 + 20]? = some 2 →
            pkt.checksum = true ∧ pkt.Raw.length = (synV4 [2, 4, 5, 180]).length
              ∧ (∀ i, i ≠ 20 + 22 → i ≠ 20 + 23 → pkt.Raw[i]? = (synV4 [2, 4, 5, 180])[i]?)
              ∧ Uint16 (pkt.Raw.drop (20 + 22))
                = .ok (({ initialGlobals with
                    IPMap := mapSet (fun _ => none) (ascii "93.184.216.34") 3 } :
                    Globals).MSS % 65536).toNat)
        ∧ (¬ (L > 2 ∧ (synV4 [2, 4, 5, 180])[20 + 20]? = some 2) →
            pkt = ⟨synV4 [2, 4, 5, 180], false⟩)
        ∧ (L > 1 → ∃ port, Uint16 ((synV4 [2, 4, 5, 180]).drop 20) = .ok port
            ∧ out.worker = some (port, ({ initialGlobals with
                IPMap := mapSet (fun _ => none) (ascii "93.184.216.34") 3 } : Globals).TTL))
        ∧ (¬ L > 1 → out.worker = none))
      ∧ (({ initialGlobals with IPMap := mapSet (fun _ => none) (ascii "93.184.216.34") 3 } :
          Globals).IPMap (sampleDstIP (synV4 [2, 4, 5, 180])) = none →
          StartServiceStep
            { initialGlobals with IPMap := mapSet (fun _ => none) (ascii "93.184.216.34") 3 }
            sampleDstIP (synV4 [2, 4, 5, 180])
            = .ok ⟨[⟨synV4 [2, 4, 5, 180], false⟩], none, false⟩) :=
  StartService_SYN { initialGlobals with IPMap := mapSet (fun _ => none) (ascii "93.184.216.34") 3 }
    sampleDstIP (synV4 [2, 4, 5, 180]) 69 20 (by decide) (by decide) (by decide)

end StartService

section GetAnswersTotal

theorem skipName_total (answers : Bytes) :
    ∀ (fuel offset : Nat), 0 < fuel → answers.length < offset + fuel →
      ∃ r, skipName answers fuel offset = .ok r := by
  intro fuel
  induction fuel with
  | zero =>
    intro offset hf _
    exact absurd hf (by omega)
  | succ fuel ih =>
    intro offset _ h
    by_cases h1 : offset ≥ answers.length
    · exact ⟨none, by simp only [skipName, h1, if_true]⟩
    · obtain ⟨x, hx⟩ := getElem?_some_of_lt answers offset (by omega)
      have hb := byteAt_of_getElem? _ _ _ hx
      by_cases h0 : x = 0
      · exact ⟨some (offset + 1), by simp only [skipName, h1, if_false, hb, bind_ok, h0, if_true]⟩
      · by_cases h63 : x < 63
        · by_cases h2 : offset + 1 + x + 2 > answers.length
          · exact ⟨none, by
              simp only [skipName, h1, if_false, hb, bind_ok, h0, h63, if_true, h2]⟩
          · obtain ⟨r, hr⟩ := ih (offset + 1 + x) (by omega) (by omega)
            exact ⟨r, by
              simp only [skipName, h1, if_false, hb, bind_ok, h0, h63, if_true, h2, hr]⟩
        · exact ⟨some (offset + 1 + 1), by
            simp only [skipName, h1, if_false, hb, bind_ok, h0, h63]⟩

theorem slice_ok (X : Bytes) (lo hi : Nat) (h1 : lo ≤ hi) (h2 : hi ≤ X.length) :
    slice X lo hi = .ok ((X.take hi).drop lo) ∧ ((X.take hi).drop lo).length = hi - lo := by
  refine ⟨by simp only [slice, h1, h2, and_self, if_true], ?_⟩
  simp only [List.length_drop, List.length_take]
  omega

theorem Uint16_ok_of_length (Y : Bytes) (h : 2 ≤ Y.length) : ∃ v, Uint16 Y = .ok v := by
  rcases Y with _ | ⟨a, _ | ⟨b, t⟩⟩
  · simp at h
  · simp at h
  · exact ⟨a * 256 + b, rfl⟩

theorem getAnswersLoop_total (S : Bytes → Bytes) (answers : Bytes) :
    ∀ (n offset : Nat) (ips : List Bytes),
      ∃ r, getAnswersLoop S answers n offset ips = .ok r := by
  intro n
  induction n with
  | zero => intro offset ips; exact ⟨some ips, rfl⟩
  | succ n ih =>
    intro offset ips
    obtain ⟨r, hr⟩ := skipName_total answers (answers.length + 1) offset (by omega) (by omega)
    rw [getAnswersLoop]
    simp only [hr, bind_ok]
    cases r with
    | none => exact ⟨none, rfl⟩
    | some off =>
      simp only []
      by_cases h1 : off + 2 > answers.length
      · exact ⟨none, by simp only [h1, if_true]⟩
      · obtain ⟨hs1, hl1⟩ := slice_ok answers off (off + 2) (by omega) (by omega)
        obtain ⟨ty, hty⟩ := Uint16_ok_of_length _ (by rw [hl1]; omega)
        simp only [h1, if_false, hs1, bind_ok, hty]
        by_cases h2 : off + 8 + 2 > answers.length
        · exact ⟨none, by simp only [h2, if_true]⟩
        · obtain ⟨hs2, hl2⟩ := slice_ok answers (off + 8) (off + 8 + 2) (by omega) (by omega)
          obtain ⟨dl, hdl⟩ := Uint16_ok_of_length _ (by rw [hl2]; omega)
          simp only [h2, if_false, hs2, bind_ok, hdl]
          by_cases ht1 : ty = 1
          · subst ht1
            by_cases h3 : off + 8 + 2 + 4 > answers.length
            · exact ⟨none, by simp only [if_true, h3, bind_ok]⟩
            · obtain ⟨hs3, hl3⟩ := slice_ok answers (off + 8 + 2) (off + 8 + 2 + 4) (by omega)
                (by omega)
              rcases hd : (answers.take (off + 8 + 2 + 4)).drop (off + 8 + 2) with
                _ | ⟨a, _ | ⟨b, _ | ⟨c, _ | ⟨d, t⟩⟩⟩⟩ <;> rw [hd] at hl3 <;>
                simp at hl3
              rw [hd] at hs3
              obtain ⟨r', hr'⟩ := ih (off + 8 + 2 + dl) (ips ++ [S (IPv4 a b c d)])
              exact ⟨r', by
                simp only [if_true, h3, if_false, hs3, bind_ok, byteAt,
                  List.getElem?_cons_zero, List.getElem?_cons_succ, hr']⟩
          · by_cases ht28 : ty = 28
            · subst ht28
              have ht1 : ¬ ((28 : Nat) = 1) := by decide
              by_cases h3 : off + 8 + 2 + 16 > answers.length
              · exact ⟨none, by simp only [ht1, if_false, if_true, h3, bind_ok]⟩
              · obtain ⟨hs3, _⟩ := slice_ok answers (off + 8 + 2) (off + 8 + 2 + 16) (by omega)
                  (by omega)
                obtain ⟨r', hr'⟩ := ih (off + 8 + 2 + dl)
                  (ips ++ [S ((answers.take (off + 8 + 2 + 16)).drop (off + 8 + 2))])
                exact ⟨r', by
                  simp only [ht1, if_false, if_true, h3, hs3, bind_ok, hr']⟩
            · obtain ⟨r', hr'⟩ := ih (off + 8 + 2 + dl) ips
              exact ⟨r', by simp only [ht1, if_false, ht28, bind_ok, hr']⟩

theorem getAnswers_total (S : Bytes → Bytes) (answers : Bytes) (count : Nat) :
    ∃ r, getAnswers S answers count = .ok r :=
  getAnswersLoop_total S answers count 0 []

end GetAnswersTotal

section DNSRecvDaemon

theorem getQName_off_le (buf qname : Bytes) (qtype off : Nat)
    (hq : getQName buf = .ok (qname, qtype, off)) (hname : qname ≠ []) : off ≤ buf.length := by
  have h13 := getQName_length buf qname qtype off hq hname
  have hn : ¬ (buf.length < 13) := by omega
  unfold getQName at hq
  simp only [hn, if_false] at hq
  cases h1 : byteAt buf 12 with
  | error e => simp [h1] at hq
  | ok len =>
    simp only [h1, bind_ok] at hq
    cases h2 : slice buf 13 (13 + len) with
    | error e => simp [h2] at hq
    | ok q0 =>
      simp only [h2, bind_ok] at hq
      cases h3 : getQNameLoop buf (buf.length + 1) q0 (13 + len) with
      | error e => simp [h3] at hq
      | ok r =>
        simp only [h3, bind_ok] at hq
        cases r with
        | none =>
          simp only [Except.ok.injEq, Prod.mk.injEq] at hq
          exact absurd hq.1.symm hname
        | some p =>
          obtain ⟨q, o⟩ := p
          simp only [] at hq
          by_cases h4 : o + 4 > buf.length
          · simp only [h4, if_true, Except.ok.injEq, Prod.mk.injEq] at hq
            exact absurd hq.1.symm hname
          · simp only [h4, if_false] at hq
            cases h5 : slice buf o (o + 2) with
            | error e => simp [h5] at hq
            | ok y =>
              simp only [h5, bind_ok] at hq
              cases h6 : Uint16 y with
              | error e => simp [h6] at hq
              | ok t =>
                simp only [h6, bind_ok, Except.ok.injEq, Prod.mk.injEq] at hq
                omega

theorem bindIPs_apply (m : IPTable) (L : Nat) (ips : List Bytes) (ip : Bytes) :
    bindIPs m L ips ip = if ip ∈ ips then some L else m ip := by
  induction ips generalizing m with
  | nil => simp [bindIPs]
  | cons a t ih =>
    rw [bindIPs, ih]
    by_cases h1 : ip ∈ t
    · simp [h1]
    · by_cases h2 : ip = a
      · simp [h1, h2, mapSet]
      · simp [h1, h2, mapSet]

/-- C16: for every captured DNS response whose question parses to
`(qname, qtype, off)` with a non-empty name, with `L` the level of
`domainLookup(qname)`: the round re-injects the packet byte for byte and sends
nothing else; `getAnswers` on the ANCOUNT records starting at `off` does not
fault; if `L > 1` and `qtype = 1` the new `IPMap` maps every address that
`getAnswers` returns to `L` and agrees with the old one everywhere else; and
otherwise `IPMap` is unchanged. -/
theorem DNSRecvDaemon_harvest (IPString : Bytes → Bytes) (g : Globals) (Raw : Bytes)
    (b0 : Nat) (qname : Bytes) (qtype off L : Nat)
    (hb0 : Raw.head? = some b0)
    (hq : getQName (Raw.drop (ipHeadLen b0 + 8)) = .ok (qname, qtype, off))
    (hname : qname ≠ []) (hL : (domainLookup g.DomainMap qname).Level = L) :
    ∃ out count ips, DNSRecvDaemonStep IPString g Raw = .ok out
      ∧ out.sent = [⟨Raw, false⟩]
      ∧ Uint16 ((Raw.drop (ipHeadLen b0 + 8)).drop 6) = .ok count
      ∧ getAnswers IPString ((Raw.drop (ipHeadLen b0 + 8)).drop off) count = .ok ips
      ∧ (L > 1 ∧ qtype = 1 →
          (∀ ip ∈ ips.getD [], out.IPMap ip = some L)
            ∧ (∀ ip, ip ∉ ips.getD [] → out.IPMap ip = g.IPMap ip))
      ∧ (¬ (L > 1 ∧ qtype = 1) → out.IPMap = g.IPMap) := by
  obtain ⟨rest, rfl⟩ : ∃ rest, Raw = b0 :: rest := by
    cases Raw with
    | nil => simp at hb0
    | cons a t => simp at hb0; exact ⟨t, by rw [hb0]⟩
  have h13 := getQName_length _ _ _ _ hq hname
  have hoff := getQName_off_le _ _ _ _ hq hname
  have hdl : ((b0 :: rest).drop (ipHeadLen b0 + 8)).length
      = (b0 :: rest).length - (ipHeadLen b0 + 8) := List.length_drop _ _
  have hle : ipHeadLen b0 + 8 ≤ (b0 :: rest).length := by omega
  have hb : byteAt (b0 :: rest) 0 = .ok b0 := by simp [byteAt]
  have hsf : sliceFrom (b0 :: rest) (ipHeadLen b0 + 8)
      = .ok ((b0 :: rest).drop (ipHeadLen b0 + 8)) := by simp only [sliceFrom, hle, if_true]
  generalize (b0 :: rest).drop (ipHeadLen b0 + 8) = response at hq h13 hoff hsf
  obtain ⟨x6, hx6⟩ := getElem?_some_of_lt response 6 (by omega)
  obtain ⟨x7, hx7⟩ := getElem?_some_of_lt response 7 (by omega)
  have hcount : Uint16 (response.drop 6) = .ok (x6 * 256 + x7) := Uint16_drop _ _ _ _ hx6 hx7
  obtain ⟨hs68, _⟩ := slice_ok response 6 8 (by omega) (by omega)
  have hcount' : Uint16 ((response.take 8).drop 6) = .ok (x6 * 256 + x7) := by
    apply Uint16_drop
    · rw [List.getElem?_take_of_lt (by omega)]; exact hx6
    · rw [List.getElem?_take_of_lt (by omega)]; exact hx7
  have hso : sliceFrom response off = .ok (response.drop off) := by
    simp only [sliceFrom, hoff, if_true]
  obtain ⟨ips, hips⟩ := getAnswers_total IPString (response.drop off) (x6 * 256 + x7)
  subst hL
  by_cases hc : (domainLookup g.DomainMap qname).Level > 1 ∧ qtype = 1
  · refine ⟨⟨bindIPs g.IPMap (domainLookup g.DomainMap qname).Level (ips.getD []),
      [⟨b0 :: rest, false⟩]⟩, _, ips, ?_, rfl, hcount,
      hips, ?_, ?_⟩
    · unfold DNSRecvDaemonStep
      simp only [hb, bind_ok, hsf, hq, hname, if_false, hc, if_true, hs68, hcount',
        hso, hips]
      rfl
    · intro _
      refine ⟨fun ip hip => ?_, fun ip hip => ?_⟩
      · simp only [bindIPs_apply, hip, if_true]
      · simp only [bindIPs_apply, hip, if_false]
    · intro hn; exact absurd hc hn
  · refine ⟨⟨g.IPMap, [⟨b0 :: rest, false⟩]⟩, _, ips, ?_, rfl, hcount, hips, ?_, ?_⟩
    · unfold DNSRecvDaemonStep
      simp only [hb, bind_ok, hsf, hq, hname, if_false, hc]
      rfl
    · intro h; exact absurd h hc
    · intro _; rfl

/-- Witness of `DNSRecvDaemon_harvest`: the response carrying `1.2.3.4` for
`example.com`, bound at level 2 by the config lines `#LEVEL2`, `example.com`. -/
theorem DNSRecvDaemon_harvest_witness :
    ∃ out count ips,
      DNSRecvDaemonStep sampleIPString (configured [ascii "#LEVEL2", ascii "example.com"])
          (queryV4 [] 53 12345 exampleResponse) = .ok out
      ∧ out.sent = [⟨queryV4 [] 53 12345 exampleResponse, false⟩]
      ∧ Uint16 (((queryV4 [] 53 12345 exampleResponse).drop (ipHeadLen 69 + 8)).drop 6)
        = .ok count
      ∧ getAnswers sampleIPString
          (((queryV4 [] 53 12345 exampleResponse).drop (ipHeadLen 69 + 8)).drop 29) count
        = .ok ips
      ∧ (2 > 1 ∧ 1 = 1 →
          (∀ ip ∈ ips.getD [], out.IPMap ip = some 2)
            ∧ (∀ ip, ip ∉ ips.getD [] →
                out.IPMap ip = (configured [ascii "#LEVEL2", ascii "example.com"]).IPMap ip))
      ∧ (¬ (2 > 1 ∧ 1 = 1) →
          out.IPMap = (configured [ascii "#LEVEL2", ascii "example.com"]).IPMap) :=
  DNSRecvDaemon_harvest sampleIPString (configured [ascii "#LEVEL2", ascii "example.com"])
    (queryV4 [] 53 12345 exampleResponse) 69 (ascii "example.com") 1 29 2
    (by decide) (by decide) (by decide) (by decide)

end DNSRecvDaemon

section DOTDaemon

theorem fakeHeaders_ok_buf (rawbuf Raw : Bytes) (TTL : Int) (v6 : Bool) (H T : Nat)
    (hbuf : rawbuf.length = 1500) (h1 : H + T ≤ Raw.length) (h2 : H + 20 ≤ Raw.length)
    (h3 : Raw.length ≤ 1500) :
    ∃ F, F.length = 1500 ∧ fakeHeaders rawbuf Raw TTL v6 H T = .ok F := by
  unfold fakeHeaders
  by_cases hT : TTL > 0
  · cases v6 <;> simp [hT, sliceTo, copyAt, setByte, h1, hbuf]
  · have h4 : H + 20 ≤ 1500 := by omega
    have h5 : H + 12 < 1500 := by omega
    simp [hT, sliceTo, copyAt, setByte, h2, h4, h5, hbuf]

theorem prefix_header (Z Raw : Bytes) (lo v tc : Nat) (hZ : Z.length = 1500)
    (htc : tc ≤ Raw.length) (hR : Raw.length ≤ 1500) (i : Nat) (hi : i < tc) (h0 : i ≠ lo)
    (h1 : i ≠ lo + 1) :
    ((put16 (copyBytes Z 0 (Raw.take tc)) lo v).take tc)[i]? = Raw[i]? := by
  have hlt : (Raw.take tc).length = tc := by simp; omega
  rw [List.getElem?_take_of_lt hi, put16_out _ _ _ _ (by omega),
    copyBytes_in _ _ _ _ (by omega) (by omega) (by rw [hZ]; omega),
    List.getElem?_take_of_lt (by omega)]
  rfl

theorem suffix_header (F Raw : Bytes) (lo v tc HT H sc : Nat) (hF : F.length = 1500)
    (htc : tc ≤ Raw.length) (hR : Raw.length ≤ 1500) (hHT : HT ≤ tc) (i : Nat) (hi : i < HT)
    (h0 : i ≠ lo) (h1 : i ≠ lo + 1) (h2 : i < H + 4 ∨ H + 8 ≤ i) :
    ((put32 (put16 (copyBytes (copyBytes F 0 (Raw.take HT)) HT (Raw.drop tc)) lo v) (H + 4)
        sc).take (Raw.length - (tc - HT)))[i]? = Raw[i]? := by
  have hlt : (Raw.take HT).length = HT := by simp; omega
  rw [List.getElem?_take_of_lt (by omega), put32_out _ _ _ _ (by omega),
    put16_out _ _ _ _ (by omega), getElem?_copyBytes, if_neg (by omega),
    copyBytes_in _ _ _ _ (by omega) (by omega) (by rw [hF]; omega),
    List.getElem?_take_of_lt (by omega)]
  rfl

/-- C11 as amended: for every captured IPv4 TCP segment of at most 1500 bytes
with header lengths `H ≥ 20` and `T ≥ 20` and a payload of at least 20 bytes,
whatever the scratch buffers hold, one round of `DOTDaemon` sends exactly four
packets, decoy, prefix, decoy, suffix, the two decoys being the same bytes;
the prefix is the original's first `H + T + 20` bytes with the total length
(bytes 2-3) set to `H + T + 20`; the suffix is the original IP and TCP headers
followed by the payload from byte 20 on, with the total length set to the
original length less 20 and the sequence number to `(s + 20) mod 2^32`. -/
theorem DOTDaemon_burst (TTL : Int) (rawbuf prefix_rawbuf Raw : Bytes) (b0 t12 H T s : Nat)
    (hbuf : rawbuf.length = 1500) (hpbuf : prefix_rawbuf.length = 1500)
    (hlen : Raw.length ≤ 1500) (hb0 : Raw.head? = some b0) (hv4 : isIPv6 b0 = false)
    (hihl : 5 ≤ b0 % 16) (hH : ipHeadLen b0 = H) (ht12 : Raw[H + 12]? = some t12)
    (hT : t12 / 16 * 4 = T) (hT20 : 20 ≤ T) (hs : Uint32 (Raw.drop (H + 4)) = .ok s)
    (hpay : H + T + 20 ≤ Raw.length) :
    ∃ out fake pre suf, DOTDaemonStep TTL rawbuf prefix_rawbuf Raw = .ok out
      ∧ out.sent = [⟨fake, true⟩, ⟨pre, true⟩, ⟨fake, true⟩, ⟨suf, true⟩]
      ∧ pre.length = H + T + 20
      ∧ (∀ i, i < H + T + 20 → i ≠ 2 → i ≠ 3 → pre[i]? = Raw[i]?)
      ∧ Uint16 (pre.drop 2) = .ok (H + T + 20)
      ∧ suf.length = Raw.length - 20
      ∧ (∀ i, i < H + T → i ≠ 2 → i ≠ 3 → (i < H + 4 ∨ H + 8 ≤ i) → suf[i]? = Raw[i]?)
      ∧ suf.drop (H + T) = Raw.drop (H + T + 20)
      ∧ Uint16 (suf.drop 2) = .ok (Raw.length - 20)
      ∧ Uint32 (suf.drop (H + 4)) = .ok ((s + 20) % 4294967296) := by
  obtain ⟨rest, rfl⟩ : ∃ rest, Raw = b0 :: rest := by
    cases Raw with
    | nil => simp at hb0
    | cons a t => simp at hb0; exact ⟨t, by rw [hb0]⟩
  have hH20 : 20 ≤ H := by
    rw [← hH]; simp [ipHeadLen, hv4]; omega
  have hHT : H + T ≤ (b0 :: rest).length := by omega
  obtain ⟨F, hF, hfake⟩ := fakeHeaders_ok_buf rawbuf (b0 :: rest) TTL false H T hbuf hHT
    (by omega) hlen
  have hb : byteAt (b0 :: rest) 0 = .ok b0 := by simp [byteAt]
  have hbt : byteAt (b0 :: rest) (H + 12) = .ok t12 := by simp only [byteAt, ht12]
  have htl : ((b0 :: rest).length % 65536 + 65536 - 20) % 65536
      = (b0 :: rest).length - (H + T + 20 - (H + T)) := by omega
  have hsc : (((s + 20) / 16777216 % 256 * 256 + (s + 20) / 65536 % 256) * 256
      + (s + 20) / 256 % 256) * 256 + (s + 20) % 256 = (s + 20) % 4294967296 := by omega
  obtain ⟨Y, hY, hYs⟩ := Uint32_slice_ok (b0 :: rest) (H + 4) (H + 8) (by omega) (by omega)
  rw [hs] at hYs
  have f2 : (2 : Nat) + 2 ≤ 1500 := by decide
  have f3 : H + T + 20 ≤ 1500 := by omega
  have f4 : H + T ≤ 1500 := by omega
  have f5 : H + 4 + 4 ≤ 1500 := by omega
  have f6 : (b0 :: rest).length - (H + T + 20 - (H + T)) ≤ 1500 := by omega
  obtain ⟨pre, hpre, p1, p2, p3⟩ := prefix_props prefix_rawbuf (b0 :: rest) 2 (H + T + 20)
    (H + T + 20) (H + T) hpbuf hpay hlen (by omega) (by omega)
  obtain ⟨suf, hsuf, q1, q2, q3, q4⟩ := suffix_props F (b0 :: rest) 2
    ((b0 :: rest).length - (H + T + 20 - (H + T)))
    (H + T + 20) (H + T) H (s + 20) hF hpay hlen (by omega) (by omega) (by omega)
  refine ⟨⟨put32 (put16 (copyBytes (copyBytes F 0 ((b0 :: rest).take (H + T))) (H + T)
      ((b0 :: rest).drop (H + T + 20))) 2 ((b0 :: rest).length - (H + T + 20 - (H + T))))
      (H + 4) (s + 20),
    put16 (copyBytes prefix_rawbuf 0 ((b0 :: rest).take (H + T + 20))) 2 (H + T + 20),
    [⟨F.take (b0 :: rest).length, true⟩, ⟨pre, true⟩, ⟨F.take (b0 :: rest).length, true⟩,
      ⟨suf, true⟩]⟩, F.take (b0 :: rest).length, pre, suf, ?_, rfl, p1, ?_, ?_, ?_, ?_, q2, ?_, ?_⟩
  · subst hpre hsuf
    unfold DOTDaemonStep
    simp only [hb, bind_ok, hv4, hH, hbt, hT, if_true, hfake, sliceTo, hF, hlen,
      hpay, copyAt, hpbuf, Nat.zero_le, PutUint16, length_copyBytes,
      length_put16, length_put32, sliceFrom, PutUint32, htl, f2, f3, f4, f5, f6, hY, hYs, hHT]
    rfl
  · intro i hi h2 h3
    rw [hpre]
    exact prefix_header prefix_rawbuf (b0 :: rest) 2 (H + T + 20) (H + T + 20) hpbuf hpay hlen i
      hi h2 h3
  · rw [p3]; exact congrArg Except.ok (by omega)
  · rw [q1]; omega
  · intro i hi h2 h3 h4
    rw [hsuf]
    exact suffix_header F (b0 :: rest) 2 _ (H + T + 20) (H + T) H (s + 20) hF hpay hlen (by omega)
      i hi h2 h3 h4
  · rw [q3]; exact congrArg Except.ok (by omega)
  · rw [q4, hsc]

/-- Witness of `DOTDaemon_burst`: an IPv4 segment with 24 payload bytes and
sequence number `0xFFFFFFFA`. -/
theorem DOTDaemon_burst_witness :
    ∃ out fake pre suf,
      DOTDaemonStep 64 (makeBytes 1500) (makeBytes 1500)
          (segmentV4 255 255 255 250 (List.replicate 24 7)) = .ok out
      ∧ out.sent = [⟨fake, true⟩, ⟨pre, true⟩, ⟨fake, true⟩, ⟨suf, true⟩]
      ∧ pre.length = 20 + 20 + 20
      ∧ (∀ i, i < 20 + 20 + 20 → i ≠ 2 → i ≠ 3 →
          pre[i]? = (segmentV4 255 255 255 250 (List.replicate 24 7))[i]?)
      ∧ Uint16 (pre.drop 2) = .ok (20 + 20 + 20)
      ∧ suf.length = (segmentV4 255 255 255 250 (List.replicate 24 7)).length - 20
      ∧ (∀ i, i < 20 + 20 → i ≠ 2 → i ≠ 3 → (i < 20 + 4 ∨ 20 + 8 ≤ i) →
          suf[i]? = (segmentV4 255 255 255 250 (List.replicate 24 7))[i]?)
      ∧ suf.drop (20 + 20) = (segmentV4 255 255 255 250 (List.replicate 24 7)).drop (20 + 20 + 20)
      ∧ Uint16 (suf.drop 2)
        = .ok ((segmentV4 255 255 255 250 (List.replicate 24 7)).length - 20)
      ∧ Uint32 (suf.drop (20 + 4)) = .ok ((4294967290 + 20) % 4294967296) :=
  DOTDaemon_burst 64 (makeBytes 1500) (makeBytes 1500)
    (segmentV4 255 255 255 250 (List.replicate 24 7)) 69 80 20 20 4294967290
    (length_makeBytes 1500) (length_makeBytes 1500) (by decide) (by decide) (by decide)
    (by decide) (by decide) (by decide) (by decide) (by decide) (by decide) (by decide)

/-- C11 fails as stated: on an IPv4 segment with 10 payload bytes the cut at
`H + T + 20 = 60` lies beyond the 50 bytes of the packet, which has neither 20
first payload bytes nor a payload from byte 20 on; the round of `DOTDaemon`
ends in an out-of-range slice. -/
theorem DOTDaemon_burst_counterexample :
    (segmentV4 0 0 0 1 (List.replicate 10 7)).length = 50
      ∧ DOTDaemonStep 64 (makeBytes 1500) (makeBytes 1500)
          (segmentV4 0 0 0 1 (List.replicate 10 7)) = .error .outOfRange := by
  decide!

end DOTDaemon

section HelloDecoy

theorem fakeHeaders_ttl (Z Raw : Bytes) (TTL : Int) (v6 : Bool) (H T : Nat)
    (hZ : Z.length = 1500) (hT : TTL > 0) (h1 : H + T ≤ Raw.length) :
    fakeHeaders Z Raw TTL v6 H T
      = .ok ((copyBytes Z 0 (Raw.take (H + T))).set (if v6 then 7 else 8) (TTL % 256).toNat) := by
  unfold fakeHeaders
  cases v6 <;> simp [hT, sliceTo, copyAt, setByte, h1, hZ]

theorem hello_run (TTL : Int) (Raw : Bytes) (b0 t12 H T o n c s : Nat) (P : Bytes)
    (hlen : Raw.length ≤ 1500) (hb0 : Raw.head? = some b0)
    (hihl : isIPv6 b0 = false → 5 ≤ b0 % 16)
    (hH : ipHeadLen b0 = H) (ht12 : Raw[H + 12]? = some t12) (hT : t12 / 16 * 4 = T)
    (hT20 : 20 ≤ T) (hP : Raw.drop (H + T) = P) (hsni : getSNI P = .ok (o, n)) (hn : 0 < n)
    (hc : o + n / 2 = c) (hs : Uint32 (Raw.drop (H + 4)) = .ok s) (hcut : c ≤ P.length) :
    ∃ F pre suf, fakeHeaders (makeBytes 1500) Raw TTL (isIPv6 b0) H T = .ok F
      ∧ hello TTL Raw = .ok [⟨F.take Raw.length, true⟩, ⟨pre, true⟩, ⟨F.take Raw.length, true⟩,
          ⟨suf, true⟩] := by
  obtain ⟨rest, rfl⟩ : ∃ rest, Raw = b0 :: rest := by
    cases Raw with
    | nil => simp at hb0
    | cons a t => simp at hb0; exact ⟨t, by rw [hb0]⟩
  have hP5 : 5 ≤ P.length := getSNI_length P _ hsni
  have hPl : P.length = (b0 :: rest).length - (H + T) := by rw [← hP]; exact List.length_drop _ _
  have hHT : H + T ≤ (b0 :: rest).length := by omega
  have hH20 : 20 ≤ H := by
    rw [← hH]; unfold ipHeadLen
    by_cases h6 : isIPv6 b0 = true
    · simp [h6]
    · have := hihl (by simpa using h6)
      simp [h6]; omega
  have htc : H + T + c ≤ (b0 :: rest).length := by omega
  obtain ⟨F, hF, hfake⟩ := fakeHeaders_ok (b0 :: rest) TTL (isIPv6 b0) H T hHT (by omega) hlen
  have hfake0 := hfake
  have hb : byteAt (b0 :: rest) 0 = .ok b0 := by simp [byteAt]
  have hbt : byteAt (b0 :: rest) (H + 12) = .ok t12 := by simp only [byteAt, ht12]
  have hsf : sliceFrom (b0 :: rest) (H + T) = .ok P := by
    simp only [sliceFrom, hHT, if_true, hP]
  have htl : ((b0 :: rest).length % 65536 + 65536 - c % 65536) % 65536
      = (b0 :: rest).length - (H + T + c - (H + T)) := by omega
  obtain ⟨Y, hY, hYs⟩ := Uint32_slice_ok (b0 :: rest) (H + 4) (H + 8) (by omega) (by omega)
  rw [hs] at hYs
  have hZl := length_makeBytes 1500
  have f1 : (4 : Nat) + 2 ≤ 1500 := by decide
  have f2 : (2 : Nat) + 2 ≤ 1500 := by decide
  have f3 : H + T + c ≤ 1500 := by omega
  have f4 : H + T ≤ 1500 := by omega
  have f5 : H + 4 + 4 ≤ 1500 := by omega
  have f6 : (b0 :: rest).length - (H + T + c - (H + T)) ≤ 1500 := by omega
  by_cases h6 : isIPv6 b0 = true
  · obtain ⟨pre, hpre, -⟩ := prefix_props (makeBytes 1500) (b0 :: rest) 4 (H + T + c - H)
      (H + T + c) (H + T) (length_makeBytes 1500) htc hlen (by omega) (by omega)
    obtain ⟨suf, hsuf, -⟩ := suffix_props F (b0 :: rest) 4
      (((b0 :: rest).length - (H + T + c - (H + T)) + 65536 - H % 65536) % 65536)
      (H + T + c) (H + T) H (s + c) hF htc hlen (by omega) (by omega) (by omega)
    refine ⟨F, pre, suf, hfake0, ?_⟩
    subst hpre hsuf hP
    unfold hello
    rw [h6] at hfake
    generalize makeBytes 1500 = Z at hZl hfake ⊢
    simp only [hb, bind_ok, hH, hbt, hT, hsf, hsni, hn, if_true, hfake, sliceTo, hF, hlen,
      hc, htc, copyAt, hZl, Nat.zero_le, h6, PutUint16, length_copyBytes,
      length_put16, length_put32, sliceFrom, PutUint32, htl, f1, f3, f4, f5, f6, hY, hYs, hHT]
    rfl
  · have h6' : isIPv6 b0 = false := by simpa using h6
    obtain ⟨pre, hpre, -⟩ := prefix_props (makeBytes 1500) (b0 :: rest) 2 (H + T + c)
      (H + T + c) (H + T) (length_makeBytes 1500) htc hlen (by omega) (by omega)
    obtain ⟨suf, hsuf, -⟩ := suffix_props F (b0 :: rest) 2
      ((b0 :: rest).length - (H + T + c - (H + T)))
      (H + T + c) (H + T) H (s + c) hF htc hlen (by omega) (by omega) (by omega)
    refine ⟨F, pre, suf, hfake0, ?_⟩
    subst hpre hsuf hP
    unfold hello
    rw [h6'] at hfake
    generalize makeBytes 1500 = Z at hZl hfake ⊢
    simp only [hb, bind_ok, hH, hbt, hT, hsf, hsni, hn, if_true, hfake, sliceTo, hF, hlen,
      hc, htc, copyAt, hZl, Nat.zero_le, h6', PutUint16, length_copyBytes,
      length_put16, length_put32, sliceFrom, PutUint32, htl, f2, f3, f4, f5, f6, hY, hYs, hHT,
      Bool.false_eq_true, if_false]
    rfl

/-- C18 as amended: for every captured segment of at most 1500 bytes, IPv4
(header length `H` at least 20) or IPv6, with TCP header length `T` at least
20 and payload `P`, on which `hello` finds a server name (`getSNI` reports
`(o, n)` with `n > 0` and the cut `o + n / 2` lies within `P`), and every
configured `ttl > 0`: the decoy that `hello` sends (twice) has the length of
the captured segment; its IP and TCP headers are the original's except for the
TTL byte (byte 8 for IPv4, byte 7 for IPv6), which holds `ttl mod 256`; and
its TCP payload is `len(P)` zero bytes, since only the headers are copied into
the fresh buffer. -/
theorem hello_decoy (TTL : Int) (Raw : Bytes) (b0 t12 H T o n c s : Nat) (P : Bytes)
    (hTTL : TTL > 0) (hlen : Raw.length ≤ 1500) (hb0 : Raw.head? = some b0)
    (hihl : isIPv6 b0 = false → 5 ≤ b0 % 16)
    (hH : ipHeadLen b0 = H) (ht12 : Raw[H + 12]? = some t12) (hT : t12 / 16 * 4 = T)
    (hT20 : 20 ≤ T) (hP : Raw.drop (H + T) = P) (hsni : getSNI P = .ok (o, n)) (hn : 0 < n)
    (hc : o + n / 2 = c) (hs : Uint32 (Raw.drop (H + 4)) = .ok s) (hcut : c ≤ P.length) :
    ∃ fake pre suf,
      hello TTL Raw = .ok [⟨fake, true⟩, ⟨pre, true⟩, ⟨fake, true⟩, ⟨suf, true⟩]
        ∧ fake.length = Raw.length
        ∧ (∀ i, i < H + T → i ≠ (if isIPv6 b0 then 7 else 8) → fake[i]? = Raw[i]?)
        ∧ fake[if isIPv6 b0 then 7 else 8]? = some (TTL % 256).toNat
        ∧ fake.drop (H + T) = List.replicate P.length 0 := by
  obtain ⟨F, pre, suf, hF, hrun⟩ := hello_run TTL Raw b0 t12 H T o n c s P hlen hb0 hihl hH ht12
    hT hT20 hP hsni hn hc hs hcut
  have hP5 : 5 ≤ P.length := getSNI_length P _ hsni
  have hPl : P.length = Raw.length - (H + T) := by rw [← hP]; exact List.length_drop _ _
  have hHT : H + T ≤ Raw.length := by omega
  have hk : (if isIPv6 b0 then 7 else 8) < H + T := by split_ifs <;> omega
  rw [fakeHeaders_ttl _ Raw TTL (isIPv6 b0) H T (length_makeBytes 1500) hTTL hHT] at hF
  have hF' := (Except.ok.inj hF).symm
  generalize (if isIPv6 b0 = true then 7 else 8) = k at hF' hk ⊢
  have hlt : (Raw.take (H + T)).length = H + T := by simp; omega
  have hCl : (copyBytes (makeBytes 1500) 0 (Raw.take (H + T))).length = 1500 := by
    rw [length_copyBytes, length_makeBytes]
  have hFl : F.length = 1500 := by rw [hF', List.length_set, hCl]
  refine ⟨F.take Raw.length, pre, suf, hrun, ?_, ?_, ?_, ?_⟩
  · rw [List.length_take, hFl]; omega
  · intro i hi hne
    rw [List.getElem?_take_of_lt (by omega), hF', List.getElem?_set_ne (fun e => hne e.symm),
      copyBytes_in _ _ _ _ (by omega) (by omega) (by rw [length_makeBytes]; omega),
      List.getElem?_take_of_lt (by omega)]
    rfl
  · rw [List.getElem?_take_of_lt (by omega), hF', List.getElem?_set_self (by omega)]
  · apply List.ext_getElem?
    intro i
    rw [List.getElem?_drop]
    by_cases hi : H + T + i < Raw.length
    · rw [List.getElem?_take_of_lt hi, hF', List.getElem?_set_ne (by omega), getElem?_copyBytes,
        if_neg (by omega)]
      simp only [makeBytes, List.getElem?_replicate]
      rw [if_pos (by omega), if_pos (by omega)]
    · rw [List.getElem?_eq_none (by rw [List.length_take]; omega),
        List.getElem?_eq_none (by rw [List.length_replicate]; omega)]

/-- Witness of `hello_decoy`: a ClientHello for `example.com` in an IPv4
segment, with `ttl = 300`, so the decoy's TTL byte is `300 mod 256 = 44`. -/
theorem hello_decoy_witness :
    ∃ fake pre suf,
      hello 300 (segmentV4 255 255 255 250 (clientHello (ascii "example.com")))
          = .ok [⟨fake, true⟩, ⟨pre, true⟩, ⟨fake, true⟩, ⟨suf, true⟩]
        ∧ fake.length = (segmentV4 255 255 255 250 (clientHello (ascii "example.com"))).length
        ∧ (∀ i, i < 20 + 20 → i ≠ (if isIPv6 69 then 7 else 8) →
            fake[i]? = (segmentV4 255 255 255 250 (clientHello (ascii "example.com")))[i]?)
        ∧ fake[if isIPv6 69 then 7 else 8]? = some ((300 : Int) % 256).toNat
        ∧ fake.drop (20 + 20)
          = List.replicate (clientHello (ascii "example.com")).length 0 :=
  hello_decoy 300 (segmentV4 255 255 255 250 (clientHello (ascii "example.com"))) 69 80 20 20 58
    11 63 4294967290 (clientHello (ascii "example.com"))
    (by decide) (by decide) (by decide) (by decide) (by decide) (by decide) (by decide)
    (by decide) (by decide) (by decide) (by decide) (by decide) (by decide) (by decide)

/-- C18 fails as stated: on a ClientHello for `example.com` with `ttl = 300`
the first packet `hello` sends has TTL byte `44`, not `300`, and its payload
is 69 zero bytes, not the 69 bytes of the ClientHello. -/
theorem hello_decoy_counterexample :
    (hello 300 (segmentV4 0 0 0 1 (clientHello (ascii "example.com")))).map
        (fun sent => sent.head?.map (fun p => (p.Raw[8]?, p.Raw.drop 40)))
      = .ok (some (some 44, List.replicate 69 0))
    ∧ (segmentV4 0 0 0 1 (clientHello (ascii "example.com"))).drop 40
      = clientHello (ascii "example.com")
    ∧ clientHello (ascii "example.com") ≠ List.replicate 69 0 := by
  decide!

end HelloDecoy

section GetSNI

theorem encodeExtensions_length (es : List (Nat × Bytes)) :
    4 * es.length ≤ (encodeExtensions es).length := by
  induction es with
  | nil => simp [encodeExtensions]
  | cons e es ih =>
    simp only [encodeExtensions, encodeExtension, List.length_append, List.length_cons]
    omega

set_option maxRecDepth 4096 in
theorem getSNILoop_exts (before : List (Nat × Bytes)) :
    ∀ (pre tail : Bytes) (x0 x1 l0 l1 nt n0 n1 fuel End : Nat),
      (∀ e ∈ before, e.1 ≠ 0) → before.length < fuel →
      pre.length + (encodeExtensions before).length < End →
      getSNILoop (pre ++ encodeExtensions before ++ ([0, 0, x0, x1, l0, l1, nt, n0, n1] ++ tail))
          End fuel pre.length
        = .ok (pre.length + (encodeExtensions before).length + 9, n0 * 256 + n1) := by
  induction before with
  | nil =>
    intro pre tail x0 x1 l0 l1 nt n0 n1 fuel End _ hf hE
    obtain ⟨f, rfl⟩ : ∃ f, fuel = f + 1 := ⟨fuel - 1, by simp at hf; omega⟩
    have hbuf : pre ++ encodeExtensions [] ++ ([0, 0, x0, x1, l0, l1, nt, n0, n1] ++ tail)
        = pre ++ [0, 0, x0, x1, l0, l1, nt, n0, n1] ++ tail := by
      simp [encodeExtensions]
    have hE2 : pre.length < End := by simpa [encodeExtensions] using hE
    have s1 := slice_at pre [0, 0, x0, x1, l0, l1, nt, n0, n1] tail pre.length (pre.length + 2)
      0 2 rfl rfl (by decide) (by simp)
    have s2 := slice_at pre [0, 0, x0, x1, l0, l1, nt, n0, n1] tail (pre.length + 2)
      (pre.length + 2 + 2) 2 4 rfl rfl (by decide) (by simp)
    have s3 := slice_at pre [0, 0, x0, x1, l0, l1, nt, n0, n1] tail (pre.length + 2 + 2 + 2 + 1)
      (pre.length + 2 + 2 + 2 + 1 + 2) 7 9 rfl rfl (by decide) (by simp)
    rw [hbuf, getSNILoop]
    simp only [hE2, if_true, s1, s2, s3, bind_ok]
    simp [Uint16, encodeExtensions]
  | cons e es ih =>
    intro pre tail x0 x1 l0 l1 nt n0 n1 fuel End he hf hE
    obtain ⟨f, rfl⟩ : ∃ f, fuel = f + 1 := ⟨fuel - 1, by simp at hf; omega⟩
    obtain ⟨ty, body⟩ := e
    have hty0 : ty ≠ 0 := he (ty, body) (by simp)
    have hbuf : pre ++ encodeExtensions ((ty, body) :: es)
          ++ ([0, 0, x0, x1, l0, l1, nt, n0, n1] ++ tail)
        = pre ++ [ty / 256, ty % 256, body.length / 256, body.length % 256]
          ++ (body ++ encodeExtensions es ++ ([0, 0, x0, x1, l0, l1, nt, n0, n1] ++ tail)) := by
      simp [encodeExtensions, encodeExtension]
    have hbuf3 : pre ++ encodeExtensions ((ty, body) :: es)
          ++ ([0, 0, x0, x1, l0, l1, nt, n0, n1] ++ tail)
        = (pre ++ encodeExtension ty body) ++ encodeExtensions es
          ++ ([0, 0, x0, x1, l0, l1, nt, n0, n1] ++ tail) := by
      simp [encodeExtensions]
    have hlenE : (encodeExtensions ((ty, body) :: es)).length
        = 4 + body.length + (encodeExtensions es).length := by
      simp only [encodeExtensions, encodeExtension, List.length_append, List.length_cons]
      omega
    have hE2 : pre.length < End := by omega
    have s1 := slice_at pre [ty / 256, ty % 256, body.length / 256, body.length % 256]
      (body ++ encodeExtensions es ++ ([0, 0, x0, x1, l0, l1, nt, n0, n1] ++ tail))
      pre.length (pre.length + 2) 0 2 rfl rfl (by decide) (by simp)
    have s2 := slice_at pre [ty / 256, ty % 256, body.length / 256, body.length % 256]
      (body ++ encodeExtensions es ++ ([0, 0, x0, x1, l0, l1, nt, n0, n1] ++ tail))
      (pre.length + 2) (pre.length + 2 + 2) 2 4 rfl rfl (by decide) (by simp)
    have hoff : (pre ++ encodeExtension ty body).length = pre.length + 2 + 2 + body.length := by
      simp only [encodeExtension, List.length_append, List.length_cons]; omega
    have hih := ih (pre ++ encodeExtension ty body) tail x0 x1 l0 l1 nt n0 n1 f End
      (fun e h => he e (by simp [h])) (by simp at hf; omega) (by rw [hoff]; omega)
    rw [← hbuf3, hoff] at hih
    have u1 : Uint16 (List.drop 0 (List.take 2
        [ty / 256, ty % 256, body.length / 256, body.length % 256])) = .ok ty := by
      simp only [List.take, List.drop, Uint16]
      exact congrArg Except.ok (by omega)
    have u2 : Uint16 (List.drop 2 (List.take 4
        [ty / 256, ty % 256, body.length / 256, body.length % 256])) = .ok body.length := by
      simp only [List.take, List.drop, Uint16]
      exact congrArg Except.ok (by omega)
    rw [getSNILoop]
    rw [hbuf] at hih ⊢
    simp only [hE2, if_true, s1, s2, bind_ok, u1, u2, hty0, if_false, hih]
    exact congrArg Except.ok (Prod.ext (by simp only [hlenE]; omega) rfl)

/-- C14: on a TLS record payload `b` made of a 43-byte header whose record
length field (bytes 3-4) is less than `len(b) + 5`, a session id, cipher
suites and compression methods each after its length field, a 2-byte
extensions length `el` covering the extensions `before` (none of type 0) and
the first byte of a type-0 extension that holds a 2-byte list length, a name
type, the 2-byte length of `name` (non-empty) and `name`, `getSNI` returns
`(o, len(name))` with `b[o : o + len(name)] = name`. -/
theorem getSNI_wellFormed (b h3 h38 sid cs cm name rest : Bytes) (before : List (Nat × Bytes))
    (r0 r1 el x0 x1 l0 l1 nt : Nat)
    (hb : b = h3 ++ [r0, r1] ++ h38 ++ sid.length :: sid
      ++ [cs.length / 256, cs.length % 256] ++ cs ++ cm.length :: cm ++ [el / 256, el % 256]
      ++ encodeExtensions before
      ++ ([0, 0, x0, x1, l0, l1, nt, name.length / 256, name.length % 256] ++ (name ++ rest)))
    (h3l : h3.length = 3) (h38l : h38.length = 38) (hrec : r0 * 256 + r1 < b.length + 5)
    (hbefore : ∀ e ∈ before, e.1 ≠ 0) (hin : (encodeExtensions before).length < el)
    (hname : 0 < name.length) :
    ∃ o, getSNI b = .ok (o, name.length) ∧ slice b o (o + name.length) = .ok name := by
  have hlen : b.length = 43 + (1 + sid.length) + (2 + cs.length) + (1 + cm.length) + 2
      + (encodeExtensions before).length + 9 + name.length + rest.length := by
    rw [hb]; simp only [List.length_append, List.length_cons, List.length_nil]; omega
  have c1 : ¬ (b.length + 5 ≤ r0 * 256 + r1) := by omega
  have c2 : ¬ (11 + 32 + (1 + sid.length) + (2 + cs.length) ≥ b.length) := by omega
  have s0 : slice b 3 5 = .ok [r0, r1] := by
    have e : b = h3 ++ [r0, r1] ++ (h38 ++ sid.length :: sid
        ++ [cs.length / 256, cs.length % 256] ++ cs ++ cm.length :: cm ++ [el / 256, el % 256]
        ++ encodeExtensions before
        ++ ([0, 0, x0, x1, l0, l1, nt, name.length / 256, name.length % 256]
          ++ (name ++ rest))) := by
      rw [hb]; simp only [List.append_assoc]
    rw [e]
    exact slice_at h3 [r0, r1] _ 3 5 0 2 (by omega) (by omega) (by decide) (by simp)
  have b1 : byteAt b (11 + 32) = .ok sid.length := by
    have e : b = (h3 ++ [r0, r1] ++ h38) ++ sid.length :: (sid
        ++ [cs.length / 256, cs.length % 256] ++ cs ++ cm.length :: cm ++ [el / 256, el % 256]
        ++ encodeExtensions before
        ++ ([0, 0, x0, x1, l0, l1, nt, name.length / 256, name.length % 256]
          ++ (name ++ rest))) := by
      rw [hb]; simp only [List.append_assoc, List.cons_append]
    have hl : (h3 ++ [r0, r1] ++ h38).length = 11 + 32 := by
      simp only [List.length_append, List.length_cons, List.length_nil]; omega
    rw [e, ← hl]
    exact byteAt_append_right _ _ _
  have s1 : slice b (11 + 32 + (1 + sid.length)) (11 + 32 + (1 + sid.length) + 2)
      = .ok [cs.length / 256, cs.length % 256] := by
    have e : b = (h3 ++ [r0, r1] ++ h38 ++ sid.length :: sid)
        ++ [cs.length / 256, cs.length % 256] ++ (cs ++ cm.length :: cm ++ [el / 256, el % 256]
        ++ encodeExtensions before
        ++ ([0, 0, x0, x1, l0, l1, nt, name.length / 256, name.length % 256]
          ++ (name ++ rest))) := by
      rw [hb]; simp only [List.append_assoc, List.cons_append]
    rw [e]
    exact slice_at _ [cs.length / 256, cs.length % 256] _ _ _ 0 2
      (by simp only [List.length_append, List.length_cons, List.length_nil]; omega)
      (by simp only [List.length_append, List.length_cons, List.length_nil]; omega)
      (by decide) (by simp)
  have b2 : byteAt b (11 + 32 + (1 + sid.length) + (2 + cs.length)) = .ok cm.length := by
    have e : b = (h3 ++ [r0, r1] ++ h38 ++ sid.length :: sid
        ++ [cs.length / 256, cs.length % 256] ++ cs) ++ cm.length :: (cm ++ [el / 256, el % 256]
        ++ encodeExtensions before
        ++ ([0, 0, x0, x1, l0, l1, nt, name.length / 256, name.length % 256]
          ++ (name ++ rest))) := by
      rw [hb]; simp only [List.append_assoc, List.cons_append]
    have hl : (h3 ++ [r0, r1] ++ h38 ++ sid.length :: sid
        ++ [cs.length / 256, cs.length % 256] ++ cs).length
        = 11 + 32 + (1 + sid.length) + (2 + cs.length) := by
      simp only [List.length_append, List.length_cons, List.length_nil]; omega
    rw [e, ← hl]
    exact byteAt_append_right _ _ _
  have s2 : slice b (11 + 32 + (1 + sid.length) + (2 + cs.length) + (1 + cm.length))
      (11 + 32 + (1 + sid.length) + (2 + cs.length) + (1 + cm.length) + 2)
      = .ok [el / 256, el % 256] := by
    have e : b = (h3 ++ [r0, r1] ++ h38 ++ sid.length :: sid
        ++ [cs.length / 256, cs.length % 256] ++ cs ++ cm.length :: cm) ++ [el / 256, el % 256]
        ++ (encodeExtensions before
        ++ ([0, 0, x0, x1, l0, l1, nt, name.length / 256, name.length % 256]
          ++ (name ++ rest))) := by
      rw [hb]; simp only [List.append_assoc, List.cons_append]
    rw [e]
    exact slice_at _ [el / 256, el % 256] _ _ _ 0 2
      (by simp only [List.length_append, List.length_cons, List.length_nil]; omega)
      (by simp only [List.length_append, List.length_cons, List.length_nil]; omega)
      (by decide) (by simp)
  have u0 : Uint16 [r0, r1] = .ok (r0 * 256 + r1) := rfl
  have u1 : Uint16 [cs.length / 256, cs.length % 256] = .ok cs.length := by
    simp only [Uint16]; exact congrArg Except.ok (by omega)
  have u2 : Uint16 [el / 256, el % 256] = .ok el := by
    simp only [Uint16]; exact congrArg Except.ok (by omega)
  have hpl : (h3 ++ [r0, r1] ++ h38 ++ sid.length :: sid
      ++ [cs.length / 256, cs.length % 256] ++ cs ++ cm.length :: cm ++ [el / 256, el % 256]).length
      = 11 + 32 + (1 + sid.length) + (2 + cs.length) + (1 + cm.length) + 2 := by
    simp only [List.length_append, List.length_cons, List.length_nil]; omega
  have hloop := getSNILoop_exts before (h3 ++ [r0, r1] ++ h38 ++ sid.length :: sid
      ++ [cs.length / 256, cs.length % 256] ++ cs ++ cm.length :: cm ++ [el / 256, el % 256])
    (name ++ rest) x0 x1 l0 l1 nt (name.length / 256) (name.length % 256) (el + 1)
    (11 + 32 + (1 + sid.length) + (2 + cs.length) + (1 + cm.length) + 2 + el) hbefore
    (by have := encodeExtensions_length before; omega) (by rw [hpl]; omega)
  rw [← hb, hpl] at hloop
  have hn : name.length / 256 * 256 + name.length % 256 = name.length := by omega
  rw [hn] at hloop
  refine ⟨11 + 32 + (1 + sid.length) + (2 + cs.length) + (1 + cm.length) + 2
    + (encodeExtensions before).length + 9, ?_, ?_⟩
  · unfold getSNI
    simp only [s0, bind_ok, u0, c1, if_false, b1, s1, u1, c2, b2, s2, u2, hloop]
  · have e : b = (h3 ++ [r0, r1] ++ h38 ++ sid.length :: sid
        ++ [cs.length / 256, cs.length % 256] ++ cs ++ cm.length :: cm ++ [el / 256, el % 256]
        ++ encodeExtensions before
        ++ [0, 0, x0, x1, l0, l1, nt, name.length / 256, name.length % 256]) ++ name ++ rest := by
      rw [hb]; simp only [List.append_assoc, List.cons_append]
    have hl : (h3 ++ [r0, r1] ++ h38 ++ sid.length :: sid
        ++ [cs.length / 256, cs.length % 256] ++ cs ++ cm.length :: cm ++ [el / 256, el % 256]
        ++ encodeExtensions before
        ++ [0, 0, x0, x1, l0, l1, nt, name.length / 256, name.length % 256]).length
        = 11 + 32 + (1 + sid.length) + (2 + cs.length) + (1 + cm.length) + 2
          + (encodeExtensions before).length + 9 := by
      simp only [List.length_append, List.length_cons, List.length_nil]; omega
    rw [e, ← hl]
    exact slice_middle _ name rest

/-- Witness of `getSNI_wellFormed`: a ClientHello with a 2-byte session id,
one cipher suite, a `supported_groups` extension and then `server_name` for
`example.com`. -/
theorem getSNI_wellFormed_witness :
    ∃ o, getSNI ([22, 3, 1] ++ [0, 76] ++ List.replicate 38 0 ++ [1, 2].length :: [1, 2]
        ++ [[19, 1].length / 256, [19, 1].length % 256] ++ [19, 1] ++ [0].length :: [0]
        ++ [28 / 256, 28 % 256] ++ encodeExtensions [(10, [0, 2, 0, 29])]
        ++ ([0, 0, 0, 16, 0, 14, 0, (ascii "example.com").length / 256,
            (ascii "example.com").length % 256] ++ (ascii "example.com" ++ [])))
        = .ok (o, (ascii "example.com").length)
      ∧ slice ([22, 3, 1] ++ [0, 76] ++ List.replicate 38 0 ++ [1, 2].length :: [1, 2]
        ++ [[19, 1].length / 256, [19, 1].length % 256] ++ [19, 1] ++ [0].length :: [0]
        ++ [28 / 256, 28 % 256] ++ encodeExtensions [(10, [0, 2, 0, 29])]
        ++ ([0, 0, 0, 16, 0, 14, 0, (ascii "example.com").length / 256,
            (ascii "example.com").length % 256] ++ (ascii "example.com" ++ [])))
          o (o + (ascii "example.com").length) = .ok (ascii "example.com") :=
  getSNI_wellFormed _ [22, 3, 1] (List.replicate 38 0) [1, 2] [19, 1] [0] (ascii "example.com") []
    [(10, [0, 2, 0, 29])] 0 76 28 0 16 0 14 0 rfl (by decide) (by decide) (by decide) (by decide)
    (by decide) (by decide)

end GetSNI

section PackAnswersTotal

theorem To4_length (ip ip4 : Bytes) (h : To4 ip = some ip4) : ip4.length = 4 := by
  unfold To4 at h
  split_ifs at h with h1 h2
  · cases h; exact h1
  · cases h; rw [List.length_drop, h2.1]

theorem packAnswersCount_shift (ParseIP : Bytes → Bytes) (qtype : Nat) (ips : List Bytes) :
    ∀ t c, packAnswersCount ParseIP qtype ips t c
      = (t + (packAnswersCount ParseIP qtype ips 0 0).1,
         c + (packAnswersCount ParseIP qtype ips 0 0).2) := by
  induction ips with
  | nil => intro t c; simp [packAnswersCount]
  | cons s ips ih =>
    intro t c
    simp only [packAnswersCount]
    split_ifs
    · rw [ih (t + 16) (c + 1), ih (0 + 16) (0 + 1)]
      exact Prod.ext (by simp only []; omega) (by simp only []; omega)
    · rw [ih (t + 28) (c + 1), ih (0 + 28) (0 + 1)]
      exact Prod.ext (by simp only []; omega) (by simp only []; omega)
    · rw [ih t c]

theorem packAnswersFill_total (ParseIP : Bytes → Bytes) (qtype : Nat) (ips : List Bytes) :
    ∀ (answers : Bytes) (length : Nat),
      length + (packAnswersCount ParseIP qtype ips 0 0).1 ≤ answers.length →
      ∃ r, packAnswersFill ParseIP qtype ips answers length = .ok r := by
  induction ips with
  | nil => intro answers length _; exact ⟨answers, rfl⟩
  | cons s ips ih =>
    intro answers length h
    rw [packAnswersCount] at h
    rw [packAnswersFill]
    cases h4 : To4 (ParseIP s) with
    | some ip4 =>
      have hl := To4_length _ _ h4
      obtain ⟨a, b, c, d, rfl⟩ : ∃ a b c d, ip4 = [a, b, c, d] := by
        match ip4, hl with
        | [a, b, c, d], _ => exact ⟨a, b, c, d, rfl⟩
      by_cases hq : qtype = 1
      · have hc : To4 (ParseIP s) ≠ none ∧ qtype = 1 := ⟨by rw [h4]; simp, hq⟩
        rw [if_pos hc, packAnswersCount_shift] at h
        have h' : length + 16 + (packAnswersCount ParseIP qtype ips 0 0).1 ≤ answers.length := by
          simp only [] at h; omega
        have hle : length ≤ answers.length := by omega
        obtain ⟨r, hr⟩ := ih (copyBytes answers length [192, 12, 0, 1, 0, 1, 0, 0, 14, 16, 0, 4,
          a, b, c, d]) (length + 16) (by rw [length_copyBytes]; exact h')
        refine ⟨r, ?_⟩
        simp only [hq, if_true, byteAt, List.getElem?_cons_zero, List.getElem?_cons_succ, bind_ok,
          copyAt, hle]
        rw [hq] at hr
        exact hr
      · simp only [hq, if_false]
        apply ih
        split_ifs at h with h1 h2
        · exact absurd h1.2 hq
        · rw [packAnswersCount_shift] at h; simp only [] at h; omega
        · exact h
    | none =>
      have hc : ¬ (To4 (ParseIP s) ≠ none ∧ qtype = 1) := by rw [h4]; simp
      rw [if_neg hc] at h
      by_cases hq : qtype = 28
      · rw [if_pos hq, packAnswersCount_shift] at h
        have h' : length + 12 + 16 + (packAnswersCount ParseIP qtype ips 0 0).1
            ≤ answers.length := by
          simp only [] at h; omega
        have hle : length ≤ answers.length := by omega
        have hle2 : length + 12 ≤ answers.length := by omega
        obtain ⟨r, hr⟩ := ih (copyBytes (copyBytes answers length
          [192, 12, 0, 28, 0, 1, 0, 0, 14, 16, 0, 16]) (length + 12) (ParseIP s))
          (length + 12 + 16) (by rw [length_copyBytes, length_copyBytes]; exact h')
        refine ⟨r, ?_⟩
        simp only [hq, if_true, bind_ok, copyAt, hle, length_copyBytes, hle2]
        rw [hq] at hr
        exact hr
      · rw [if_neg hq] at h
        simp only [hq, if_false]
        exact ih answers length h

theorem packAnswers_total (ParseIP : Bytes → Bytes) (ips : List Bytes) (qtype : Nat) :
    ∃ n bytes, packAnswers ParseIP ips qtype = .ok (n, bytes) := by
  obtain ⟨r, hr⟩ := packAnswersFill_total ParseIP qtype ips
    (makeBytes (packAnswersCount ParseIP qtype ips 0 0).1) 0
    (by simp [makeBytes])
  refine ⟨(packAnswersCount ParseIP qtype ips 0 0).2, r, ?_⟩
  unfold packAnswers
  simp only [hr, bind_ok]

end PackAnswersTotal

section LoadConfig

theorem indexByte_append (c : Nat) (d v : Bytes) (h : c ∉ d) :
    indexByte c (d ++ c :: v) = some d.length := by
  induction d with
  | nil => simp [indexByte]
  | cons x d ih =>
    have hx : x ≠ c := fun e => h (by simp [e])
    have hd : c ∉ d := fun e => h (by simp [e])
    simp [indexByte, hx, ih hd]

theorem indexByte_some (c : Nat) (s : Bytes) :
    ∀ i, indexByte c s = some i → s = s.take i ++ c :: s.drop (i + 1) ∧ c ∉ s.take i := by
  induction s with
  | nil => intro i h; simp [indexByte] at h
  | cons x s ih =>
    intro i h
    by_cases hx : x = c
    · simp [indexByte, hx] at h
      subst h
      simp [hx]
    · simp only [indexByte, hx, if_false, Option.map_eq_some'] at h
      obtain ⟨j, hj, rfl⟩ := h
      obtain ⟨h1, h2⟩ := ih j hj
      constructor
      · simp only [List.take_succ_cons, List.drop_succ_cons, List.cons_append]
        rw [← h1]
      · simp only [List.take_succ_cons, List.mem_cons, not_or]
        exact ⟨fun e => hx e.symm, h2⟩

theorem indexByte_none (c : Nat) (s : Bytes) (h : indexByte c s = none) : c ∉ s := by
  induction s with
  | nil => simp
  | cons x s ih =>
    by_cases hx : x = c
    · simp [indexByte, hx] at h
    · simp only [indexByte, hx, if_false, Option.map_eq_none'] at h
      simp only [List.mem_cons, not_or]
      exact ⟨fun e => hx e.symm, ih h⟩

theorem splitKeyValue_append (d v : Bytes) (h : 61 ∉ d) :
    splitKeyValue (d ++ 61 :: v) = [d, v] := by
  simp [splitKeyValue, indexByte_append 61 d v h]

theorem splitKeyValue_cases (line : Bytes) :
    (splitKeyValue line = [line] ∧ 61 ∉ line)
      ∨ ∃ k v, splitKeyValue line = [k, v] ∧ line = k ++ 61 :: v ∧ 61 ∉ k := by
  cases h : indexByte 61 line with
  | none => exact Or.inl ⟨by simp [splitKeyValue, h], indexByte_none 61 line h⟩
  | some i =>
    obtain ⟨h1, h2⟩ := indexByte_some 61 line i h
    exact Or.inr ⟨line.take i, line.drop (i + 1), by simp [splitKeyValue, h], h1, h2⟩

theorem splitCommas_single (a : Bytes) (h : 44 ∉ a) : splitCommas a = [a] := by
  induction a with
  | nil => rfl
  | cons x a ih =>
    have hx : x ≠ 44 := fun e => h (by simp [e])
    have ha : 44 ∉ a := fun e => h (by simp [e])
    simp [splitCommas, hx, ih ha]

theorem splitCommas_append (a s : Bytes) (h : 44 ∉ a) :
    splitCommas (a ++ 44 :: s) = a :: splitCommas s := by
  induction a with
  | nil => simp [splitCommas]
  | cons x a ih =>
    have hx : x ≠ 44 := fun e => h (by simp [e])
    have ha : 44 ∉ a := fun e => h (by simp [e])
    simp [splitCommas, hx, ih ha]

theorem splitCommas_join (ips : List Bytes) (hne : ips ≠ []) (h : ∀ ip ∈ ips, 44 ∉ ip) :
    splitCommas (joinCommas ips) = ips := by
  induction ips with
  | nil => exact absurd rfl hne
  | cons a t ih =>
    cases t with
    | nil => exact splitCommas_single a (h a (by simp))
    | cons b t =>
      rw [joinCommas, splitCommas_append _ _ (h a (by simp)),
        ih (by simp) (fun ip hip => h ip (by simp [hip]))]

theorem levelDirective_head (line : Bytes) (h : line.head? ≠ some 35) :
    levelDirective line = none := by
  unfold levelDirective
  split_ifs with h0 h1 h2 h3 h4
  · exact absurd (by rw [h0]; decide) h
  · exact absurd (by rw [h1]; decide) h
  · exact absurd (by rw [h2]; decide) h
  · exact absurd (by rw [h3]; decide) h
  · exact absurd (by rw [h4]; decide) h
  · rfl

theorem levelDirective_le (line : Bytes) (k : Nat) (h : levelDirective line = some k) :
    k ≤ 4 := by
  unfold levelDirective at h
  split_ifs at h <;> cases h <;> decide

theorem loadConfigLine_step (ParseIP : Bytes → Bytes) (Atoi : Bytes → Option Int) (g : Globals)
    (level : Nat) (line : Bytes)
    (hnum : ∀ v, (line = ascii "ttl" ++ 61 :: v ∨ line = ascii "mss" ++ 61 :: v
      ∨ line = ascii "log" ++ 61 :: v) → Atoi v ≠ none) :
    ∃ g', loadConfigLine ParseIP Atoi g level line
        = .ok (some (g', (levelDirective line).getD level))
      ∧ (∀ d, line ≠ d → (∀ v, line ≠ d ++ 61 :: v) → g'.DomainMap d = g.DomainMap d)
      ∧ (∀ ip, (∀ k v, line = k ++ 61 :: v → 61 ∉ k → ip ∉ splitCommas v) →
          g'.IPMap ip = g.IPMap ip) := by
  unfold loadConfigLine
  by_cases h0 : line.length > 0
  · by_cases h35 : line.head? = some 35
    · simp only [h0, h35, if_true]
      unfold levelDirective
      split_ifs <;> exact ⟨g, rfl, fun _ _ _ => rfl, fun _ _ => rfl⟩
    · rw [levelDirective_head line h35]
      simp only [h0, h35, if_true, if_false, Option.getD_none]
      rcases splitKeyValue_cases line with ⟨hs, h61⟩ | ⟨k, v, hs, hl, h61⟩
      · rw [hs]
        simp only [List.headD_cons]
        split_ifs
        · exact ⟨_, rfl, fun _ _ _ => rfl, fun _ _ => rfl⟩
        · exact ⟨_, rfl, fun _ _ _ => rfl, fun _ _ => rfl⟩
        · refine ⟨_, rfl, fun d hne _ => ?_, fun _ _ => rfl⟩
          simp only [mapSet]
          rw [if_neg (fun e => hne e.symm)]
      · rw [hs]
        simp only []
        by_cases k1 : k = ascii "server"
        · simp only [k1, if_true]
          split_ifs <;> exact ⟨_, rfl, fun _ _ _ => rfl, fun _ _ => rfl⟩
        · by_cases k2 : k = ascii "ttl"
          · obtain ⟨n, hn⟩ := Option.ne_none_iff_exists'.mp (hnum v (Or.inl (by rw [hl, k2])))
            simp only [k1, k2, if_true, if_false, hn]
            exact ⟨_, rfl, fun _ _ _ => rfl, fun _ _ => rfl⟩
          · by_cases k3 : k = ascii "mss"
            · obtain ⟨n, hn⟩ := Option.ne_none_iff_exists'.mp
                (hnum v (Or.inr (Or.inl (by rw [hl, k3]))))
              simp only [k1, k2, k3, if_true, if_false, hn]
              exact ⟨_, rfl, fun _ _ _ => rfl, fun _ _ => rfl⟩
            · by_cases k4 : k = ascii "log"
              · obtain ⟨n, hn⟩ := Option.ne_none_iff_exists'.mp
                  (hnum v (Or.inr (Or.inr (by rw [hl, k4]))))
                simp only [k1, k2, k3, k4, if_true, if_false, hn]
                exact ⟨_, rfl, fun _ _ _ => rfl, fun _ _ => rfl⟩
              · obtain ⟨c4, a4, h4⟩ := packAnswers_total ParseIP (splitCommas v) 1
                obtain ⟨c6, a6, h6⟩ := packAnswers_total ParseIP (splitCommas v) 28
                simp only [k1, k2, k3, k4, if_false, h4, h6, bind_ok]
                refine ⟨_, rfl, fun d hne hne2 => ?_, fun ip hip => ?_⟩
                · simp only [mapSet]
                  rw [if_neg (fun e => hne2 v (by rw [hl, e]))]
                · simp only []
                  rw [bindIPs_apply, if_neg (hip k v hl h61)]
  · have hnil : line = [] := by
      cases line with
      | nil => rfl
      | cons a t => simp at h0
    subst hnil
    exact ⟨g, rfl, fun _ _ _ => rfl, fun _ _ => rfl⟩

end LoadConfig

section LoadConfigLoop

theorem getLast?_getD_cons (k level : Nat) (X : List Nat) :
    ((k :: X).getLast?).getD level = (X.getLast?).getD k := by
  cases X with
  | nil => rfl
  | cons a t => rw [List.getLast?_cons_cons]; simp [List.getLast?_cons]

theorem level_cons (l : Bytes) (ls : List Bytes) (level : Nat) :
    (((l :: ls).filterMap levelDirective).getLast?).getD level
      = ((ls.filterMap levelDirective).getLast?).getD ((levelDirective l).getD level) := by
  cases h : levelDirective l with
  | none => simp [List.filterMap_cons, h]
  | some k =>
    rw [List.filterMap_cons, h]
    exact getLast?_getD_cons k level _

theorem currentLevel_le (lines : List Bytes) : currentLevel lines ≤ 4 := by
  unfold currentLevel
  cases h : (lines.filterMap levelDirective).getLast? with
  | none => simp
  | some k =>
    have hm := List.mem_of_getLast?_eq_some h
    obtain ⟨l, _, hl⟩ := List.mem_filterMap.mp hm
    simpa using levelDirective_le l k hl

theorem indexByte_not_mem (c : Nat) (s : Bytes) (h : c ∉ s) : indexByte c s = none := by
  cases hi : indexByte c s with
  | none => rfl
  | some i =>
    obtain ⟨h1, -⟩ := indexByte_some c s i hi
    exact absurd (by rw [h1]; simp) h

theorem ReadLine_shrinks (conf line rest : Bytes) (h : ReadLine conf = some (line, rest)) :
    rest.length < conf.length := by
  unfold ReadLine at h
  by_cases h0 : conf = []
  · simp [h0] at h
  · have hpos : 0 < conf.length := List.length_pos.mpr h0
    simp only [h0, if_false] at h
    cases hi : indexByte 10 (conf.take 4096) with
    | some i =>
      simp only [hi, Option.some.injEq, Prod.mk.injEq] at h
      rw [← h.2, List.length_drop]; omega
    | none =>
      simp only [hi] at h
      split_ifs at h with h1 h2
      · simp only [Option.some.injEq, Prod.mk.injEq] at h
        rw [← h.2, List.length_drop]; omega
      · simp only [Option.some.injEq, Prod.mk.injEq] at h
        rw [← h.2, List.length_drop]; omega
      · simp only [Option.some.injEq, Prod.mk.injEq] at h
        rw [← h.2]; exact hpos

theorem ReadLine_short (line rest : Bytes) (h10 : 10 ∉ line) (h13 : line.getLast? ≠ some 13)
    (hlen : line.length < 4096) : ReadLine (line ++ 10 :: rest) = some (line, rest) := by
  have htake : (line ++ 10 :: rest).take 4096
      = line ++ 10 :: rest.take (4096 - line.length - 1) := by
    rw [List.take_append_eq_append_take, List.take_of_length_le (by omega)]
    obtain ⟨k, hk⟩ : ∃ k, 4096 - line.length = k + 1 := ⟨4096 - line.length - 1, by omega⟩
    rw [hk, List.take_succ_cons]
    congr 3
  have hi : indexByte 10 ((line ++ 10 :: rest).take 4096) = some line.length := by
    rw [htake]; exact indexByte_append 10 line _ h10
  have ht : (line ++ 10 :: rest).take line.length = line := by
    rw [List.take_append_eq_append_take]; simp
  have hd : (line ++ 10 :: rest).drop (line.length + 1) = rest := by
    rw [List.drop_append_eq_append_drop]; simp
  unfold ReadLine
  simp only [List.append_eq_nil, List.cons_ne_nil, and_false, if_false, hi, ht, hd, h13]

theorem ReadLine_full (line rest : Bytes) (h10 : 10 ∉ line) (h13 : line.getLast? ≠ some 13)
    (hlen : line.length = 4096) : ReadLine (line ++ 10 :: rest) = some (line, 10 :: rest) := by
  have htake : (line ++ 10 :: rest).take 4096 = line := by
    rw [List.take_append_eq_append_take, List.take_of_length_le (by omega)]; simp [hlen]
  have hd : (line ++ 10 :: rest).drop 4096 = 10 :: rest := by
    rw [List.drop_append_eq_append_drop]; simp [hlen]
  have hl : 4096 ≤ (line ++ 10 :: rest).length := by simp; omega
  unfold ReadLine
  simp only [List.append_eq_nil, List.cons_ne_nil, and_false, if_false, htake,
    indexByte_not_mem 10 line h10, hl, if_true, h13, hd]

theorem ReadLine_newline (rest : Bytes) : ReadLine (10 :: rest) = some ([], rest) :=
  ReadLine_short [] rest (by simp) (by simp) (by simp)

theorem loadConfigLoop_fuel (ParseIP : Bytes → Bytes) (Atoi : Bytes → Option Int) :
    ∀ (n : Nat) (conf : Bytes) (g : Globals) (level fuel1 fuel2 : Nat), conf.length ≤ n →
      conf.length < fuel1 → conf.length < fuel2 →
      loadConfigLoop ParseIP Atoi fuel1 conf g level
        = loadConfigLoop ParseIP Atoi fuel2 conf g level := by
  intro n
  induction n with
  | zero =>
    intro conf g level fuel1 fuel2 hn h1 h2
    obtain ⟨f1, rfl⟩ : ∃ f, fuel1 = f + 1 := ⟨fuel1 - 1, by omega⟩
    obtain ⟨f2, rfl⟩ : ∃ f, fuel2 = f + 1 := ⟨fuel2 - 1, by omega⟩
    have hnil : conf = [] := List.length_eq_zero.mp (by omega)
    subst hnil
    simp [loadConfigLoop, ReadLine]
  | succ n ih =>
    intro conf g level fuel1 fuel2 hn h1 h2
    obtain ⟨f1, rfl⟩ : ∃ f, fuel1 = f + 1 := ⟨fuel1 - 1, by omega⟩
    obtain ⟨f2, rfl⟩ : ∃ f, fuel2 = f + 1 := ⟨fuel2 - 1, by omega⟩
    rw [loadConfigLoop, loadConfigLoop]
    cases hr : ReadLine conf with
    | none => rfl
    | some p =>
      obtain ⟨line, rest⟩ := p
      have hs := ReadLine_shrinks conf line rest hr
      simp only []
      cases hline : loadConfigLine ParseIP Atoi g level line with
      | error e => rfl
      | ok r =>
        cases r with
        | none => rfl
        | some q =>
          obtain ⟨g', level'⟩ := q
          simp only [bind_ok]
          exact ih rest g' level' f1 f2 (by omega) (by omega) (by omega)

theorem loadConfigLoop_line (ParseIP : Bytes → Bytes) (Atoi : Bytes → Option Int) (g : Globals)
    (level fuel : Nat) (line rest : Bytes) (h10 : 10 ∉ line) (h13 : line.getLast? ≠ some 13)
    (hlen : line.length ≤ 4096) (hfuel : (line ++ 10 :: rest).length < fuel) :
    loadConfigLoop ParseIP Atoi fuel (line ++ 10 :: rest) g level
      = (do
          match ← loadConfigLine ParseIP Atoi g level line with
          | none => .ok none
          | some (g, level) => loadConfigLoop ParseIP Atoi (rest.length + 1) rest g level) := by
  obtain ⟨f, rfl⟩ : ∃ f, fuel = f + 1 := ⟨fuel - 1, by omega⟩
  have hl : (line ++ 10 :: rest).length = line.length + rest.length + 1 := by simp; omega
  rw [loadConfigLoop]
  by_cases hshort : line.length < 4096
  · rw [ReadLine_short line rest h10 h13 hshort]
    simp only []
    cases hline : loadConfigLine ParseIP Atoi g level line with
    | error e => rfl
    | ok r =>
      cases r with
      | none => rfl
      | some q =>
        obtain ⟨g', level'⟩ := q
        simp only [bind_ok]
        exact loadConfigLoop_fuel ParseIP Atoi rest.length rest g' level' f (rest.length + 1)
          (Nat.le_refl _) (by omega) (by omega)
  · rw [ReadLine_full line rest h10 h13 (by omega)]
    simp only []
    cases hline : loadConfigLine ParseIP Atoi g level line with
    | error e => rfl
    | ok r =>
      cases r with
      | none => rfl
      | some q =>
        obtain ⟨g', level'⟩ := q
        obtain ⟨f', rfl⟩ : ∃ f', f = f' + 1 := ⟨f - 1, by omega⟩
        have hempty : loadConfigLine ParseIP Atoi g' level' [] = .ok (some (g', level')) := rfl
        simp only [bind_ok]
        rw [loadConfigLoop, ReadLine_newline]
        simp only [hempty, bind_ok]
        exact loadConfigLoop_fuel ParseIP Atoi rest.length rest g' level' f' (rest.length + 1)
          (Nat.le_refl _) (by omega) (by omega)

theorem configFile_append (before rest : List Bytes) :
    configFile (before ++ rest) = configFile before ++ configFile rest := by
  induction before with
  | nil => rfl
  | cons l ls ih => simp [configFile, ih]

theorem loadConfigLoop_append (ParseIP : Bytes → Bytes) (Atoi : Bytes → Option Int)
    (before : List Bytes) :
    ∀ (rest : Bytes) (g : Globals) (level : Nat),
      (∀ l ∈ before, 10 ∉ l ∧ l.getLast? ≠ some 13 ∧ l.length ≤ 4096) →
      (∀ l ∈ before, ∀ v, (l = ascii "ttl" ++ 61 :: v ∨ l = ascii "mss" ++ 61 :: v
        ∨ l = ascii "log" ++ 61 :: v) → Atoi v ≠ none) →
      ∃ g1, loadConfigLoop ParseIP Atoi ((configFile before ++ rest).length + 1)
            (configFile before ++ rest) g level
        = loadConfigLoop ParseIP Atoi (rest.length + 1) rest g1
            (((before.filterMap levelDirective).getLast?).getD level) := by
  induction before with
  | nil => intro rest g level _ _; exact ⟨g, rfl⟩
  | cons l ls ih =>
    intro rest g level hclean hnum
    obtain ⟨h10, h13, hlen⟩ := hclean l (by simp)
    obtain ⟨g', hstep, -⟩ := loadConfigLine_step ParseIP Atoi g level l
      (fun v hv => hnum l (by simp) v hv)
    obtain ⟨g1, h1⟩ := ih rest g' ((levelDirective l).getD level)
      (fun l' hl' => hclean l' (by simp [hl'])) (fun l' hl' => hnum l' (by simp [hl']))
    refine ⟨g1, ?_⟩
    have e : configFile (l :: ls) ++ rest = l ++ 10 :: (configFile ls ++ rest) := by
      simp [configFile]
    rw [level_cons, ← h1, e,
      loadConfigLoop_line ParseIP Atoi g level _ l _ h10 h13 hlen (Nat.lt_succ_self _)]
    simp only [hstep, bind_ok]

theorem loadConfigLoop_frame (ParseIP : Bytes → Bytes) (Atoi : Bytes → Option Int)
    (lines : List Bytes) :
    ∀ (g : Globals) (level : Nat),
      (∀ l ∈ lines, 10 ∉ l ∧ l.getLast? ≠ some 13 ∧ l.length ≤ 4096) →
      (∀ l ∈ lines, ∀ v, (l = ascii "ttl" ++ 61 :: v ∨ l = ascii "mss" ++ 61 :: v
        ∨ l = ascii "log" ++ 61 :: v) → Atoi v ≠ none) →
      ∃ g', loadConfigLoop ParseIP Atoi ((configFile lines).length + 1) (configFile lines) g level
          = .ok (some g')
        ∧ (∀ d, (∀ l ∈ lines, l ≠ d ∧ ∀ v, l ≠ d ++ 61 :: v) → g'.DomainMap d = g.DomainMap d)
        ∧ (∀ ip, (∀ l ∈ lines, ∀ k v, l = k ++ 61 :: v → 61 ∉ k → ip ∉ splitCommas v) →
            g'.IPMap ip = g.IPMap ip) := by
  induction lines with
  | nil =>
    intro g level _ _
    exact ⟨g, by simp [configFile, loadConfigLoop, ReadLine], fun _ _ => rfl, fun _ _ => rfl⟩
  | cons l ls ih =>
    intro g level hclean hnum
    obtain ⟨h10, h13, hlen⟩ := hclean l (by simp)
    obtain ⟨g1, hstep, hd1, hi1⟩ := loadConfigLine_step ParseIP Atoi g level l
      (fun v hv => hnum l (by simp) v hv)
    obtain ⟨g2, hloop, hd2, hi2⟩ := ih g1 ((levelDirective l).getD level)
      (fun l' hl' => hclean l' (by simp [hl'])) (fun l' hl' => hnum l' (by simp [hl']))
    refine ⟨g2, ?_, fun d hd => ?_, fun ip hip => ?_⟩
    · rw [configFile,
        loadConfigLoop_line ParseIP Atoi g level _ l _ h10 h13 hlen (Nat.lt_succ_self _)]
      simp only [hstep, bind_ok, hloop]
    · rw [hd2 d (fun l' hl' => hd l' (by simp [hl'])),
        hd1 d (hd l (by simp)).1 (hd l (by simp)).2]
    · rw [hi2 ip (fun l' hl' => hip l' (by simp [hl'])), hi1 ip (hip l (by simp))]

theorem loadConfigLine_bind (ParseIP : Bytes → Bytes) (Atoi : Bytes → Option Int) (g : Globals)
    (level : Nat) (d value : Bytes) (h61 : 61 ∉ d) (h35 : d.head? ≠ some 35)
    (hd : d ∉ [ascii "server", ascii "ttl", ascii "mss", ascii "log"]) :
    ∃ c, loadConfigLine ParseIP Atoi g level (d ++ 61 :: value)
        = .ok (some ({ g with IPMap := bindIPs g.IPMap level (splitCommas value),
                              DomainMap := mapSet g.DomainMap d c }, level))
      ∧ c.Level = level % 65536 := by
  obtain ⟨c4, a4, h4⟩ := packAnswers_total ParseIP (splitCommas value) 1
  obtain ⟨c6, a6, h6⟩ := packAnswers_total ParseIP (splitCommas value) 28
  have hlen : (d ++ 61 :: value).length > 0 := by simp
  have hhead : (d ++ 61 :: value).head? ≠ some 35 := by
    cases d with
    | nil => simp
    | cons a t => simpa using h35
  simp only [List.mem_cons, List.mem_singleton, List.not_mem_nil, or_false, not_or] at hd
  obtain ⟨k1, k2, k3, k4⟩ := hd
  refine ⟨⟨level % 65536, c4 % 65536, c6 % 65536, a4, a6⟩, ?_, rfl⟩
  unfold loadConfigLine
  rw [splitKeyValue_append d value h61]
  simp only [hlen, hhead, if_true, if_false, k1, k2, k3, k4, h4, h6, bind_ok]

theorem loadConfigLine_token (ParseIP : Bytes → Bytes) (Atoi : Bytes → Option Int) (g : Globals)
    (level : Nat) (token : Bytes) (hne : token ≠ []) (h61 : 61 ∉ token)
    (h35 : token.head? ≠ some 35) (h1 : token ≠ ascii "local-dns") (h2 : token ≠ ascii "ipv6") :
    loadConfigLine ParseIP Atoi g level token
      = .ok (some ({ g with DomainMap := mapSet g.DomainMap token ⟨level % 65536, 0, 0, [], []⟩ },
          level)) := by
  have hlen : token.length > 0 := List.length_pos.mpr hne
  have hs : splitKeyValue token = [token] := by
    rcases splitKeyValue_cases token with ⟨hs, -⟩ | ⟨k, v, -, hl, -⟩
    · exact hs
    · exact absurd (by rw [hl]; simp) h61
  unfold loadConfigLine
  rw [hs]
  simp only [hlen, h35, if_true, if_false, List.headD_cons, h1, h2]

end LoadConfigLoop

section LoadConfigBinding

/-- C15 as amended: for all config lines `before` and `after` that
`ReadLine` delivers whole (at most 4096 bytes, no line terminator inside) and
in which every `ttl=`, `mss=` and `log=` line carries a number (so that
`loadConfig` reports no error), `loadConfig` on the file of these lines
returns, and (1) a line `d=ip1,...,ipn` between them, itself of at most 4096
bytes, with `d` not starting with `#` and none of `server`, `ttl`, `mss`,
`log`, leaves `DomainMap[d].Level` at the `k` of the last `#LEVELk` in
`before` (0 without one) unless a line of `after` is `d` or `d=...`, and
`IPMap[ip_i]` at that level unless a line of `after` lists `ip_i` after its
first `=`; (2) a bare token other than `local-dns` and `ipv6` between them
leaves `DomainMap[token]` at that level with both answer counts 0 and no
answers, unless a line of `after` is `token` or `token=...`. -/
theorem loadConfig_binding (ParseIP : Bytes → Bytes) (Atoi : Bytes → Option Int) (g : Globals)
    (before after : List Bytes)
    (hclean : ∀ l ∈ before ++ after, 10 ∉ l ∧ l.getLast? ≠ some 13 ∧ l.length ≤ 4096)
    (hnum : ∀ l ∈ before ++ after, ∀ v, (l = ascii "ttl" ++ 61 :: v ∨ l = ascii "mss" ++ 61 :: v
      ∨ l = ascii "log" ++ 61 :: v) → Atoi v ≠ none) :
    (∀ (d : Bytes) (ips : List Bytes), 61 ∉ d → d.head? ≠ some 35 →
      d ∉ [ascii "server", ascii "ttl", ascii "mss", ascii "log"] → ips ≠ [] →
      (∀ ip ∈ ips, 44 ∉ ip) → 10 ∉ d ++ 61 :: joinCommas ips →
      (d ++ 61 :: joinCommas ips).getLast? ≠ some 13 →
      (d ++ 61 :: joinCommas ips).length ≤ 4096 →
      ∃ g', loadConfig ParseIP Atoi
            (configFile (before ++ (d ++ 61 :: joinCommas ips) :: after)) g = .ok (some g')
        ∧ ((∀ l ∈ after, l ≠ d ∧ ∀ v, l ≠ d ++ 61 :: v) →
            ∃ c, g'.DomainMap d = some c ∧ c.Level = currentLevel before)
        ∧ (∀ ip ∈ ips, (∀ l ∈ after, ∀ k v, l = k ++ 61 :: v → 61 ∉ k → ip ∉ splitCommas v) →
            g'.IPMap ip = some (currentLevel before)))
    ∧ (∀ token : Bytes, token ≠ [] → 61 ∉ token → token.head? ≠ some 35 →
      token ≠ ascii "local-dns" → token ≠ ascii "ipv6" → 10 ∉ token →
      token.getLast? ≠ some 13 → token.length ≤ 4096 →
      ∃ g', loadConfig ParseIP Atoi (configFile (before ++ token :: after)) g = .ok (some g')
        ∧ ((∀ l ∈ after, l ≠ token ∧ ∀ v, l ≠ token ++ 61 :: v) →
            g'.DomainMap token = some ⟨currentLevel before, 0, 0, [], []⟩)) := by
  have hcb : ∀ l ∈ before, 10 ∉ l ∧ l.getLast? ≠ some 13 ∧ l.length ≤ 4096 :=
    fun l hl => hclean l (List.mem_append_left _ hl)
  have hca : ∀ l ∈ after, 10 ∉ l ∧ l.getLast? ≠ some 13 ∧ l.length ≤ 4096 :=
    fun l hl => hclean l (List.mem_append_right _ hl)
  have hb : ∀ l ∈ before, ∀ v, (l = ascii "ttl" ++ 61 :: v ∨ l = ascii "mss" ++ 61 :: v
      ∨ l = ascii "log" ++ 61 :: v) → Atoi v ≠ none :=
    fun l hl => hnum l (List.mem_append_left _ hl)
  have ha : ∀ l ∈ after, ∀ v, (l = ascii "ttl" ++ 61 :: v ∨ l = ascii "mss" ++ 61 :: v
      ∨ l = ascii "log" ++ 61 :: v) → Atoi v ≠ none :=
    fun l hl => hnum l (List.mem_append_right _ hl)
  have hmod : currentLevel before % 65536 = currentLevel before := by
    have := currentLevel_le before; omega
  have hfile : ∀ line : Bytes, configFile (before ++ line :: after)
      = configFile before ++ (line ++ 10 :: configFile after) := by
    intro line
    rw [configFile_append, configFile]
  constructor
  · intro d ips h61 h35 hd hne hips h10 h13 hlen
    obtain ⟨g1, h1⟩ := loadConfigLoop_append ParseIP Atoi before
      ((d ++ 61 :: joinCommas ips) ++ 10 :: configFile after)
      { g with DomainMap := fun _ => none, IPMap := fun _ => none } 0 hcb hb
    obtain ⟨c, hline, hc⟩ := loadConfigLine_bind ParseIP Atoi g1 (currentLevel before) d
      (joinCommas ips) h61 h35 hd
    rw [splitCommas_join ips hne hips] at hline
    obtain ⟨g2, h2, hd2, hi2⟩ := loadConfigLoop_frame ParseIP Atoi after
      { g1 with IPMap := bindIPs g1.IPMap (currentLevel before) ips,
                DomainMap := mapSet g1.DomainMap d c } (currentLevel before) hca ha
    refine ⟨g2, ?_, fun hafter => ⟨c, ?_, by rw [hc, hmod]⟩, fun ip hip hafter => ?_⟩
    · unfold loadConfig
      rw [hfile, h1, loadConfigLoop_line ParseIP Atoi g1 _ _ _ _ h10 h13 hlen (Nat.lt_succ_self _)]
      simp only [currentLevel] at hline ⊢
      simp only [hline, bind_ok]
      exact h2
    · rw [hd2 d hafter]
      simp [mapSet]
    · rw [hi2 ip hafter]
      simp only []
      rw [bindIPs_apply, if_pos hip]
  · intro token hne h61 h35 t1 t2 h10 h13 hlen
    obtain ⟨g1, h1⟩ := loadConfigLoop_append ParseIP Atoi before
      (token ++ 10 :: configFile after)
      { g with DomainMap := fun _ => none, IPMap := fun _ => none } 0 hcb hb
    have hline := loadConfigLine_token ParseIP Atoi g1 (currentLevel before) token hne h61 h35
      t1 t2
    obtain ⟨g2, h2, hd2, -⟩ := loadConfigLoop_frame ParseIP Atoi after
      { g1 with DomainMap := mapSet g1.DomainMap token ⟨currentLevel before % 65536, 0, 0, [], []⟩ }
      (currentLevel before) hca ha
    refine ⟨g2, ?_, fun hafter => ?_⟩
    · unfold loadConfig
      rw [hfile, h1, loadConfigLoop_line ParseIP Atoi g1 _ _ _ _ h10 h13 hlen (Nat.lt_succ_self _)]
      simp only [currentLevel] at hline ⊢
      simp only [hline, bind_ok]
      exact h2
    · rw [hd2 token hafter, hmod]
      simp [mapSet]

/-- Witness of `loadConfig_binding`: `b.com` is bound at level 2 and then
again, after `#LEVEL3`, by the line in question; `#LEVEL1` and the bare token
`c.com` follow. -/
theorem loadConfig_binding_witness :
    (∃ g', loadConfig sampleParseIP sampleAtoi
          (configFile ([ascii "#LEVEL2", ascii "b.com=5.6.7.8", ascii "#LEVEL3", ascii "# note",
              ascii "ttl=64"]
            ++ (ascii "b.com" ++ 61 :: joinCommas [ascii "1.2.3.4", ascii "::1"])
              :: [ascii "#LEVEL1", ascii "c.com"])) initialGlobals = .ok (some g')
        ∧ (∃ c, g'.DomainMap (ascii "b.com") = some c ∧ c.Level = 3)
        ∧ g'.IPMap (ascii "1.2.3.4") = some 3 ∧ g'.IPMap (ascii "::1") = some 3)
      ∧ (∃ g', loadConfig sampleParseIP sampleAtoi
          (configFile ([ascii "#LEVEL2", ascii "b.com=5.6.7.8", ascii "#LEVEL3", ascii "# note",
              ascii "ttl=64"]
            ++ ascii "d.com" :: [ascii "#LEVEL1", ascii "c.com"])) initialGlobals
          = .ok (some g')
        ∧ g'.DomainMap (ascii "d.com") = some ⟨3, 0, 0, [], []⟩) := by
  have T := loadConfig_binding sampleParseIP sampleAtoi initialGlobals
    [ascii "#LEVEL2", ascii "b.com=5.6.7.8", ascii "#LEVEL3", ascii "# note", ascii "ttl=64"]
    [ascii "#LEVEL1", ascii "c.com"]
    (by decide)
    (by
      intro l hl v hv
      simp only [List.mem_append, List.mem_cons, List.mem_singleton, List.not_mem_nil,
        or_false] at hl
      rcases hl with (rfl | rfl | rfl | rfl | rfl) | rfl | rfl
      all_goals simp [ascii] at hv
      rw [← hv]; decide)
  have hlevel : currentLevel [ascii "#LEVEL2", ascii "b.com=5.6.7.8", ascii "#LEVEL3",
      ascii "# note", ascii "ttl=64"] = 3 := by decide
  rw [hlevel] at T
  have hip : ∀ ip : Bytes, ∀ l ∈ [ascii "#LEVEL1", ascii "c.com"], ∀ k v : Bytes,
      l = k ++ 61 :: v → 61 ∉ k → ip ∉ splitCommas v := by
    intro ip l hl k v h _
    have h61 : 61 ∈ l := by rw [h]; simp
    simp only [List.mem_cons, List.mem_singleton, List.not_mem_nil, or_false] at hl
    rcases hl with rfl | rfl
    · exact absurd h61 (by decide)
    · exact absurd h61 (by decide)
  constructor
  · obtain ⟨g', h1, h2, h3⟩ := T.1 (ascii "b.com") [ascii "1.2.3.4", ascii "::1"] (by decide)
      (by decide) (by decide) (by decide) (by decide) (by decide) (by decide) (by decide)
    refine ⟨g', h1, h2 ?_, h3 _ (by decide) (hip _), h3 _ (by decide) (hip _)⟩
    intro l hl
    simp only [List.mem_cons, List.mem_singleton, List.not_mem_nil, or_false] at hl
    rcases hl with rfl | rfl
    · exact ⟨by decide, fun v hv => by simp [ascii] at hv⟩
    · exact ⟨by decide, fun v hv => by simp [ascii] at hv⟩
  · obtain ⟨g', h1, h2⟩ := T.2 (ascii "d.com") (by decide) (by decide) (by decide) (by decide)
      (by decide) (by decide) (by decide) (by decide)
    refine ⟨g', h1, h2 ?_⟩
    intro l hl
    simp only [List.mem_cons, List.mem_singleton, List.not_mem_nil, or_false] at hl
    rcases hl with rfl | rfl
    · exact ⟨by decide, fun v hv => by simp [ascii] at hv⟩
    · exact ⟨by decide, fun v hv => by simp [ascii] at hv⟩

set_option maxRecDepth 100000 in
theorem loadConfig_long_line :
    (loadConfig sampleParseIP sampleAtoi
        (configFile [List.replicate 4090 97 ++ ascii "=1.2.3.4,5.6.7.8"]) initialGlobals).map
      (fun r => r.map (fun g => (g.IPMap (ascii "1.2.3.4"), g.IPMap (ascii "5.6.7.8"),
        g.IPMap (ascii "1.2.3"), (g.DomainMap (ascii ".4,5.6.7.8")).map (fun c => c.Level))))
      = .ok (some (none, none, some 0, some 0)) := by
  decide!

theorem loadConfig_bad_number :
    (loadConfig sampleParseIP sampleAtoi (configFile [ascii "ttl=abc", ascii "a.com=1.2.3.4"])
        initialGlobals).map (fun r => r.isSome) = .ok false := by
  decide

/-- C15 fails as stated: (1) a line `d=1.2.3.4,5.6.7.8` of 4106 bytes (`d` is
4090 bytes long) reaches `loadConfig` in two pieces, the first 4096 bytes and
`.4,5.6.7.8`: neither address is put in `IPMap`, the text `1.2.3` is, and the
second piece is bound as a domain; (2) after the line `ttl=abc` `loadConfig`
returns the error and the line `a.com=1.2.3.4` that follows binds nothing. -/
theorem loadConfig_binding_counterexample :
    ((loadConfig sampleParseIP sampleAtoi
        (configFile [List.replicate 4090 97 ++ ascii "=1.2.3.4,5.6.7.8"]) initialGlobals).map
      (fun r => r.map (fun g => (g.IPMap (ascii "1.2.3.4"), g.IPMap (ascii "5.6.7.8"),
        g.IPMap (ascii "1.2.3"), (g.DomainMap (ascii ".4,5.6.7.8")).map (fun c => c.Level))))
      = .ok (some (none, none, some 0, some 0)))
    ∧ ((loadConfig sampleParseIP sampleAtoi (configFile [ascii "ttl=abc", ascii "a.com=1.2.3.4"])
        initialGlobals).map (fun r => r.isSome) = .ok false) :=
  ⟨loadConfig_long_line, loadConfig_bad_number⟩

end LoadConfigBinding

section TCPlookup

set_option maxRecDepth 100000 in
theorem TCPlookup_one_read :
    TCPlookup [9, 9, 9, 9, 9, 9] [[0, 4, 1, 2, 3, 4]] = .ok (some [1, 2, 3, 4]) := by
  decide!

set_option maxRecDepth 100000 in
theorem TCPlookup_two_reads :
    TCPlookup [9, 9, 9, 9, 9, 9] [[0, 4, 1], [2, 3, 4]] = .ok (some [1, 9, 9, 9]) := by
  decide!

/-- C21, evaluation at the failing input: the response `00 04 01 02 03 04`
(declared length 4) to the 6-byte request `09 09 09 09 09 09`.  Delivered in
one read, `TCPlookup` returns the payload `01 02 03 04`; delivered as
`00 04 01` then `02 03 04`, the second read is stored at `data[6:]` instead of
`data[3:]` and `TCPlookup` returns `01 09 09 09`, the first payload byte
followed by bytes of the request. -/
theorem TCPlookup_split_reads :
    TCPlookup [9, 9, 9, 9, 9, 9] [[0, 4, 1, 2, 3, 4]] = .ok (some [1, 2, 3, 4])
      ∧ TCPlookup [9, 9, 9, 9, 9, 9] [[0, 4, 1], [2, 3, 4]] = .ok (some [1, 9, 9, 9]) :=
  ⟨TCPlookup_one_read, TCPlookup_two_reads⟩

end TCPlookup

section DomainLookupExact

theorem dotSuffix_eq (s : Bytes) : dotSuffix s = (indexDot s).map (fun p => s.drop p) := by
  induction s with
  | nil => rfl
  | cons c s ih =>
    by_cases hc : c = 46
    · simp [dotSuffix, indexDot, hc]
    · simp only [dotSuffix, indexDot, hc, if_false, ih, Option.map_map]
      rfl

theorem tail_drop (s : Bytes) (p : Nat) : (s.drop p).tail = s.drop (p + 1) := by
  rw [List.tail_drop]

/-- C23: for every `DomainMap` and every `qname`, `domainLookup` returns
`DomainMap[qname]` when `qname` is a key; otherwise, with `s1` the suffix of
`qname` from its first `.` on and `s2` the suffix from its second `.` on (the
first `.` of `s1` without its leading dot), it returns `DomainMap[s1]` when
`s1` exists and is a key, else `DomainMap[s2]` when `s2` exists and is a key,
else the level-0 `Config`; the result is a function of the map at these three
keys only.  So the single key `.example.com` gives its `Config` to
`a.example.com` and `a.b.example.com`, and the level-0 `Config` to
`example.com` and `a.b.c.example.com`. -/
theorem domainLookup_exact (DomainMap : DomainTable) (qname : Bytes) :
    domainLookup DomainMap qname
        = (match DomainMap qname with
          | some config => config
          | none =>
            match dotSuffix qname with
            | none => level0
            | some s1 =>
              match DomainMap s1 with
              | some config => config
              | none =>
                match dotSuffix s1.tail with
                | none => level0
                | some s2 => (DomainMap s2).getD level0)
      ∧ domainLookup (singleKey (ascii ".example.com") ⟨1, 0, 0, [], []⟩) (ascii "a.example.com")
          = ⟨1, 0, 0, [], []⟩
      ∧ domainLookup (singleKey (ascii ".example.com") ⟨1, 0, 0, [], []⟩)
          (ascii "a.b.example.com") = ⟨1, 0, 0, [], []⟩
      ∧ domainLookup (singleKey (ascii ".example.com") ⟨1, 0, 0, [], []⟩) (ascii "example.com")
          = level0
      ∧ domainLookup (singleKey (ascii ".example.com") ⟨1, 0, 0, [], []⟩)
          (ascii "a.b.c.example.com") = level0 := by
  refine ⟨?_, by decide, by decide, by decide, by decide⟩
  unfold domainLookup
  cases DomainMap qname with
  | some c => rfl
  | none =>
    simp only [domainLookupLoop, List.drop_zero, Nat.zero_add, dotSuffix_eq qname]
    cases indexDot qname with
    | none => rfl
    | some p =>
      simp only [Option.map_some']
      cases DomainMap (qname.drop p) with
      | some c => rfl
      | none =>
        simp only [tail_drop, dotSuffix_eq (qname.drop (p + 1))]
        cases indexDot (qname.drop (p + 1)) with
        | none => rfl
        | some p2 =>
          simp only [Option.map_some', List.drop_drop]
          cases DomainMap (qname.drop (p + 1 + p2)) <;> rfl

end DomainLookupExact

section GetAnswersSafe

theorem getAnswersLoop_bound (S : Bytes → Bytes) (answers : Bytes) :
    ∀ (n offset : Nat) (ips : List Bytes),
      ∃ r, getAnswersLoop S answers n offset ips = .ok r
        ∧ ∀ out, r = some out → out.length ≤ ips.length + n := by
  intro n
  induction n with
  | zero =>
    intro offset ips
    exact ⟨some ips, rfl, fun out h => by cases h; omega⟩
  | succ n ih =>
    intro offset ips
    have hnone : ∀ out : List Bytes, (none : Option (List Bytes)) = some out →
        out.length ≤ ips.length + (n + 1) := fun out h => by cases h
    have hstep : ∀ (x : Bytes) (r' : Option (List Bytes)),
        (∀ out, r' = some out → out.length ≤ (ips ++ [x]).length + n) →
        ∀ out, r' = some out → out.length ≤ ips.length + (n + 1) := by
      intro x r' h out ho
      have := h out ho
      simp only [List.length_append, List.length_cons, List.length_nil] at this
      omega
    obtain ⟨r, hr⟩ := skipName_total answers (answers.length + 1) offset (by omega) (by omega)
    rw [getAnswersLoop]
    simp only [hr, bind_ok]
    cases r with
    | none => exact ⟨none, rfl, hnone⟩
    | some off =>
      simp only []
      by_cases h1 : off + 2 > answers.length
      · exact ⟨none, by simp only [h1, if_true], hnone⟩
      · obtain ⟨hs1, hl1⟩ := slice_ok answers off (off + 2) (by omega) (by omega)
        obtain ⟨ty, hty⟩ := Uint16_ok_of_length _ (by rw [hl1]; omega)
        simp only [h1, if_false, hs1, bind_ok, hty]
        by_cases h2 : off + 8 + 2 > answers.length
        · exact ⟨none, by simp only [h2, if_true], hnone⟩
        · obtain ⟨hs2, hl2⟩ := slice_ok answers (off + 8) (off + 8 + 2) (by omega) (by omega)
          obtain ⟨dl, hdl⟩ := Uint16_ok_of_length _ (by rw [hl2]; omega)
          simp only [h2, if_false, hs2, bind_ok, hdl]
          by_cases ht1 : ty = 1
          · subst ht1
            by_cases h3 : off + 8 + 2 + 4 > answers.length
            · exact ⟨none, by simp only [if_true, h3, bind_ok], hnone⟩
            · obtain ⟨hs3, hl3⟩ := slice_ok answers (off + 8 + 2) (off + 8 + 2 + 4) (by omega)
                (by omega)
              rcases hd : (answers.take (off + 8 + 2 + 4)).drop (off + 8 + 2) with
                _ | ⟨a, _ | ⟨b, _ | ⟨c, _ | ⟨d, t⟩⟩⟩⟩ <;> rw [hd] at hl3 <;>
                simp at hl3
              rw [hd] at hs3
              obtain ⟨r', hr', hb'⟩ := ih (off + 8 + 2 + dl) (ips ++ [S (IPv4 a b c d)])
              exact ⟨r', by
                simp only [if_true, h3, if_false, hs3, bind_ok, byteAt,
                  List.getElem?_cons_zero, List.getElem?_cons_succ, hr'], hstep _ r' hb'⟩
          · by_cases ht28 : ty = 28
            · subst ht28
              have ht1 : ¬ ((28 : Nat) = 1) := by decide
              by_cases h3 : off + 8 + 2 + 16 > answers.length
              · exact ⟨none, by simp only [ht1, if_false, if_true, h3, bind_ok], hnone⟩
              · obtain ⟨hs3, _⟩ := slice_ok answers (off + 8 + 2) (off + 8 + 2 + 16) (by omega)
                  (by omega)
                obtain ⟨r', hr', hb'⟩ := ih (off + 8 + 2 + dl)
                  (ips ++ [S ((answers.take (off + 8 + 2 + 16)).drop (off + 8 + 2))])
                exact ⟨r', by
                  simp only [ht1, if_false, if_true, h3, hs3, bind_ok, hr'], hstep _ r' hb'⟩
            · obtain ⟨r', hr', hb'⟩ := ih (off + 8 + 2 + dl) ips
              exact ⟨r', by simp only [ht1, if_false, ht28, bind_ok, hr'],
                fun out ho => by have := hb' out ho; omega⟩

/-- C22: for every byte sequence `answers`, every `count` and every printing
function, `getAnswers` returns: the owner-name loop ends within
`len(answers) + 1` rounds, no index or slice is taken outside `answers`, and
the result is either `nil` or a list of at most `count` addresses. -/
theorem getAnswers_safe (IPString : Bytes → Bytes) (answers : Bytes) (count : Nat) :
    ∃ r, getAnswers IPString answers count = .ok r
      ∧ (r = none ∨ ∃ ips, r = some ips ∧ ips.length ≤ count) := by
  obtain ⟨r, hr, hb⟩ := getAnswersLoop_bound IPString answers count 0 []
  refine ⟨r, hr, ?_⟩
  cases r with
  | none => exact Or.inl rfl
  | some ips =>
    have := hb ips rfl
    exact Or.inr ⟨ips, rfl, by simpa using this⟩

end GetAnswersSafe

section GetQNameMalformed

theorem getQNameCap_nil (buf : Bytes) : getQNameCap buf [] = getQName buf := by
  unfold getQNameCap getQName
  rw [List.append_nil]

end GetQNameMalformed

section StartServiceReinject

/-- C13 as amended: for every captured SYN of at least `H + 20` bytes (a
complete TCP header), one round of the capture loop of `StartService`
re-injects one packet, the captured SYN with at most the MSS bytes `H + 22`,
`H + 23` rewritten, and stays in the loop, unless the destination is in
`IPMap` at a level above 2 and the SYN is shorter than `H + 24` bytes (it
carries no TCP options): then the round sends nothing and leaves the loop by
`return`. -/
theorem StartService_reinjects (g : Globals) (DstIP : Bytes → Bytes) (Raw : Bytes) (b0 H : Nat)
    (hb0 : Raw.head? = some b0) (hH : ipHeadLen b0 = H) (hlen : H + 20 ≤ Raw.length) :
    (∀ L, g.IPMap (DstIP Raw) = some L → L > 2 → Raw.length < H + 24 →
        StartServiceStep g DstIP Raw = .ok ⟨[], none, true⟩)
      ∧ ((∀ L, g.IPMap (DstIP Raw) = some L → L > 2 → H + 24 ≤ Raw.length) →
        ∃ out pkt, StartServiceStep g DstIP Raw = .ok out ∧ out.sent = [pkt]
          ∧ out.stopped = false ∧ pkt.Raw.length = Raw.length
          ∧ (∀ i, i ≠ H + 22 → i ≠ H + 23 → pkt.Raw[i]? = Raw[i]?)) := by
  obtain ⟨rest, rfl⟩ : ∃ rest, Raw = b0 :: rest := by
    cases Raw with
    | nil => simp at hb0
    | cons a t => simp at hb0; exact ⟨t, by rw [hb0]⟩
  have hb : byteAt (b0 :: rest) 0 = .ok b0 := by simp [byteAt]
  obtain ⟨p0, hp0⟩ := getElem?_some_of_lt (b0 :: rest) H (by omega)
  obtain ⟨p1, hp1⟩ := getElem?_some_of_lt (b0 :: rest) (H + 1) (by omega)
  have hport : Uint16 ((b0 :: rest).drop H) = .ok (p0 * 256 + p1) := Uint16_drop _ _ _ _ hp0 hp1
  have hsl : sliceFrom (b0 :: rest) H = .ok ((b0 :: rest).drop H) := by
    simp only [sliceFrom, show H ≤ (b0 :: rest).length by omega, if_true]
  constructor
  · intro L hL h2 hshort
    simp only [StartServiceStep, hL, hb, bind_ok, hH, rewriteMSS, h2, if_true, hshort]
    rfl
  · intro hlong
    cases hL : g.IPMap (DstIP (b0 :: rest)) with
    | none =>
      refine ⟨⟨[⟨b0 :: rest, false⟩], none, false⟩, _, ?_, rfl, rfl, rfl, fun _ _ _ => rfl⟩
      simp only [StartServiceStep, hL]
      rfl
    | some L =>
      by_cases h2 : L > 2
      · have h24 := hlong L hL h2
        have hL1 : L > 1 := by omega
        have hnlt : ¬ ((b0 :: rest).length < H + 24) := by omega
        obtain ⟨x, hx⟩ := getElem?_some_of_lt (b0 :: rest) (H + 20) (by omega)
        by_cases hopt : x = 2
        · have hput : PutUint16 (b0 :: rest) (H + 22) (g.MSS % 65536).toNat
              = .ok (put16 (b0 :: rest) (H + 22) (g.MSS % 65536).toNat) := by
            simp only [PutUint16, show H + 22 + 2 ≤ (b0 :: rest).length by omega, if_true]
          have hport' : Uint16 ((put16 (b0 :: rest) (H + 22) (g.MSS % 65536).toNat).drop H)
              = .ok (p0 * 256 + p1) := by
            apply Uint16_drop
            · rw [put16_out _ _ _ _ (by omega)]; exact hp0
            · rw [put16_out _ _ _ _ (by omega)]; exact hp1
          have hsl' : sliceFrom (put16 (b0 :: rest) (H + 22) (g.MSS % 65536).toNat) H
              = .ok ((put16 (b0 :: rest) (H + 22) (g.MSS % 65536).toNat).drop H) := by
            simp only [sliceFrom, length_put16, show H ≤ (b0 :: rest).length by omega, if_true]
          refine ⟨⟨[⟨put16 (b0 :: rest) (H + 22) (g.MSS % 65536).toNat, true⟩],
            some (p0 * 256 + p1, g.TTL), false⟩, _, ?_, rfl, rfl, by simp,
            fun i h22 h23 => put16_out _ _ _ _ (by omega)⟩
          simp only [StartServiceStep, hL, hb, bind_ok, hH, rewriteMSS, h2, if_true, hnlt,
            if_false, byteAt_of_getElem? _ _ _ hx, hopt, hput, hL1, hsl', hport']
          rfl
        · refine ⟨⟨[⟨b0 :: rest, false⟩], some (p0 * 256 + p1, g.TTL), false⟩, _, ?_, rfl, rfl,
            rfl, fun _ _ _ => rfl⟩
          simp only [StartServiceStep, hL, hb, bind_ok, hH, rewriteMSS, h2, if_true, hnlt,
            if_false, byteAt_of_getElem? _ _ _ hx, hopt, hL1, hsl, hport]
          rfl
      · by_cases hL1 : L > 1
        · refine ⟨⟨[⟨b0 :: rest, false⟩], some (p0 * 256 + p1, g.TTL), false⟩, _, ?_, rfl, rfl,
            rfl, fun _ _ _ => rfl⟩
          simp only [StartServiceStep, hL, hb, bind_ok, hH, rewriteMSS, h2, if_false, hL1,
            if_true, hsl, hport]
          rfl
        · refine ⟨⟨[⟨b0 :: rest, false⟩], none, false⟩, _, ?_, rfl, rfl, rfl, fun _ _ _ => rfl⟩
          simp only [StartServiceStep, hL, hb, bind_ok, hH, rewriteMSS, h2, if_false, hL1]
          rfl

/-- Witness of `StartService_reinjects`: a SYN without TCP options (40 bytes)
to a destination bound at level 2 is re-injected unchanged. -/
theorem StartService_reinjects_witness :
    (∀ L, ({ initialGlobals with IPMap := mapSet (fun _ => none) (ascii "93.184.216.34") 2 } :
          Globals).IPMap (sampleDstIP (synV4 [])) = some L → L > 2 →
        (synV4 []).length < 20 + 24 →
        StartServiceStep
          { initialGlobals with IPMap := mapSet (fun _ => none) (ascii "93.184.216.34") 2 }
          sampleDstIP (synV4 []) = .ok ⟨[], none, true⟩)
      ∧ ∃ out pkt, StartServiceStep
          { initialGlobals with IPMap := mapSet (fun _ => none) (ascii "93.184.216.34") 2 }
          sampleDstIP (synV4 []) = .ok out ∧ out.sent = [pkt]
        ∧ out.stopped = false ∧ pkt.Raw.length = (synV4 []).length
        ∧ (∀ i, i ≠ 20 + 22 → i ≠ 20 + 23 → pkt.Raw[i]? = (synV4 [])[i]?) :=
  ⟨(StartService_reinjects
      { initialGlobals with IPMap := mapSet (fun _ => none) (ascii "93.184.216.34") 2 }
      sampleDstIP (synV4 []) 69 20 (by decide) (by decide) (by decide)).1,
    (StartService_reinjects
      { initialGlobals with IPMap := mapSet (fun _ => none) (ascii "93.184.216.34") 2 }
      sampleDstIP (synV4 []) 69 20 (by decide) (by decide) (by decide)).2
      (fun L hL h2 => absurd (Option.some.inj (show some 2 = some L from hL)) (by omega))⟩

end StartServiceReinject

end TCPioneer
